import Mathlib

/-!
# bulkmail-tui: the queue file (internal/app/database.go)

A shallow embedding of the record codec, the record store and the queue
operations, followed by the properties proved about them.

Conventions of the embedding:

* a Go `string` is the list of its Unicode code points (`Str`);
* a `time.Time` is the civil date and clock reading it shows in its own zone,
  together with the zone offset; the functions of package `time` the program
  calls (`Format`, `Parse` with layout `time.RFC3339`, `IsZero`, `Sub`,
  `After`) are embedded over that representation;
* the clock (`time.Now()`) is an explicit argument `now`;
* the database file is a `Disk`: its text, or nothing when it cannot be
  opened, and a flag telling whether it may be written;
* `readLines` scans the file with the default buffer of `bufio.NewScanner`:
  a line of 65536 bytes or more ends the scan with `bufio.ErrTooLong`.
-/

namespace BulkMail

/-! ## Strings -/

/-- A Go string, as the list of its code points. -/
abbrev Str := List Char

/-- Go `unicode.IsSpace`: the characters `strings.TrimSpace` removes. -/
def isSpace (c : Char) : Bool :=
  let n := c.toNat
  (9 ≤ n && n ≤ 13) || n == 32 || n == 0x85 || n == 0xA0 || n == 0x1680 ||
    (0x2000 ≤ n && n ≤ 0x200A) || n == 0x2028 || n == 0x2029 || n == 0x202F ||
    n == 0x205F || n == 0x3000

/-- Go `strings.TrimSpace`. -/
def TrimSpace (s : Str) : Str :=
  (s.dropWhile isSpace).rdropWhile isSpace

/-- Go `strings.Split(s, sep)` for a one-character separator. -/
def Split (sep : Char) : Str → List Str
  | [] => [[]]
  | c :: cs =>
    if c = sep then [] :: Split sep cs
    else
      match Split sep cs with
      | [] => [[c]]
      | p :: ps => (c :: p) :: ps

/-- Go `strings.ReplaceAll(s, old, new)` for one-character `old` and `new`. -/
def ReplaceAll (s : Str) (old new : Char) : Str :=
  s.map (fun c => if c = old then new else c)

/-- Go `strings.Join(lines, "\n")`. -/
def Join : List Str → Str
  | [] => []
  | [l] => l
  | l :: ls => l ++ '\n' :: Join ls

/-! ## Package time, as far as the program uses it -/

/-- A `time.Time`: the civil reading in the value's own zone, the nanosecond
within the second, and the zone offset in seconds east of UTC. -/
structure Time where
  year : Nat
  month : Nat
  day : Nat
  hour : Nat
  minute : Nat
  second : Nat
  nsec : Nat
  offset : Int
deriving DecidableEq, Repr

/-- The zero value `time.Time{}`: January 1, year 1, 00:00:00 UTC. -/
def Time.zero : Time := ⟨1, 1, 1, 0, 0, 0, 0, 0⟩

/-- Leap years of the proleptic Gregorian calendar. -/
def isLeap (y : Nat) : Bool :=
  y % 4 == 0 && (y % 100 != 0 || y % 400 == 0)

/-- Number of days of month `m` in year `y` (Go `daysIn`). -/
def daysIn (m y : Nat) : Nat :=
  if m = 2 then (if isLeap y then 29 else 28)
  else if m = 4 ∨ m = 6 ∨ m = 9 ∨ m = 11 then 30
  else 31

/-- Days of year `y` that precede the first day of month `m`. -/
def daysBeforeMonth (m y : Nat) : Nat :=
  ((List.range (m - 1)).map (fun k => daysIn (k + 1) y)).sum

/-- Days from January 1 of year 1 to the given civil date. -/
def daysSinceEpoch (y m d : Nat) : Int :=
  let y1 : Int := (y : Int) - 1
  365 * y1 + y1 / 4 - y1 / 100 + y1 / 400 + (daysBeforeMonth m y : Int) + ((d : Int) - 1)

/-- Seconds from the zero instant (year 1, UTC) to the instant of `t`. -/
def Time.absSec (t : Time) : Int :=
  daysSinceEpoch t.year t.month t.day * 86400 + (t.hour : Int) * 3600 + (t.minute : Int) * 60
    + (t.second : Int) - t.offset

/-- Nanoseconds from the zero instant to the instant of `t`. -/
def Time.absNano (t : Time) : Int :=
  t.absSec * 1000000000 + (t.nsec : Int)

/-- A well-formed `Time`: a date of the calendar, a clock reading, a
nanosecond below one second. -/
def Time.WF (t : Time) : Prop :=
  1 ≤ t.month ∧ t.month ≤ 12 ∧ 1 ≤ t.day ∧ t.day ≤ daysIn t.month t.year ∧
    t.hour < 24 ∧ t.minute < 60 ∧ t.second < 60 ∧ t.nsec < 1000000000

instance (t : Time) : Decidable t.WF := by
  unfold Time.WF; infer_instance

/-- Go `Time.IsZero`: the instant is January 1, year 1, 00:00:00 UTC. -/
def Time.IsZero (t : Time) : Bool :=
  t.absSec == 0 && t.nsec == 0

/-- Go `Time.After`. -/
def Time.After (t u : Time) : Bool :=
  decide (u.absNano < t.absNano)

/-- Largest `time.Duration` (an int64 count of nanoseconds). -/
def maxDuration : Int := 9223372036854775807

/-- Smallest `time.Duration`. -/
def minDuration : Int := -9223372036854775808

/-- Go `Time.Sub` on wall-clock readings: the difference in nanoseconds,
saturated to the range of `time.Duration`. -/
def Time.Sub (t u : Time) : Int :=
  let d := t.absNano - u.absNano
  if d > maxDuration then maxDuration else if d < minDuration then minDuration else d

/-- The ASCII digit of a number below ten. -/
def digitChar (n : Nat) : Char := Char.ofNat (48 + n % 10)

/-- Decimal digits of `n`, most significant first (`fuel` bounds the count). -/
def decimal : Nat → Nat → Str
  | 0, _ => []
  | fuel + 1, n =>
    if n < 10 then [digitChar n]
    else decimal fuel (n / 10) ++ [digitChar n]

/-- Go `appendInt` for a non-negative number: decimal, zero-padded on the
left to at least `width` digits; two and four digit fields take the direct
path, as in the library. -/
def appendInt (x width : Nat) : Str :=
  if width = 2 ∧ x < 100 then [digitChar (x / 10), digitChar x]
  else if width = 4 ∧ x < 10000 then
    [digitChar (x / 1000), digitChar (x / 100), digitChar (x / 10), digitChar x]
  else
    let ds := decimal (x + 1) x
    List.replicate (width - ds.length) '0' ++ ds

/-- The zone part of layout `Z07:00`: `Z` for UTC, else sign, hours and minutes. -/
def formatZone (offset : Int) : Str :=
  if offset = 0 then ['Z']
  else
    let zone := Int.tdiv offset 60
    let sign := if zone < 0 then '-' else '+'
    let z := zone.natAbs
    sign :: (appendInt (z / 60) 2 ++ ':' :: appendInt (z % 60) 2)

/-- Go `t.Format(time.RFC3339)`, layout `2006-01-02T15:04:05Z07:00`. -/
def Time.Format (t : Time) : Str :=
  appendInt t.year 4 ++ '-' :: appendInt t.month 2 ++ '-' :: appendInt t.day 2 ++
    'T' :: appendInt t.hour 2 ++ ':' :: appendInt t.minute 2 ++ ':' :: appendInt t.second 2 ++
    formatZone t.offset

/-- An ASCII decimal digit. -/
def isDigit (c : Char) : Bool :=
  decide (48 ≤ c.toNat) && decide (c.toNat ≤ 57)

/-- Value of an ASCII decimal digit. -/
def digitVal (c : Char) : Nat := c.toNat - 48

/-- Go `getnum`: a number of one or two digits; `fixed` demands two. -/
def getnum (s : Str) (fixed : Bool) : Option (Nat × Str) :=
  match s with
  | [] => none
  | [c] => if isDigit c && !fixed then some (digitVal c, []) else none
  | c :: d :: rest =>
    if !isDigit c then none
    else if !isDigit d then (if fixed then none else some (digitVal c, d :: rest))
    else some (digitVal c * 10 + digitVal d, rest)

/-- The four-digit year of layout element `2006`. -/
def parseYear (s : Str) : Option (Nat × Str) :=
  match s with
  | a :: b :: c :: d :: rest =>
    if isDigit a && isDigit b && isDigit c && isDigit d then
      some (digitVal a * 1000 + digitVal b * 100 + digitVal c * 10 + digitVal d, rest)
    else none
  | _ => none

/-- Go `skip` for one literal character of the layout. -/
def skip (c : Char) (s : Str) : Option Str :=
  match s with
  | [] => none
  | x :: rest => if x = c then some rest else none

/-- Go `parseNanoseconds` on the digits that follow the separator: the first
nine count, scaled to nanoseconds. -/
def fracNanos (ds : Str) : Nat :=
  let used := ds.take 9
  used.foldl (fun a c => a * 10 + digitVal c) 0 * 10 ^ (9 - used.length)

/-- A fractional second after the seconds field, which `Parse` accepts even
though the layout has none: a period or comma followed by digits. -/
def parseFrac (s : Str) : Nat × Str :=
  match s with
  | c :: d :: rest =>
    if (c = '.' ∨ c = ',') ∧ isDigit d then
      (fracNanos ((d :: rest).takeWhile isDigit), (d :: rest).dropWhile isDigit)
    else (0, s)
  | _ => (0, s)

/-- The zone of layout element `Z07:00`: `Z`, or a sign, two digits of hours,
a colon and two digits of minutes. -/
def parseZone (s : Str) : Option (Int × Str) :=
  match s with
  | [] => none
  | z :: rest0 =>
    if z = 'Z' then some (0, rest0)
    else
      match rest0 with
      | h1 :: h2 :: c :: m1 :: m2 :: rest =>
        if c ≠ ':' then none
        else
          match getnum [h1, h2] true, getnum [m1, m2] true with
          | some (hr, _), some (mm, _) =>
            if hr > 24 ∨ mm > 60 then none
            else if z = '+' then some ((((hr * 60 + mm) * 60 : Nat) : Int), rest)
            else if z = '-' then some (-(((hr * 60 + mm) * 60 : Nat) : Int), rest)
            else none
          | _, _ => none
      | _ => none

/-- Go `time.Parse(time.RFC3339, s)`; `none` stands for any parse error. -/
def Time.Parse (s : Str) : Option Time := do
  let (year, s) ← parseYear s
  let s ← skip '-' s
  let (month, s) ← getnum s true
  let s ← skip '-' s
  let (day, s) ← getnum s true
  let s ← skip 'T' s
  let (hour, s) ← getnum s false
  let s ← skip ':' s
  let (minute, s) ← getnum s true
  let s ← skip ':' s
  let (second, s) ← getnum s true
  let (nsec, s) := parseFrac s
  let (offset, s) ← parseZone s
  if s ≠ [] then none
  else if month < 1 ∨ 12 < month then none
  else if day < 1 ∨ daysIn month year < day then none
  else if 24 ≤ hour ∨ 60 ≤ minute ∨ 60 ≤ second then none
  else some ⟨year, month, day, hour, minute, second, nsec, offset⟩

/-! ## The record codec -/

/-- Status constants of types.go. -/
def StatusPending : Str := ['P', 'E', 'N', 'D', 'I', 'N', 'G']

/-- Status `SENDING`. -/
def StatusSending : Str := ['S', 'E', 'N', 'D', 'I', 'N', 'G']

/-- Status `DONE`. -/
def StatusDone : Str := ['D', 'O', 'N', 'E']

/-- Status `FAILED`. -/
def StatusFailed : Str := ['F', 'A', 'I', 'L', 'E', 'D']

/-- Status `UNSUBSCRIBED`. -/
def StatusUnsubscribed : Str := ['U', 'N', 'S', 'U', 'B', 'S', 'C', 'R', 'I', 'B', 'E', 'D']

/-- A parsed database line. -/
structure dbRecord where
  Timestamp : Time
  Status : Str
  Email : Str
  Error : Str
deriving DecidableEq, Repr

/-- The text `0000-00-00T00:00:00Z` written for a zero timestamp. -/
def zeroStamp : Str :=
  ['0', '0', '0', '0', '-', '0', '0', '-', '0', '0', 'T', '0', '0', ':', '0', '0', ':', '0', '0', 'Z']

/-- The field separator ` ; ` written between fields. -/
def fieldSep : Str := [' ', ';', ' ']

/-- Function `parseDBLine`: `none` stands for either error (empty line, fewer
than three parts). -/
def parseDBLine (line : Str) : Option dbRecord :=
  let line := TrimSpace line
  if line = [] then none
  else
    match Split ';' line with
    | p0 :: p1 :: p2 :: rest =>
      some
        { Timestamp := (Time.Parse (TrimSpace p0)).getD Time.zero
          Status := TrimSpace p1
          Email := TrimSpace p2
          Error := match rest with
            | [] => []
            | p3 :: _ => TrimSpace p3 }
    | _ => none

/-- Method `(*dbRecord).String`. -/
def dbRecord.String (r : dbRecord) : Str :=
  let timestampStr := if r.Timestamp.IsZero then zeroStamp else r.Timestamp.Format
  let line := timestampStr ++ fieldSep ++ r.Status ++ fieldSep ++ r.Email
  if r.Error ≠ [] then line ++ fieldSep ++ r.Error else line

/-! ## The record store -/

/-- The database file: its text (`none` when it cannot be opened) and
whether writing it is refused. A refused write leaves the text as it was. -/
structure Disk where
  data : Option Str
  readOnly : Bool
deriving DecidableEq, Repr

/-- Errors the queue operations return: an I/O error of the operating
system, the sentinel `ErrNoPendingRecipients`, or `bufio.ErrTooLong` of the
scanner in `readLines`. -/
inductive Err where
  | io
  | ErrNoPendingRecipients
  | ErrTooLong
deriving DecidableEq, Repr

/-- Go `len(s)`: the number of bytes of the UTF-8 text. -/
def byteLen (s : Str) : Nat :=
  (s.map Char.utf8Size).sum

/-- Constant `bufio.MaxScanTokenSize`, the size of the largest buffer a
scanner made by `bufio.NewScanner` grows to: 64 * 1024. -/
def MaxScanTokenSize : Nat := 65536

/-- Go `dropCR` of package bufio: one trailing carriage return is dropped. -/
def dropCR (s : Str) : Str :=
  if s.getLast? = some '\r' then s.dropLast else s

/-- The tokens the `ScanLines` split function cuts a text into: the text
is cut at every newline, a final unterminated piece counts when it is not
empty, and each piece loses one trailing carriage return. -/
def scanTokens (text : Str) : List Str :=
  let parts := Split '\n' text
  (if parts.getLast? = some [] then parts.dropLast else parts).map dropCR

/-- The loop `for scanner.Scan()` of a `bufio.NewScanner` over the text,
followed by `scanner.Err()`. The scanner's buffer grows to at most
`MaxScanTokenSize` bytes and a line must fit in it together with its
newline (an unterminated last line must leave one byte free for the read
that meets the end of the file): a line of `MaxScanTokenSize` bytes or
more, counted before its carriage return is dropped, ends the scan with
`bufio.ErrTooLong`. Otherwise the result is the tokens of `scanTokens`. -/
def scanLines (text : Str) : Except Err (List Str) :=
  if (Split '\n' text).all (fun p => decide (byteLen p < MaxScanTokenSize)) then
    .ok (scanTokens text)
  else .error .ErrTooLong

/-- Method `(*Database).readLines`: the file is opened and scanned; the
lines gathered before an error of the scanner are returned with the error,
and every caller drops them, so the model returns the error alone. -/
def readLines (d : Disk) : Except Err (List Str) :=
  match d.data with
  | none => .error .io
  | some text => scanLines text

/-- Method `(*Database).writeLines`: the lines joined by newlines, and a
final newline. -/
def writeLines (d : Disk) (lines : List Str) : Option Err × Disk :=
  if d.readOnly then (some .io, d)
  else (none, { d with data := some (Join lines ++ ['\n']) })

/-- The loop of `forEach` over the lines from index `i` on: unparsable lines
are skipped, the first error of `fn` ends the loop. The variables the callback
closes over are the state `st`, which the result carries together with the
error. -/
def forEachLoop {σ : Type} (fn : dbRecord → Nat → σ → σ × Option Err) :
    Nat → List Str → σ → σ × Option Err
  | _, [], st => (st, none)
  | i, line :: rest, st =>
    match parseDBLine line with
    | none => forEachLoop fn (i + 1) rest st
    | some record =>
      match fn record i st with
      | (st1, some e) => (st1, some e)
      | (st1, none) => forEachLoop fn (i + 1) rest st1

/-- Method `(*Database).forEach`. -/
def forEach {σ : Type} (d : Disk) (fn : dbRecord → Nat → σ → σ × Option Err) (st : σ) :
    σ × Option Err :=
  match readLines d with
  | .error e => (st, some e)
  | .ok lines => forEachLoop fn 0 lines st

/-- The loop of `updateRecord`: the first record that passes `filter` is
replaced by the text of its update, and the loop ends. -/
def updateLoop (filter : dbRecord → Bool) (update : dbRecord → dbRecord) : List Str → List Str
  | [] => []
  | line :: rest =>
    match parseDBLine line with
    | none => line :: updateLoop filter update rest
    | some record =>
      if filter record then (update record).String :: rest
      else line :: updateLoop filter update rest

/-- Method `(*Database).updateRecord`. -/
def updateRecord (d : Disk) (filter : dbRecord → Bool) (update : dbRecord → dbRecord) :
    Option Err × Disk :=
  match readLines d with
  | .error e => (some e, d)
  | .ok lines => writeLines d (updateLoop filter update lines)

/-! ## The queue operations -/

/-- A recipient handed to the dispatcher (types.go). -/
structure Recipient where
  Email : Str
  Status : Str
  Error : Str
deriving DecidableEq, Repr

/-- Counters of the records by status (types.go). -/
structure Stats where
  Total : Nat
  Sending : Nat
  Pending : Nat
  Sent : Nat
  Failed : Nat
  Unsubscribed : Nat
deriving DecidableEq, Repr

/-- The loop of `GetNextPending`: at the first record with status PENDING the
record gets the time `now` and status SENDING, its line is replaced, and the
loop ends with the record and the lines to write. -/
def claimLoop (now : Time) : List Str → Option (dbRecord × List Str)
  | [] => none
  | line :: rest =>
    match parseDBLine line with
    | none => (claimLoop now rest).map (fun p => (p.1, line :: p.2))
    | some record =>
      if record.Status = StatusPending then
        let record1 : dbRecord := { record with Timestamp := now, Status := StatusSending }
        some (record1, record1.String :: rest)
      else (claimLoop now rest).map (fun p => (p.1, line :: p.2))

/-- Function `GetNextPending`. -/
def GetNextPending (now : Time) (d : Disk) : Except Err Recipient × Disk :=
  match readLines d with
  | .error e => (.error e, d)
  | .ok lines =>
    match claimLoop now lines with
    | some (record, lines1) =>
      match writeLines d lines1 with
      | (some e, d1) => (.error e, d1)
      | (none, d1) => (.ok { Email := record.Email, Status := StatusPending, Error := [] }, d1)
    | none => (.error .ErrNoPendingRecipients, d)

/-- Function `UpdateStatus`. -/
def UpdateStatus (now : Time) (d : Disk) (email status errorMsg : Str) : Option Err × Disk :=
  updateRecord d (fun r => decide (r.Email = email))
    (fun r =>
      { Timestamp := now
        Status := status
        Email := r.Email
        Error := if errorMsg ≠ [] then ReplaceAll errorMsg ';' ',' else r.Error })

/-- The callback of `GetStats`; it never returns an error. -/
def statsStep (record : dbRecord) (_ : Nat) (stats : Stats) : Stats × Option Err :=
  let stats := { stats with Total := stats.Total + 1 }
  if record.Status = StatusPending then ({ stats with Pending := stats.Pending + 1 }, none)
  else if record.Status = StatusSending then ({ stats with Sending := stats.Sending + 1 }, none)
  else if record.Status = StatusDone then ({ stats with Sent := stats.Sent + 1 }, none)
  else if record.Status = StatusFailed then ({ stats with Failed := stats.Failed + 1 }, none)
  else if record.Status = StatusUnsubscribed then
    ({ stats with Unsubscribed := stats.Unsubscribed + 1 }, none)
  else (stats, none)

/-- Function `GetStats`: the counters and the error, as the pair Go returns. -/
def GetStats (d : Disk) : Stats × Option Err :=
  forEach d statsStep ⟨0, 0, 0, 0, 0, 0⟩

/-- The message `ResetStuckSending` stores in a record it resets. -/
def resetMessage : Str := "Reset from stuck SENDING state".toList

/-- The loop of `ResetStuckSending`: the lines after the pass, and the count. -/
def resetLoop (now : Time) (timeout : Int) : List Str → List Str × Nat
  | [] => ([], 0)
  | line :: rest =>
    let out := resetLoop now timeout rest
    match parseDBLine line with
    | none => (line :: out.1, out.2)
    | some record =>
      if record.Status = StatusSending ∧ record.Timestamp.IsZero = false ∧
          now.Sub record.Timestamp > timeout then
        (({ record with Status := StatusPending, Error := resetMessage } : dbRecord).String
          :: out.1, out.2 + 1)
      else (line :: out.1, out.2)

/-- Function `ResetStuckSending`: the count and the error, as the pair Go
returns; `timeout` is a `time.Duration` in nanoseconds. -/
def ResetStuckSending (now : Time) (d : Disk) (timeout : Int) : (Nat × Option Err) × Disk :=
  match readLines d with
  | .error e => ((0, some e), d)
  | .ok lines =>
    let out := resetLoop now timeout lines
    if out.2 > 0 then
      let w := writeLines d out.1
      ((out.2, w.1), w.2)
    else ((out.2, none), d)

/-- The callback of `GetLastSentTime`; the variable it closes over is
`lastTime`. -/
def lastSentStep (record : dbRecord) (_ : Nat) (lastTime : Time) : Time × Option Err :=
  if (record.Status = StatusDone ∨ record.Status = StatusFailed) ∧
      record.Timestamp.After lastTime = true then (record.Timestamp, none)
  else (lastTime, none)

/-- Function `GetLastSentTime`: the time and the error, as the pair Go
returns. -/
def GetLastSentTime (d : Disk) : Time × Option Err :=
  forEach d lastSentStep Time.zero

/-! ## The reconciliation pass (internal/app/app.go) -/

/-- The loop of `UpdateDataFile`: the lines after the pass, and the flag
`changed`. Go `strings.Contains` for a one-character text is membership. -/
def reconcileLoop : List Str → List Str × Bool
  | [] => ([], false)
  | line0 :: rest =>
    let out := reconcileLoop rest
    let line := TrimSpace line0
    if line = [] then (line0 :: out.1, out.2)
    else if ';' ∉ line ∧ '@' ∈ line then
      ((zeroStamp ++ fieldSep ++ StatusPending ++ fieldSep ++ line) :: out.1, true)
    else (line0 :: out.1, out.2)

/-- Method `(*App).UpdateDataFile`, without its log entries: the file is read
whole and cut at every newline; it is written, by the same `os.WriteFile`
call as in `writeLines`, only when a line changed. -/
def UpdateDataFile (d : Disk) : Option Err × Disk :=
  match d.data with
  | none => (some .io, d)
  | some data =>
    let out := reconcileLoop (Split '\n' data)
    if out.2 then writeLines d out.1 else (none, d)

/-! ## Import (internal/app/actions.go) -/

/-- Go `strings.Contains`. -/
def Contains : Str → Str → Bool
  | [], sub => sub.isEmpty
  | c :: cs, sub => sub.isPrefixOf (c :: cs) || Contains cs sub

/-- The loop of `ImportEmailsFromFile` over the addresses the regular
expression found: the text written to the file, and the count `added`. -/
def importLoop (currentContent : Str) : List Str → Str × Nat
  | [] => ([], 0)
  | email :: rest =>
    let out := importLoop currentContent rest
    if !Contains currentContent (email ++ " PENDING".toList) &&
        !Contains currentContent (email ++ " DONE".toList) &&
        !Contains currentContent (email ++ " FAILED".toList) then
      (email ++ " PENDING\n".toList ++ out.1, out.2 + 1)
    else out

/-- Method `(*App).ImportEmailsFromFile`, from the point where `emails` holds
what `emailRegex.FindAllString` returned for the imported file: the current
text of the database is read (an error counts as empty text), the file is
opened for appending (created when missing), and one line per new address is
appended. -/
def ImportEmailsFromFile (d : Disk) (emails : List Str) : Option Err × Disk :=
  let currentContent := d.data.getD []
  if d.readOnly then (some .io, d)
  else (none, { d with data := some (currentContent ++ (importLoop currentContent emails).1) })

/-! ## The dispatcher (internal/app/app.go) -/

/-- The two fields of `App` the tick of the dispatcher decides on. -/
structure DispatcherState where
  booted : Bool
  noPendingCount : Int
deriving DecidableEq, Repr

/-- The part of a tick of `startDispatcher` that follows the call of
`GetNextPending`, as far as `booted` and `noPendingCount` go; `recipient` and
`err` are the two values the call returned. A tick does nothing when the
dispatcher is not booted. -/
def tickClaim (s : DispatcherState) (recipient : Option Recipient) (err : Option Err) :
    DispatcherState :=
  if s.booted = false then s
  else
    match err with
    | some e =>
      if e ≠ .ErrNoPendingRecipients then { s with noPendingCount := 0 }
      else
        let n := s.noPendingCount + 1
        if n ≥ 3 then { booted := false, noPendingCount := 0 }
        else { s with noPendingCount := n }
    | none =>
      match recipient with
      | none =>
        let n := s.noPendingCount + 1
        if n ≥ 3 then { booted := false, noPendingCount := 0 }
        else { s with noPendingCount := n }
      | some _ => { s with noPendingCount := 0 }

/-- The two values `GetNextPending` returns, as Go shows them to the caller. -/
def claimResult (res : Except Err Recipient) : Option Recipient × Option Err :=
  match res with
  | .ok r => (some r, none)
  | .error e => (none, some e)

/-- A tick of the dispatcher on the file, up to the decision on `booted` and
`noPendingCount`. -/
def tick (now : Time) (s : DispatcherState) (d : Disk) : DispatcherState × Disk :=
  if s.booted = false then (s, d)
  else
    let out := GetNextPending now d
    (tickClaim s (claimResult out.1).1 (claimResult out.1).2, out.2)

/-- A value of an `int64` after overflow: two's complement wrap-around. -/
def wrap64 (x : Int) : Int :=
  (x + 9223372036854775808) % 18446744073709551616 - 9223372036854775808

/-- Go `time.Second`. -/
def Second : Int := 1000000000

/-- The time the dispatcher sleeps before a send (0 when it does not sleep):
`lastSentTime` and `err` are what `GetLastSentTime` returned, `now` is the
clock read by `time.Since`, durations are `int64` nanoseconds. -/
def rateLimitWait (now lastSentTime : Time) (err : Option Err) (delaySeconds : Int) : Int :=
  if err = none ∧ lastSentTime.IsZero = false then
    let elapsed := now.Sub lastSentTime
    let delay := wrap64 (delaySeconds * Second)
    if elapsed < delay then wrap64 (delay - elapsed) else 0
  else 0

/-- The wait of the dispatcher on the file. -/
def dispatchWait (now : Time) (d : Disk) (delaySeconds : Int) : Int :=
  rateLimitWait now (GetLastSentTime d).1 (GetLastSentTime d).2 delaySeconds

/-! ## Notions the properties are stated with -/

/-- A string is trimmed when it has no white space at either end. -/
def Trimmed (s : Str) : Prop := TrimSpace s = s

instance (s : Str) : Decidable (Trimmed s) := by
  unfold Trimmed; infer_instance

/-- The characters a formatted timestamp is made of. -/
def stampChar (c : Char) : Bool :=
  isDigit c || c == '-' || c == 'T' || c == ':' || c == 'Z' || c == '+'

/-- The timestamp text `String` writes: the sentinel for a zero time, else
the RFC 3339 text. -/
def stampText (t : Time) : Str :=
  if t.IsZero then zeroStamp else t.Format

/-- One of the five statuses of a record. -/
def IsStatus (s : Str) : Prop :=
  s = StatusPending ∨ s = StatusSending ∨ s = StatusDone ∨ s = StatusFailed ∨
    s = StatusUnsubscribed

instance (s : Str) : Decidable (IsStatus s) := by
  unfold IsStatus; infer_instance

/-- A field that holds no semicolon, no line break, and no white space at
either end. -/
def CleanField (s : Str) : Prop :=
  ';' ∉ s ∧ '\n' ∉ s ∧ '\r' ∉ s ∧ Trimmed s

instance (s : Str) : Decidable (CleanField s) := by
  unfold CleanField; infer_instance

/-- A reading of the clock as the program stores it in a record: a
well-formed time other than the zero instant, with a year of four digits
and a zone offset of whole minutes within a day. The nanosecond is free. -/
def ClockTime (t : Time) : Prop :=
  t.WF ∧ t.IsZero = false ∧ t.year ≤ 9999 ∧ t.offset % 60 = 0 ∧ -86400 < t.offset ∧
    t.offset < 86400

instance (t : Time) : Decidable (ClockTime t) := by
  unfold ClockTime; infer_instance

/-- A valid record: a status of the five, clean email and error, and a
timestamp that is the zero value or a reading of the clock. -/
def dbRecord.Valid (r : dbRecord) : Prop :=
  IsStatus r.Status ∧ CleanField r.Email ∧ CleanField r.Error ∧
    (r.Timestamp = Time.zero ∨ ClockTime r.Timestamp)

instance (r : dbRecord) : Decidable r.Valid := by
  unfold dbRecord.Valid; infer_instance

/-- A record claimed half a second past 05:04:03 UTC on 9 March 2024. -/
def halfSecondRecord : dbRecord :=
  ⟨⟨2024, 3, 9, 5, 4, 3, 500000000, 0⟩, StatusSending, ['a', '@', 'b', '.', 'c'], []⟩

/-- A record stamped at a whole second. -/
def wholeSecondRecord : dbRecord :=
  ⟨⟨2024, 3, 9, 5, 4, 3, 0, 3600⟩, StatusFailed, ['a', '@', 'b', '.', 'c'], ['n', 'o']⟩

/-- Whether a line parses to a record that satisfies `f`. -/
def lineSat (f : dbRecord → Bool) (l : Str) : Bool :=
  match parseDBLine l with
  | some r => f r
  | none => false

/-- Whether a line parses to a record with status PENDING. -/
def isPendingLine (l : Str) : Bool :=
  lineSat (fun r => decide (r.Status = StatusPending)) l

/-- Whether a line parses to a record with the given email. -/
def hasEmail (email : Str) (l : Str) : Bool :=
  lineSat (fun r => decide (r.Email = email)) l

/-- Line `l` stands at position `i` of `lines`, satisfies `p`, and no line
before it does: the first line in file order for which `p` holds. -/
def FirstAt (p : Str → Bool) (lines : List Str) (i : Nat) (l : Str) : Prop :=
  lines[i]? = some l ∧ p l = true ∧ ∀ j x, j < i → lines[j]? = some x → p x = false

/-- The record `GetNextPending` writes for a claimed record. -/
def claimed (now : Time) (r : dbRecord) : dbRecord :=
  { r with Timestamp := now, Status := StatusSending }

/-- The record `UpdateStatus` writes for the record it targets. -/
def updated (now : Time) (status errorMsg : Str) (r : dbRecord) : dbRecord :=
  { Timestamp := now
    Status := status
    Email := r.Email
    Error := if errorMsg ≠ [] then ReplaceAll errorMsg ';' ',' else r.Error }

/-- Noon of 9 March 2024, UTC, a quarter of a second past: the clock of the
examples. -/
def noon : Time := ⟨2024, 3, 9, 12, 0, 0, 250000000, 0⟩

/-- A queue file with the records PENDING(a), DONE(b), PENDING(c). -/
def queueABC : Disk :=
  ⟨some ("2024-03-09T11:00:00Z ; PENDING ; a@x.io\n2024-03-09T09:00:00Z ; DONE ; b@x.io\n" ++
      "2024-03-09T08:00:00Z ; PENDING ; c@x.io\n").toList, false⟩

/-- The three lines of `queueABC`. -/
def queueABCLines : List Str :=
  ["2024-03-09T11:00:00Z ; PENDING ; a@x.io".toList,
    "2024-03-09T09:00:00Z ; DONE ; b@x.io".toList,
    "2024-03-09T08:00:00Z ; PENDING ; c@x.io".toList]

/-- A stale claim: status SENDING, a timestamp other than zero, and older
than `timeout` at time `now`. -/
def staleRecord (now : Time) (timeout : Int) (r : dbRecord) : Bool :=
  decide (r.Status = StatusSending) && !r.Timestamp.IsZero &&
    decide (now.Sub r.Timestamp > timeout)

/-- Whether a line parses to a stale claim. -/
def isStale (now : Time) (timeout : Int) (l : Str) : Bool :=
  lineSat (staleRecord now timeout) l

/-- The record `ResetStuckSending` writes for a stale claim. -/
def resetRecord (r : dbRecord) : dbRecord :=
  { r with Status := StatusPending, Error := resetMessage }

/-- What `ResetStuckSending` makes of one line. -/
def resetLine (now : Time) (timeout : Int) (l : Str) : Str :=
  match parseDBLine l with
  | some r => if staleRecord now timeout r then (resetRecord r).String else l
  | none => l

/-- Five minutes, as a `time.Duration`. -/
def fiveMinutes : Int := 5 * 60 * 1000000000

/-- A queue file with a claim six minutes old and a claim one minute old at
`noon`. -/
def queueStale : Disk :=
  ⟨some ("2024-03-09T11:54:00Z ; SENDING ; a@x.io\n" ++
      "2024-03-09T11:59:00Z ; SENDING ; b@x.io\n").toList, false⟩

/-- The two lines of `queueStale`. -/
def queueStaleLines : List Str :=
  ["2024-03-09T11:54:00Z ; SENDING ; a@x.io".toList,
    "2024-03-09T11:59:00Z ; SENDING ; b@x.io".toList]

/-- Number of lines that parse to a record with status `s`. -/
def countStatus (lines : List Str) (s : Str) : Nat :=
  (lines.filterMap parseDBLine).countP (fun r => decide (r.Status = s))

/-- A queue file with no PENDING record: DONE(a) followed by SENDING(a), the
same address queued twice. -/
def queueDup : Disk :=
  ⟨some ("2024-03-09T10:00:00Z ; DONE ; a@x.io\n" ++
      "2024-03-09T11:59:00Z ; SENDING ; a@x.io\n").toList, false⟩

/-- The two lines of `queueDup`. -/
def queueDupLines : List Str :=
  ["2024-03-09T10:00:00Z ; DONE ; a@x.io".toList,
    "2024-03-09T11:59:00Z ; SENDING ; a@x.io".toList]

/-- A queue file with two PENDING records, one SENDING, one DONE, one FAILED
and one malformed line. -/
def queueStats : Disk :=
  ⟨some ("0000-00-00T00:00:00Z ; PENDING ; a@x.io\n" ++
      "2024-03-09T11:59:00Z ; SENDING ; b@x.io\n" ++
      "not a record\n" ++
      "2024-03-09T10:00:00Z ; DONE ; c@x.io\n" ++
      "2024-03-09T10:30:00Z ; FAILED ; d@x.io ; no route\n" ++
      "0000-00-00T00:00:00Z ; PENDING ; e@x.io\n").toList, false⟩

/-- The six lines of `queueStats`. -/
def queueStatsLines : List Str :=
  ["0000-00-00T00:00:00Z ; PENDING ; a@x.io".toList,
    "2024-03-09T11:59:00Z ; SENDING ; b@x.io".toList,
    "not a record".toList,
    "2024-03-09T10:00:00Z ; DONE ; c@x.io".toList,
    "2024-03-09T10:30:00Z ; FAILED ; d@x.io ; no route".toList,
    "0000-00-00T00:00:00Z ; PENDING ; e@x.io".toList]

/-- A terminal status: DONE, FAILED or UNSUBSCRIBED. -/
def Terminal (s : Str) : Prop :=
  s = StatusDone ∨ s = StatusFailed ∨ s = StatusUnsubscribed

instance (s : Str) : Decidable (Terminal s) := by
  unfold Terminal; infer_instance

/-- Whether a record counts as a completion: status DONE or FAILED. -/
def isCompleted (r : dbRecord) : Bool :=
  decide (r.Status = StatusDone) || decide (r.Status = StatusFailed)

/-- The timestamps of the lines that parse to a DONE or FAILED record, in
file order. -/
def completionStamps (lines : List Str) : List Time :=
  ((lines.filterMap parseDBLine).filter isCompleted).map (fun r => r.Timestamp)

/-- The later of two times, the first on a tie. -/
def later (acc t : Time) : Time :=
  if t.After acc = true then t else acc

/-- A queue file whose only record is DONE, stamped in June of year 0,
before the zero time. -/
def queueYearZero : Disk :=
  ⟨some ("0000-06-01T00:00:00Z ; DONE ; a@x.io\n").toList, false⟩

/-- Whether the reconciliation pass takes a line for a bare address: trimmed,
it is not empty, holds an `@` and holds no `;`. -/
def eligible (l : Str) : Bool :=
  decide (TrimSpace l ≠ [] ∧ '@' ∈ TrimSpace l ∧ ';' ∉ TrimSpace l)

/-- What the reconciliation pass makes of one line. -/
def reconcileLine (l : Str) : Str :=
  if eligible l = true then zeroStamp ++ fieldSep ++ StatusPending ++ fieldSep ++ TrimSpace l
  else l

/-- A file with a bare address, a record, a blank line and a note. -/
def rawFile : Disk :=
  ⟨some ("foo@bar.com\n2024-03-09T10:00:00Z ; DONE ; c@x.io\n\nto do: ask bob\n").toList, false⟩

/-- Whether the claim of a tick found the queue empty: the error is
`ErrNoPendingRecipients`, or there is neither an error nor a recipient. -/
def isEmptyPoll (o : Option Recipient × Option Err) : Bool :=
  match o.2 with
  | some e => decide (e = .ErrNoPendingRecipients)
  | none => o.1.isNone

/-- The dispatcher after a run of ticks, given what each claim returned. -/
def runTicks (s : DispatcherState) (os : List (Option Recipient × Option Err)) :
    DispatcherState :=
  os.foldl (fun st o => tickClaim st o.1 o.2) s

/-- The number of empty polls at the end of a run of ticks. -/
def emptyStreak (os : List (Option Recipient × Option Err)) : Nat :=
  (os.reverse.takeWhile isEmptyPoll).length

/-- An empty poll, a failed read, and a successful claim. -/
def pollEmpty : Option Recipient × Option Err := (none, some .ErrNoPendingRecipients)

/-- A claim that failed on an I/O error. -/
def pollFailed : Option Recipient × Option Err := (none, some .io)

/-- A claim that returned a recipient. -/
def pollClaimed : Option Recipient × Option Err :=
  (some ⟨"a@x.io".toList, StatusPending, []⟩, none)

/-- Noon of 9 March 2024, UTC, on the second. -/
def noonSharp : Time := ⟨2024, 3, 9, 12, 0, 0, 0, 0⟩

/-- A queue file whose last completion is ten seconds before `noonSharp`. -/
def queueTenSecondsAgo : Disk :=
  ⟨some ("2024-03-09T11:59:50Z ; DONE ; a@x.io\n" ++
      "2024-03-09T11:59:55Z ; SENDING ; b@x.io\n").toList, false⟩

/-- A queue file whose last completion is stamped an hour after `noonSharp`. -/
def queueFuture : Disk :=
  ⟨some ("2024-03-09T13:00:00Z ; DONE ; a@x.io\n" ++
      "2024-03-09T11:59:55Z ; SENDING ; b@x.io\n").toList, false⟩

/-- The email of the record at position `j`, when there is a line at `j` and
it parses. -/
def emailAt (lines : List Str) (j : Nat) : Option Str :=
  (lines[j]?.bind parseDBLine).map (fun r => r.Email)

/-- An empty queue file. -/
def emptyFile : Disk := ⟨some [], false⟩

/-- The lines of `queueStale` after `ResetStuckSending` at `noon` with a
timeout of five minutes. -/
def queueResetLines : List Str :=
  ["2024-03-09T11:54:00Z ; PENDING ; a@x.io ; Reset from stuck SENDING state".toList,
    "2024-03-09T11:59:00Z ; SENDING ; b@x.io".toList]

/-- An ASCII letter, `[a-zA-Z]`. -/
def isLetter (c : Char) : Bool :=
  (decide (65 ≤ c.toNat) && decide (c.toNat ≤ 90)) ||
    (decide (97 ≤ c.toNat) && decide (c.toNat ≤ 122))

/-- A character of the local part in the regular expression of the import,
`[a-zA-Z0-9._%+-]`. -/
def localChar (c : Char) : Bool :=
  isLetter c || isDigit c || c == '.' || c == '_' || c == '%' || c == '+' || c == '-'

/-- A character of the domain in the regular expression of the import,
`[a-zA-Z0-9.-]`. -/
def domainChar (c : Char) : Bool :=
  isLetter c || isDigit c || c == '.' || c == '-'

/-- A text the regular expression of the import matches as a whole:
`[a-zA-Z0-9._%+-]+@[a-zA-Z0-9.-]+\.[a-zA-Z]{2,}`. -/
def MatchesImportRegex (e : Str) : Prop :=
  ∃ a b t : Str, e = a ++ '@' :: (b ++ '.' :: t) ∧ a ≠ [] ∧ (∀ c ∈ a, localChar c = true) ∧
    b ≠ [] ∧ (∀ c ∈ b, domainChar c = true) ∧ 2 ≤ t.length ∧ ∀ c ∈ t, isLetter c = true


/-! ## Long lines and the scanner -/

/-- No line of the file's text reaches the limit of the scanner: every piece
between newlines has fewer than `MaxScanTokenSize` bytes. A file that cannot
be opened has no line. -/
def Fits (d : Disk) : Prop :=
  ∀ p ∈ Split '\n' (d.data.getD []), byteLen p < MaxScanTokenSize

instance (d : Disk) : Decidable (Fits d) := by
  unfold Fits; infer_instance

/-- An address of 65520 letters. -/
def longAddress : Str := List.replicate 65520 'a'

/-- A line of 65530 bytes, written by hand in the short form without blanks:
a PENDING record for `longAddress`. -/
def longLine : Str := "x;PENDING;".toList ++ longAddress

/-- The line `GetNextPending` writes at `noon` for the record of `longLine`:
65553 bytes. -/
def longLineClaimed : Str := "2024-03-09T12:00:00Z ; SENDING ; ".toList ++ longAddress

/-- A queue file whose one line is `longLine`. -/
def queueLong : Disk := ⟨some (longLine ++ ['\n']), false⟩

/-- The file `queueLong` after `GetNextPending` at `noon`. -/
def queueLongClaimed : Disk := ⟨some (longLineClaimed ++ ['\n']), false⟩

/-- A queue file with one claim six minutes old at `noon`, stamped with a
fraction of a second. -/
def queueFraction : Disk :=
  ⟨some "2024-03-09T11:54:00.9Z ; SENDING ; a@x.io\n".toList, false⟩

/-- A line of 65530 bytes in the short form: a SENDING record for
`longAddress`. -/
def longLineSending : Str := "x;SENDING;".toList ++ longAddress

/-- The line `UpdateStatus` writes at `noon` when the record of
`longLineSending` is marked DONE without a message: 65550 bytes. -/
def longLineDone : Str := "2024-03-09T12:00:00Z ; DONE ; ".toList ++ longAddress

/-- A queue file whose one line is `longLineSending`. -/
def queueLongSending : Disk := ⟨some (longLineSending ++ ['\n']), false⟩

/-- A queue file with one claim whose timestamp is the zero time. -/
def queueZeroClaim : Disk :=
  ⟨some "0000-00-00T00:00:00Z ; SENDING ; a@x.io\n".toList, false⟩
/-! ## Lemmas on strings -/

theorem TrimSpace_nil : TrimSpace [] = [] := by
  simp [TrimSpace]

theorem TrimSpace_cons_space (c : Char) (s : Str) (h : isSpace c = true) :
    TrimSpace (c :: s) = TrimSpace s := by
  simp [TrimSpace, List.dropWhile_cons_of_pos h]

theorem TrimSpace_concat_space (c : Char) (s : Str) (h : isSpace c = true) :
    TrimSpace (s ++ [c]) = TrimSpace s := by
  induction s with
  | nil => simp [TrimSpace, List.dropWhile, h]
  | cons x s ih =>
    by_cases hx : isSpace x = true
    · have e : (x :: s) ++ [c] = x :: (s ++ [c]) := rfl
      rw [e, TrimSpace_cons_space x _ hx, TrimSpace_cons_space x _ hx, ih]
    · have e : (x :: s) ++ [c] = x :: (s ++ [c]) := rfl
      simp only [TrimSpace]
      rw [e, List.dropWhile_cons_of_neg hx, List.dropWhile_cons_of_neg hx]
      exact List.rdropWhile_concat_pos isSpace (x :: s) c h

theorem TrimSpace_rdropWhile (s : Str) : TrimSpace (s.rdropWhile isSpace) = TrimSpace s := by
  induction s using List.reverseRecOn with
  | nil => simp
  | append_singleton s x ih =>
    by_cases hx : isSpace x = true
    · rw [List.rdropWhile_concat_pos isSpace s x hx, ih, TrimSpace_concat_space x s hx]
    · rw [List.rdropWhile_concat_neg isSpace s x hx]

theorem dropWhile_head_not (s : Str) (y : Char) (ys : Str)
    (h : s.dropWhile isSpace = y :: ys) : isSpace y = false := by
  induction s with
  | nil => simp at h
  | cons x xs ih =>
    by_cases hx : isSpace x = true
    · rw [List.dropWhile_cons_of_pos hx] at h
      exact ih h
    · rw [List.dropWhile_cons_of_neg hx] at h
      have := (List.cons.inj h).1
      subst this
      simpa using hx

theorem dropWhile_TrimSpace (s : Str) : (TrimSpace s).dropWhile isSpace = TrimSpace s := by
  obtain ⟨t, ht⟩ := List.rdropWhile_prefix isSpace (s.dropWhile isSpace)
  cases ht2 : TrimSpace s with
  | nil => rfl
  | cons z zs =>
    have h1 : s.dropWhile isSpace = z :: (zs ++ t) := by
      have : TrimSpace s ++ t = s.dropWhile isSpace := ht
      rw [ht2] at this
      simpa using this.symm
    have hz := dropWhile_head_not s z _ h1
    have hz2 : ¬ isSpace z = true := by simp [hz]
    exact List.dropWhile_cons_of_neg hz2

theorem TrimSpace_idem (s : Str) : TrimSpace (TrimSpace s) = TrimSpace s := by
  show ((TrimSpace s).dropWhile isSpace).rdropWhile isSpace = TrimSpace s
  rw [dropWhile_TrimSpace]
  exact List.rdropWhile_idempotent isSpace (l := s.dropWhile isSpace)

theorem TrimSpace_subset (s : Str) : ∀ c ∈ TrimSpace s, c ∈ s := by
  intro c hc
  have h1 : c ∈ s.dropWhile isSpace := (List.rdropWhile_prefix isSpace _).subset hc
  exact List.dropWhile_subset isSpace h1

theorem TrimSpace_of_no_space (s : Str) (h : ∀ c ∈ s, isSpace c = false) : TrimSpace s = s := by
  have h1 : s.dropWhile isSpace = s := by
    cases s with
    | nil => rfl
    | cons x xs =>
      have := h x (List.mem_cons_self _ _)
      simp [List.dropWhile, this]
  simp only [TrimSpace, h1]
  rw [List.rdropWhile_eq_self_iff]
  intro hl
  have := h _ (List.getLast_mem hl)
  simp [this]

theorem rdropWhile_append_cons (a b : Str) (c : Char) (hc : isSpace c = false) :
    (a ++ c :: b).rdropWhile isSpace = a ++ c :: b.rdropWhile isSpace := by
  induction b using List.reverseRecOn with
  | nil =>
    have : ¬ isSpace c = true := by simp [hc]
    simpa using List.rdropWhile_concat_neg isSpace a c this
  | append_singleton b x ih =>
    have e : a ++ c :: (b ++ [x]) = (a ++ c :: b) ++ [x] := by simp
    by_cases hx : isSpace x = true
    · rw [e, List.rdropWhile_concat_pos isSpace _ x hx, List.rdropWhile_concat_pos isSpace _ x hx, ih]
    · rw [e, List.rdropWhile_concat_neg isSpace _ x hx, List.rdropWhile_concat_neg isSpace _ x hx]
      simp

theorem Split_ne_nil (sep : Char) (s : Str) : Split sep s ≠ [] := by
  cases s with
  | nil => simp [Split]
  | cons c cs =>
    unfold Split
    split
    · simp
    · split <;> simp

theorem Split_of_not_mem (sep : Char) (a : Str) (h : sep ∉ a) : Split sep a = [a] := by
  induction a with
  | nil => rfl
  | cons c cs ih =>
    have hc : c ≠ sep := fun e => h (by simp [e])
    have hcs : sep ∉ cs := fun e => h (by simp [e])
    simp [Split, hc, ih hcs]

theorem Split_append_sep (sep : Char) (a b : Str) (h : sep ∉ a) :
    Split sep (a ++ sep :: b) = a :: Split sep b := by
  induction a with
  | nil => simp [Split]
  | cons c cs ih =>
    have hc : c ≠ sep := fun e => h (by simp [e])
    have hcs : sep ∉ cs := fun e => h (by simp [e])
    simp [Split, hc, ih hcs]

theorem Split_pieces (sep : Char) (s : Str) :
    ∀ p ∈ Split sep s, sep ∉ p ∧ ∀ c ∈ p, c ∈ s := by
  induction s with
  | nil => simp [Split]
  | cons c cs ih =>
    intro p hp
    unfold Split at hp
    by_cases hc : c = sep
    · simp only [hc, if_true, List.mem_cons] at hp
      rcases hp with rfl | hp
      · simp
      · have := ih p hp
        exact ⟨this.1, fun x hx => List.mem_cons_of_mem _ (this.2 x hx)⟩
    · simp only [hc, if_false] at hp
      cases hsp : Split sep cs with
      | nil => exact absurd hsp (Split_ne_nil sep cs)
      | cons q qs =>
        rw [hsp] at hp ih
        simp only [List.mem_cons] at hp
        rcases hp with rfl | hp
        · have hq := ih q (List.mem_cons_self _ _)
          refine ⟨?_, ?_⟩
          · intro hm
            rcases List.mem_cons.1 hm with e | e
            · exact hc e.symm
            · exact hq.1 e
          · intro x hx
            rcases List.mem_cons.1 hx with e | e
            · simp [e]
            · exact List.mem_cons_of_mem _ (hq.2 x e)
        · have hq := ih p (List.mem_cons_of_mem _ hp)
          exact ⟨hq.1, fun x hx => List.mem_cons_of_mem _ (hq.2 x hx)⟩

/-! ## Lemmas on the timestamp text -/

theorem digitChar_mem (n : Nat) :
    digitChar n ∈ ['0', '1', '2', '3', '4', '5', '6', '7', '8', '9'] := by
  unfold digitChar
  have h : n % 10 < 10 := Nat.mod_lt _ (by decide)
  generalize n % 10 = k at h
  interval_cases k <;> decide

theorem isDigit_digitChar (n : Nat) : isDigit (digitChar n) = true := by
  have h := digitChar_mem n
  generalize digitChar n = c at h
  simp only [List.mem_cons, List.mem_singleton, List.not_mem_nil, or_false] at h
  rcases h with h | h | h | h | h | h | h | h | h | h <;> subst h <;> decide

theorem digitVal_digitChar (n : Nat) : digitVal (digitChar n) = n % 10 := by
  unfold digitChar
  have h : n % 10 < 10 := Nat.mod_lt _ (by decide)
  generalize n % 10 = k at h
  interval_cases k <;> decide

theorem stampChar_digitChar (n : Nat) : stampChar (digitChar n) = true := by
  simp [stampChar, isDigit_digitChar]

theorem stampChar_decimal (fuel n : Nat) : ∀ c ∈ decimal fuel n, stampChar c = true := by
  induction fuel generalizing n with
  | zero => simp [decimal]
  | succ f ih =>
    intro c hc
    unfold decimal at hc
    split at hc
    · simp only [List.mem_singleton] at hc
      subst hc
      exact stampChar_digitChar n
    · rcases List.mem_append.1 hc with h | h
      · exact ih _ c h
      · simp only [List.mem_singleton] at h
        subst h
        exact stampChar_digitChar n

theorem stampChar_appendInt (x w : Nat) : ∀ c ∈ appendInt x w, stampChar c = true := by
  intro c hc
  unfold appendInt at hc
  split at hc
  · simp only [List.mem_cons, List.mem_singleton, List.not_mem_nil, or_false] at hc
    rcases hc with h | h <;> subst h <;> exact stampChar_digitChar _
  · split at hc
    · simp only [List.mem_cons, List.mem_singleton, List.not_mem_nil, or_false] at hc
      rcases hc with h | h | h | h <;> subst h <;> exact stampChar_digitChar _
    · rcases List.mem_append.1 hc with h | h
      · have := List.eq_of_mem_replicate h
        subst this
        decide
      · exact stampChar_decimal _ _ c h

theorem stampChar_formatZone (o : Int) : ∀ c ∈ formatZone o, stampChar c = true := by
  intro c hc
  by_cases h0 : o = 0
  · simp only [formatZone, h0, if_true, List.mem_singleton] at hc
    subst hc
    decide
  · simp only [formatZone, h0, if_false, List.mem_cons, List.mem_append] at hc
    rcases hc with h | h | h | h
    · subst h
      split <;> decide
    · exact stampChar_appendInt _ _ c h
    · subst h
      decide
    · exact stampChar_appendInt _ _ c h

theorem stampChar_Format (t : Time) : ∀ c ∈ t.Format, stampChar c = true := by
  intro c hc
  unfold Time.Format at hc
  simp only [List.mem_cons, List.mem_append] at hc
  casesm* _ ∨ _
  all_goals
    first
      | exact stampChar_appendInt _ _ c ‹_›
      | exact stampChar_formatZone _ c ‹_›
      | (subst_vars; decide)

theorem stampChar_stampText (t : Time) : ∀ c ∈ stampText t, stampChar c = true := by
  intro c hc
  unfold stampText at hc
  split at hc
  · revert c
    decide
  · exact stampChar_Format t c hc

theorem appendInt_ne_nil (x w : Nat) : appendInt x w ≠ [] := by
  unfold appendInt
  split
  · simp
  · split
    · simp
    · simp [decimal]
      intro _
      split <;> simp

theorem stampText_ne_nil (t : Time) : stampText t ≠ [] := by
  unfold stampText
  split
  · decide
  · simp [Time.Format]

theorem stampChar_props (c : Char) (h : stampChar c = true) :
    isSpace c = false ∧ c ≠ ';' ∧ c ≠ '\n' ∧ c ≠ '\r' ∧ c ≠ '@' := by
  simp only [stampChar, Bool.or_eq_true, beq_iff_eq] at h
  rcases h with ((((h | h) | h) | h) | h) | h
  · have hb : 48 ≤ c.toNat ∧ c.toNat ≤ 57 := by
      simpa [isDigit] using h
    refine ⟨?_, ?_, ?_, ?_, ?_⟩
    · simp only [isSpace, Bool.or_eq_false_iff, Bool.and_eq_false_iff, decide_eq_false_iff_not,
        beq_eq_false_iff_ne, ne_eq]
      omega
    all_goals
      intro e
      subst e
      revert hb
      decide
  all_goals
    subst h
    decide

theorem stampText_no_semicolon (t : Time) : ';' ∉ stampText t := by
  intro h
  exact (stampChar_props _ (stampChar_stampText t _ h)).2.1 rfl

theorem TrimSpace_stampText (t : Time) : TrimSpace (stampText t) = stampText t :=
  TrimSpace_of_no_space _ (fun c hc => (stampChar_props c (stampChar_stampText t c hc)).1)

/-! ## Lemmas on the record codec -/

theorem parseDBLine_parts3 (x : Char) (xs b c : Str) (hx : isSpace x = false)
    (ha : ';' ∉ x :: xs) (hb : ';' ∉ b) (hc : ';' ∉ c) :
    parseDBLine ((x :: xs) ++ ';' :: (b ++ ';' :: c)) =
      some ⟨(Time.Parse (TrimSpace (x :: xs))).getD Time.zero, TrimSpace b, TrimSpace c, []⟩ := by
  have hsemi : isSpace ';' = false := by decide
  have hx2 : ¬ isSpace x = true := by simp [hx]
  have htrim : TrimSpace ((x :: xs) ++ ';' :: (b ++ ';' :: c)) =
      (x :: xs) ++ ';' :: (b ++ ';' :: c.rdropWhile isSpace) := by
    unfold TrimSpace
    rw [List.cons_append, List.dropWhile_cons_of_neg hx2, ← List.cons_append,
      rdropWhile_append_cons _ _ _ hsemi, rdropWhile_append_cons _ _ _ hsemi]
  have hc2 : ';' ∉ c.rdropWhile isSpace :=
    fun h => hc ((List.rdropWhile_prefix isSpace c).subset h)
  unfold parseDBLine
  simp only [htrim]
  rw [Split_append_sep _ _ _ ha, Split_append_sep _ _ _ hb, Split_of_not_mem _ _ hc2]
  simp [TrimSpace_rdropWhile]

theorem parseDBLine_parts4 (x : Char) (xs b c e : Str) (hx : isSpace x = false)
    (ha : ';' ∉ x :: xs) (hb : ';' ∉ b) (hc : ';' ∉ c) (he : ';' ∉ e) :
    parseDBLine ((x :: xs) ++ ';' :: (b ++ ';' :: (c ++ ';' :: e))) =
      some ⟨(Time.Parse (TrimSpace (x :: xs))).getD Time.zero, TrimSpace b, TrimSpace c,
        TrimSpace e⟩ := by
  have hsemi : isSpace ';' = false := by decide
  have hx2 : ¬ isSpace x = true := by simp [hx]
  have htrim : TrimSpace ((x :: xs) ++ ';' :: (b ++ ';' :: (c ++ ';' :: e))) =
      (x :: xs) ++ ';' :: (b ++ ';' :: (c ++ ';' :: e.rdropWhile isSpace)) := by
    unfold TrimSpace
    rw [List.cons_append, List.dropWhile_cons_of_neg hx2, ← List.cons_append,
      rdropWhile_append_cons _ _ _ hsemi, rdropWhile_append_cons _ _ _ hsemi,
      rdropWhile_append_cons _ _ _ hsemi]
  have he2 : ';' ∉ e.rdropWhile isSpace :=
    fun h => he ((List.rdropWhile_prefix isSpace e).subset h)
  unfold parseDBLine
  simp only [htrim]
  rw [Split_append_sep _ _ _ ha, Split_append_sep _ _ _ hb, Split_append_sep _ _ _ hc,
    Split_of_not_mem _ _ he2]
  simp [TrimSpace_rdropWhile]

/-- What `parseDBLine` reads back from the text of a record whose fields hold
no semicolon: the fields trimmed, and the timestamp as its text parses. -/
theorem parseDBLine_String (r : dbRecord) (hs : ';' ∉ r.Status) (he : ';' ∉ r.Email)
    (hr : ';' ∉ r.Error) :
    parseDBLine r.String =
      some ⟨(Time.Parse (stampText r.Timestamp)).getD Time.zero, TrimSpace r.Status,
        TrimSpace r.Email, TrimSpace r.Error⟩ := by
  have hsp : isSpace ' ' = true := by decide
  cases hts : stampText r.Timestamp with
  | nil => exact absurd hts (stampText_ne_nil _)
  | cons x xs =>
    have hx : isSpace x = false :=
      (stampChar_props x (stampChar_stampText r.Timestamp x (by simp [hts]))).1
    have hno : ';' ∉ x :: xs := by
      rw [← hts]; exact stampText_no_semicolon _
    have ha : ';' ∉ x :: (xs ++ [' ']) := by
      intro h
      rcases List.mem_cons.1 h with h | h
      · exact hno (List.mem_cons.2 (Or.inl h))
      · rcases List.mem_append.1 h with h | h
        · exact hno (List.mem_cons_of_mem _ h)
        · simp at h
    have hta : TrimSpace (x :: (xs ++ [' '])) = x :: xs := by
      have e : x :: (xs ++ [' ']) = (x :: xs) ++ [' '] := rfl
      rw [e, TrimSpace_concat_space _ _ hsp, ← hts, TrimSpace_stampText]
    have hb : ';' ∉ ' ' :: (r.Status ++ [' ']) := by
      simp [hs]
    have htb : TrimSpace (' ' :: (r.Status ++ [' '])) = TrimSpace r.Status := by
      rw [TrimSpace_cons_space _ _ hsp, TrimSpace_concat_space _ _ hsp]
    by_cases hE : r.Error = []
    · have hline : r.String =
          (x :: (xs ++ [' '])) ++ ';' :: ((' ' :: (r.Status ++ [' '])) ++ ';' :: (' ' :: r.Email)) := by
        unfold dbRecord.String
        have : (if r.Timestamp.IsZero then zeroStamp else r.Timestamp.Format) = x :: xs := hts
        simp [this, hE, fieldSep]
      have hc : ';' ∉ ' ' :: r.Email := by simp [he]
      rw [hline, parseDBLine_parts3 x _ _ _ hx ha hb hc, hta, htb, TrimSpace_cons_space _ _ hsp,
        hE, TrimSpace_nil]
    · have hline : r.String =
          (x :: (xs ++ [' '])) ++ ';' :: ((' ' :: (r.Status ++ [' '])) ++
            ';' :: ((' ' :: (r.Email ++ [' '])) ++ ';' :: (' ' :: r.Error))) := by
        unfold dbRecord.String
        have : (if r.Timestamp.IsZero then zeroStamp else r.Timestamp.Format) = x :: xs := hts
        simp [this, hE, fieldSep]
      have hc : ';' ∉ ' ' :: (r.Email ++ [' ']) := by simp [he]
      have he2 : ';' ∉ ' ' :: r.Error := by simp [hr]
      rw [hline, parseDBLine_parts4 x _ _ _ _ hx ha hb hc he2, hta, htb,
        TrimSpace_cons_space _ _ hsp, TrimSpace_concat_space _ _ hsp,
        TrimSpace_cons_space _ _ hsp]

/-! ## Reading back a formatted time -/

theorem parseYear_digits (a b c d : Nat) (rest : Str) :
    parseYear (digitChar a :: digitChar b :: digitChar c :: digitChar d :: rest) =
      some (a % 10 * 1000 + b % 10 * 100 + c % 10 * 10 + d % 10, rest) := by
  simp [parseYear, isDigit_digitChar, digitVal_digitChar]

theorem getnum_digits (a b : Nat) (rest : Str) (fixed : Bool) :
    getnum (digitChar a :: digitChar b :: rest) fixed = some (a % 10 * 10 + b % 10, rest) := by
  simp [getnum, isDigit_digitChar, digitVal_digitChar]

theorem skip_cons (c : Char) (rest : Str) : skip c (c :: rest) = some rest := by
  simp [skip]

theorem daysIn_le (m y : Nat) : daysIn m y ≤ 31 := by
  unfold daysIn
  split
  · split <;> omega
  · split <;> omega

theorem appendInt_two (x : Nat) (h : x < 100) :
    appendInt x 2 = [digitChar (x / 10), digitChar x] := by
  simp [appendInt, h]

theorem appendInt_four (x : Nat) (h : x < 10000) :
    appendInt x 4 = [digitChar (x / 1000), digitChar (x / 100), digitChar (x / 10), digitChar x] := by
  simp [appendInt, h]

theorem parseFrac_formatZone (o : Int) : parseFrac (formatZone o) = (0, formatZone o) := by
  by_cases h0 : o = 0
  · simp [formatZone, h0, parseFrac]
  · cases hz : formatZone o with
    | nil => rfl
    | cons c rest =>
      have hc : c = '-' ∨ c = '+' := by
        simp only [formatZone, h0, if_false] at hz
        have := (List.cons.inj hz).1
        rw [← this]
        split <;> simp
      cases rest with
      | nil => rfl
      | cons d rest =>
        have h1 : ¬ (c = '.' ∨ c = ',') := by
          rcases hc with h | h <;> subst h <;> decide
        simp [parseFrac, h1]

theorem parseZone_formatZone (o : Int) (hm : o % 60 = 0) (hlo : -86400 < o) (hhi : o < 86400) :
    parseZone (formatZone o) = some (o, []) := by
  by_cases h0 : o = 0
  · simp [formatZone, h0, parseZone]
  · obtain ⟨k, hk⟩ : ∃ k : Int, o = k * 60 := ⟨o / 60, by omega⟩
    have htd : Int.tdiv o 60 = k := by
      rw [hk]; exact Int.mul_tdiv_cancel k (by decide)
    have hk0 : k ≠ 0 := by
      intro e; apply h0; rw [hk, e]; rfl
    obtain ⟨z, hz⟩ : ∃ z : Nat, k.natAbs = z := ⟨_, rfl⟩
    have hzk : (z : Int) = k ∨ (z : Int) = -k := by omega
    have hz1 : z / 60 < 100 := by omega
    have hz2 : z % 60 < 100 := by omega
    have hh : ¬ (z / 60 / 10 % 10 * 10 + z / 60 % 10 > 24 ∨
        z % 60 / 10 % 10 * 10 + z % 60 % 10 > 60) := by omega
    have hv : (z / 60 / 10 % 10 * 10 + z / 60 % 10) * 60 +
        (z % 60 / 10 % 10 * 10 + z % 60 % 10) = z := by omega
    simp only [formatZone, h0, if_false, htd, hz, appendInt_two _ hz1, appendInt_two _ hz2]
    by_cases hneg : k < 0
    · have e1 : ('-' : Char) ≠ 'Z' := by decide
      have e2 : ('-' : Char) ≠ '+' := by decide
      simp only [hneg, if_true, parseZone, List.cons_append, List.nil_append, e1, if_false,
        getnum_digits, ne_eq, not_true_eq_false, e2, hh, hv]
      rw [hk]
      congr 2
      push_cast
      omega
    · have e1 : ('+' : Char) ≠ 'Z' := by decide
      simp only [hneg, if_false, parseZone, List.cons_append, List.nil_append, e1,
        getnum_digits, ne_eq, not_true_eq_false, if_true, hh, hv]
      rw [hk]
      congr 2
      push_cast
      omega

/-- A time the file can hold exactly: a well-formed reading with a year of
four digits and a zone offset of whole minutes within a day. -/
theorem Parse_Format (t : Time) (hwf : t.WF) (hy : t.year ≤ 9999) (hm : t.offset % 60 = 0)
    (hlo : -86400 < t.offset) (hhi : t.offset < 86400) :
    Time.Parse t.Format = some { t with nsec := 0 } := by
  obtain ⟨h1, h2, h3, h4, h5, h6, h7, _⟩ := hwf
  have hd := daysIn_le t.month t.year
  have e4 := appendInt_four t.year (by omega)
  have em := appendInt_two t.month (by omega)
  have ed := appendInt_two t.day (by omega)
  have eh := appendInt_two t.hour (by omega)
  have emi := appendInt_two t.minute (by omega)
  have es := appendInt_two t.second (by omega)
  have ey : t.year / 1000 % 10 * 1000 + t.year / 100 % 10 * 100 + t.year / 10 % 10 * 10 +
      t.year % 10 = t.year := by omega
  have e2 : ∀ x : Nat, x < 100 → x / 10 % 10 * 10 + x % 10 = x := by
    intro x hx; omega
  simp only [Time.Format, e4, em, ed, eh, emi, es, List.cons_append, List.nil_append,
    Time.Parse, parseYear_digits, getnum_digits, skip_cons, Option.bind_eq_bind,
    Option.some_bind, parseFrac_formatZone, parseZone_formatZone _ hm hlo hhi, ey,
    e2 t.month (by omega), e2 t.day (by omega), e2 t.hour (by omega), e2 t.minute (by omega),
    e2 t.second (by omega)]
  have c1 : ¬ (t.month < 1 ∨ 12 < t.month) := by omega
  have c2 : ¬ (t.day < 1 ∨ daysIn t.month t.year < t.day) := by omega
  have c3 : ¬ (24 ≤ t.hour ∨ 60 ≤ t.minute ∨ 60 ≤ t.second) := by omega
  simp [c1, c2, c3]
  omega

theorem digitVal_le (c : Char) (h : isDigit c = true) : digitVal c ≤ 9 := by
  unfold isDigit at h
  unfold digitVal
  simp at h
  omega

theorem parseYear_le (s rest : Str) (y : Nat) (h : parseYear s = some (y, rest)) : y ≤ 9999 := by
  unfold parseYear at h
  split at h
  · split at h
    · rename_i a b c d r hd
      simp only [Bool.and_eq_true] at hd
      have e := (Prod.mk.inj (Option.some.inj h)).1
      have := digitVal_le a hd.1.1.1
      have := digitVal_le b hd.1.1.2
      have := digitVal_le c hd.1.2
      have := digitVal_le d hd.2
      omega
    · exact absurd h (by simp)
  · exact absurd h (by simp)

theorem foldl_digits_lt (ds : Str) (hd : ∀ c ∈ ds, isDigit c = true) (a : Nat) :
    ds.foldl (fun a c => a * 10 + digitVal c) a + 1 ≤ (a + 1) * 10 ^ ds.length := by
  induction ds generalizing a with
  | nil => simp
  | cons c cs ih =>
    have hc := digitVal_le c (hd c (by simp))
    have h2 := ih (fun x hx => hd x (by simp [hx])) (a * 10 + digitVal c)
    simp only [List.foldl_cons, List.length_cons]
    calc _ ≤ (a * 10 + digitVal c + 1) * 10 ^ cs.length := h2
      _ ≤ ((a + 1) * 10) * 10 ^ cs.length := Nat.mul_le_mul_right _ (by omega)
      _ = (a + 1) * 10 ^ (cs.length + 1) := by ring

theorem fracNanos_lt (ds : Str) (hd : ∀ c ∈ ds, isDigit c = true) : fracNanos ds < 1000000000 := by
  unfold fracNanos
  simp only
  have hlen : (ds.take 9).length ≤ 9 := by simp
  have h := foldl_digits_lt (ds.take 9) (fun c hc => hd c (List.mem_of_mem_take hc)) 0
  simp only [Nat.zero_add, Nat.one_mul] at h
  have hp : 0 < 10 ^ (9 - (ds.take 9).length) := Nat.pow_pos (by decide)
  have e : 10 ^ (ds.take 9).length * 10 ^ (9 - (ds.take 9).length) = 1000000000 := by
    rw [← Nat.pow_add]
    have : (ds.take 9).length + (9 - (ds.take 9).length) = 9 := by omega
    rw [this]
  calc _ < 10 ^ (ds.take 9).length * 10 ^ (9 - (ds.take 9).length) :=
        Nat.mul_lt_mul_of_pos_right (by omega) hp
    _ = 1000000000 := e

theorem parseFrac_lt (s : Str) : (parseFrac s).1 < 1000000000 := by
  unfold parseFrac
  split
  · split
    · exact fracNanos_lt _ (fun c hc => (List.mem_takeWhile_imp hc))
    · show 0 < 1000000000
      decide
  · show 0 < 1000000000
    decide

theorem parseZone_props (s rest : Str) (o : Int) (h : parseZone s = some (o, rest)) :
    o % 60 = 0 ∧ -90000 ≤ o ∧ o ≤ 90000 := by
  unfold parseZone at h
  split at h
  · exact absurd h (by simp)
  · split at h
    · have e := (Prod.mk.inj (Option.some.inj h)).1
      subst e
      decide
    · split at h
      · split at h
        · exact absurd h (by simp)
        · split at h
          · rename_i hr _ mm _ _ _
            split at h
            · exact absurd h (by simp)
            · rename_i hb
              have hb2 : hr ≤ 24 ∧ mm ≤ 60 := by omega
              split at h
              · have e := (Prod.mk.inj (Option.some.inj h)).1
                subst e
                omega
              · split at h
                · have e := (Prod.mk.inj (Option.some.inj h)).1
                  subst e
                  omega
                · exact absurd h (by simp)
          · exact absurd h (by simp)
      · exact absurd h (by simp)


theorem Parse_props (s : Str) (t : Time) (h : Time.Parse s = some t) :
    t.WF ∧ t.year ≤ 9999 ∧ t.offset % 60 = 0 ∧ -90000 ≤ t.offset ∧ t.offset ≤ 90000 := by
  unfold Time.Parse at h
  simp only [Option.bind_eq_bind, Option.bind_eq_some] at h
  obtain ⟨p1, h1, s1, -, p2, -, s2, -, p3, -, s3, -, p4, -, s4, -, p5, -, s5, -, p6, -, p7, h7, h⟩ := h
  have hy := parseYear_le s p1.2 p1.1 h1
  have hz := parseZone_props _ p7.2 p7.1 h7
  have hn := parseFrac_lt p6.2
  split at h
  · exact absurd h (by simp)
  split at h
  · exact absurd h (by simp)
  split at h
  · exact absurd h (by simp)
  split at h
  · exact absurd h (by simp)
  have e := Option.some.inj h
  subst e
  unfold Time.WF
  simp only
  omega

/-! ## The round trip of the codec -/

theorem IsStatus_clean (s : Str) (h : IsStatus s) : ';' ∉ s ∧ '\n' ∉ s ∧ TrimSpace s = s := by
  rcases h with h | h | h | h | h <;> subst h <;> decide

theorem Parse_zeroStamp : Time.Parse zeroStamp = none := by
  decide

theorem Parse_stampText (t : Time) (h : t = Time.zero ∨ ClockTime t) :
    (Time.Parse (stampText t)).getD Time.zero = { t with nsec := 0 } := by
  rcases h with h | ⟨hwf, hz, hy, hm, hlo, hhi⟩
  · subst h
    have : stampText Time.zero = zeroStamp := by decide
    rw [this, Parse_zeroStamp]
    rfl
  · have : stampText t = t.Format := by simp [stampText, hz]
    rw [this, Parse_Format t hwf hy hm hlo hhi]
    rfl

/-- C1, the claim refuted: a valid record whose timestamp is a clock reading
with half a second does not come back from its own text; the timestamp read
back has lost the fraction of the second. -/
theorem roundtrip_loses_subsecond :
    halfSecondRecord.Valid ∧
      parseDBLine halfSecondRecord.String ≠ some halfSecondRecord ∧
      parseDBLine halfSecondRecord.String =
        some { halfSecondRecord with Timestamp := ⟨2024, 3, 9, 5, 4, 3, 0, 0⟩ } := by
  decide

/-- C1, amended: for every valid record, `parseDBLine` accepts the text
`String` gives and returns the record with the same status, email and error
and with the timestamp cut to the whole second; so a record whose timestamp
has no fraction of a second, the zero value included, comes back equal in
all four fields. -/
theorem parseDBLine_String_roundtrip (r : dbRecord) (hv : r.Valid) :
    parseDBLine r.String = some { r with Timestamp := { r.Timestamp with nsec := 0 } } ∧
      (r.Timestamp.nsec = 0 → parseDBLine r.String = some r) := by
  obtain ⟨hs, ⟨he1, _, _, he4⟩, ⟨hr1, _, _, hr4⟩, ht⟩ := hv
  have hst := IsStatus_clean r.Status hs
  have key : parseDBLine r.String =
      some { r with Timestamp := { r.Timestamp with nsec := 0 } } := by
    rw [parseDBLine_String r hst.1 he1 hr1, Parse_stampText _ ht, hst.2.2]
    have e1 : TrimSpace r.Email = r.Email := he4
    have e2 : TrimSpace r.Error = r.Error := hr4
    rw [e1, e2]
  refine ⟨key, ?_⟩
  intro hn
  rw [key]
  have : ({ r.Timestamp with nsec := 0 } : Time) = r.Timestamp := by
    cases hT : r.Timestamp
    rw [hT] at hn
    simp only at hn
    subst hn
    rfl
  rw [this]

/-- C1, the amended round trip at two records: one stamped at a whole second
comes back exactly, the one with half a second comes back cut to the second. -/
theorem parseDBLine_String_roundtrip_witness :
    wholeSecondRecord.Valid ∧ wholeSecondRecord.Timestamp.nsec = 0 ∧
      parseDBLine wholeSecondRecord.String = some wholeSecondRecord ∧
      parseDBLine halfSecondRecord.String =
        some { halfSecondRecord with
          Timestamp := { halfSecondRecord.Timestamp with nsec := 0 } } :=
  ⟨by decide, rfl,
    (parseDBLine_String_roundtrip wholeSecondRecord (by decide)).2 rfl,
    (parseDBLine_String_roundtrip halfSecondRecord (by decide)).1⟩

/-! ## Lemmas on parsed fields -/

theorem parseDBLine_fields (l : Str) (r : dbRecord) (h : parseDBLine l = some r) :
    (Trimmed r.Status ∧ Trimmed r.Email ∧ Trimmed r.Error) ∧
      (';' ∉ r.Status ∧ ';' ∉ r.Email ∧ ';' ∉ r.Error) ∧
      ((∀ c ∈ r.Status, c ∈ l) ∧ (∀ c ∈ r.Email, c ∈ l) ∧ (∀ c ∈ r.Error, c ∈ l)) := by
  unfold parseDBLine at h
  simp only at h
  split at h
  · exact absurd h (by simp)
  · split at h
    · rename_i p0 p1 p2 rest hsp
      have hp := Split_pieces ';' (TrimSpace l)
      rw [hsp] at hp
      have h1 := hp p1 (by simp)
      have h2 := hp p2 (by simp)
      have sub : ∀ (p : Str), (∀ c ∈ p, c ∈ TrimSpace l) → ∀ c ∈ TrimSpace p, c ∈ l :=
        fun p hpp c hc => TrimSpace_subset l c (hpp c (TrimSpace_subset p c hc))
      have nos : ∀ (p : Str), ';' ∉ p → ';' ∉ TrimSpace p :=
        fun p hpp hc => hpp (TrimSpace_subset p _ hc)
      have hr := Option.some.inj h
      subst hr
      cases rest with
      | nil =>
        refine ⟨⟨TrimSpace_idem _, TrimSpace_idem _, TrimSpace_nil⟩,
          ⟨nos _ h1.1, nos _ h2.1, by simp⟩, ⟨sub _ h1.2, sub _ h2.2, by simp⟩⟩
      | cons p3 rest1 =>
        have h3 := hp p3 (by simp)
        exact ⟨⟨TrimSpace_idem _, TrimSpace_idem _, TrimSpace_idem _⟩,
          ⟨nos _ h1.1, nos _ h2.1, nos _ h3.1⟩, ⟨sub _ h1.2, sub _ h2.2, sub _ h3.2⟩⟩
    · exact absurd h (by simp)

theorem parseDBLine_concat_space (l : Str) (c : Char) (hc : isSpace c = true) :
    parseDBLine (l ++ [c]) = parseDBLine l := by
  unfold parseDBLine
  rw [TrimSpace_concat_space c l hc]

theorem parseDBLine_dropCR (l : Str) : parseDBLine (dropCR l) = parseDBLine l := by
  unfold dropCR
  split
  · rename_i h
    obtain ⟨hne, hlast⟩ : ∃ hne : l ≠ [], l.getLast hne = '\r' := by
      cases l with
      | nil => simp at h
      | cons x xs =>
        refine ⟨by simp, ?_⟩
        rw [List.getLast?_eq_getLast _ (by simp)] at h
        exact Option.some.inj h
    have e : l = l.dropLast ++ ['\r'] := by
      have := List.dropLast_append_getLast hne
      rw [hlast] at this
      exact this.symm
    have hcr : isSpace '\r' = true := by decide
    conv_rhs => rw [e]
    rw [parseDBLine_concat_space _ _ hcr]
  · rfl

/-! ## Lemmas on the loops -/

theorem exists_FirstAt (p : Str → Bool) (lines : List Str) (h : ∃ l ∈ lines, p l = true) :
    ∃ i l, FirstAt p lines i l := by
  induction lines with
  | nil => simp at h
  | cons x xs ih =>
    by_cases hx : p x = true
    · exact ⟨0, x, by simp, hx, fun j y hj => absurd hj (Nat.not_lt_zero j)⟩
    · have hx2 : p x = false := by simpa using hx
      obtain ⟨l, hl, hpl⟩ := h
      have hl2 : l ∈ xs := by
        rcases List.mem_cons.1 hl with e | e
        · subst e; exact absurd hpl hx
        · exact e
      obtain ⟨i, l1, h1, h2, h3⟩ := ih ⟨l, hl2, hpl⟩
      refine ⟨i + 1, l1, by simpa using h1, h2, ?_⟩
      intro j y hj hy
      cases j with
      | zero =>
        have : y = x := by simpa using hy.symm
        rw [this]; exact hx2
      | succ j => exact h3 j y (by omega) (by simpa using hy)

theorem FirstAt_cons_succ (p : Str → Bool) (x : Str) (xs : List Str) (i : Nat) (l : Str)
    (h : FirstAt p (x :: xs) (i + 1) l) : p x = false ∧ FirstAt p xs i l := by
  obtain ⟨h1, h2, h3⟩ := h
  refine ⟨h3 0 x (by omega) (by simp), by simpa using h1, h2, ?_⟩
  intro j y hj hy
  exact h3 (j + 1) y (by omega) (by simpa using hy)

theorem FirstAt_lt (p : Str → Bool) (lines : List Str) (i : Nat) (l : Str)
    (h : FirstAt p lines i l) : i < lines.length := by
  have := h.1
  by_contra hn
  rw [List.getElem?_eq_none (by omega)] at this
  exact absurd this (by simp)

theorem FirstAt_unique (p : Str → Bool) (lines : List Str) (i k : Nat) (l m : Str)
    (h1 : FirstAt p lines i l) (h2 : FirstAt p lines k m) : i = k := by
  rcases Nat.lt_trichotomy i k with h | h | h
  · have := h2.2.2 i l h h1.1
    rw [h1.2.1] at this
    exact absurd this (by simp)
  · exact h
  · have := h1.2.2 k m h h2.1
    rw [h2.2.1] at this
    exact absurd this (by simp)

theorem claimLoop_FirstAt (now : Time) (lines : List Str) (i : Nat) (l : Str) (r : dbRecord)
    (h : FirstAt isPendingLine lines i l) (hr : parseDBLine l = some r) :
    claimLoop now lines = some (claimed now r, lines.set i (claimed now r).String) := by
  induction lines generalizing i with
  | nil => simp [FirstAt] at h
  | cons x xs ih =>
    cases i with
    | zero =>
      have hx : x = l := by simpa using h.1
      subst hx
      have hp : r.Status = StatusPending := by
        have := h.2.1
        simpa [isPendingLine, lineSat, hr] using this
      simp [claimLoop, hr, hp, claimed]
    | succ i =>
      obtain ⟨hx, hrest⟩ := FirstAt_cons_succ _ _ _ _ _ h
      have hi := ih i hrest
      unfold claimLoop
      cases hpx : parseDBLine x with
      | none => simp [hi]
      | some rx =>
        have : ¬ rx.Status = StatusPending := by
          simpa [isPendingLine, lineSat, hpx] using hx
        simp [this, hi]

theorem claimLoop_none (now : Time) (lines : List Str)
    (h : ∀ l ∈ lines, isPendingLine l = false) : claimLoop now lines = none := by
  induction lines with
  | nil => rfl
  | cons x xs ih =>
    have hx := h x (by simp)
    have hi := ih (fun l hl => h l (by simp [hl]))
    unfold claimLoop
    cases hpx : parseDBLine x with
    | none => simp [hi]
    | some rx =>
      have : ¬ rx.Status = StatusPending := by
        simpa [isPendingLine, lineSat, hpx] using hx
      simp [this, hi]

theorem updateLoop_FirstAt (f : dbRecord → Bool) (u : dbRecord → dbRecord) (lines : List Str)
    (i : Nat) (l : Str) (r : dbRecord) (h : FirstAt (lineSat f) lines i l)
    (hr : parseDBLine l = some r) : updateLoop f u lines = lines.set i (u r).String := by
  induction lines generalizing i with
  | nil => simp [FirstAt] at h
  | cons x xs ih =>
    cases i with
    | zero =>
      have hx : x = l := by simpa using h.1
      subst hx
      have hp : f r = true := by
        have := h.2.1
        simpa [lineSat, hr] using this
      simp [updateLoop, hr, hp]
    | succ i =>
      obtain ⟨hx, hrest⟩ := FirstAt_cons_succ _ _ _ _ _ h
      have hi := ih i hrest
      unfold updateLoop
      cases hpx : parseDBLine x with
      | none => simp [hi]
      | some rx =>
        have : f rx = false := by
          simpa [lineSat, hpx] using hx
        simp [this, hi]

theorem updateLoop_none (f : dbRecord → Bool) (u : dbRecord → dbRecord) (lines : List Str)
    (h : ∀ l ∈ lines, lineSat f l = false) : updateLoop f u lines = lines := by
  induction lines with
  | nil => rfl
  | cons x xs ih =>
    have hx := h x (by simp)
    have hi := ih (fun l hl => h l (by simp [hl]))
    unfold updateLoop
    cases hpx : parseDBLine x with
    | none => simp [hi]
    | some rx =>
      have : f rx = false := by
        simpa [lineSat, hpx] using hx
      simp [this, hi]

/-! ## Lemmas on the file -/

theorem Split_Join_newline (ls : List Str) (hne : ls ≠ []) (hnl : ∀ l ∈ ls, '\n' ∉ l) :
    Split '\n' (Join ls ++ ['\n']) = ls ++ [[]] := by
  induction ls with
  | nil => exact absurd rfl hne
  | cons l rest ih =>
    have hl : '\n' ∉ l := hnl l (by simp)
    cases rest with
    | nil =>
      simp only [Join]
      rw [Split_append_sep _ _ _ hl]
      rfl
    | cons l2 rest2 =>
      have hi := ih (by simp) (fun x hx => hnl x (by simp [hx]))
      have e : Join (l :: l2 :: rest2) ++ ['\n'] = l ++ '\n' :: (Join (l2 :: rest2) ++ ['\n']) := by
        simp [Join]
      rw [e, Split_append_sep _ _ _ hl, hi]
      rfl

theorem scanTokens_Join (ls : List Str) (hne : ls ≠ []) (hnl : ∀ l ∈ ls, '\n' ∉ l) :
    scanTokens (Join ls ++ ['\n']) = ls.map dropCR := by
  unfold scanTokens
  simp only [Split_Join_newline ls hne hnl]
  simp

theorem byteLen_nil : byteLen [] = 0 := rfl

theorem byteLen_cons (c : Char) (s : Str) : byteLen (c :: s) = c.utf8Size + byteLen s := by
  simp [byteLen]

theorem byteLen_append (a b : Str) : byteLen (a ++ b) = byteLen a + byteLen b := by
  simp [byteLen]

theorem byteLen_replicate (n : Nat) (c : Char) :
    byteLen (List.replicate n c) = n * c.utf8Size := by
  induction n with
  | zero => simp [byteLen]
  | succ k ih =>
    rw [List.replicate_succ, byteLen_cons, ih]
    ring

theorem byteLen_dropLast_le (s : Str) : byteLen s.dropLast ≤ byteLen s := by
  induction s with
  | nil => simp
  | cons c rest ih =>
    cases rest with
    | nil => simp [byteLen]
    | cons c2 rest2 =>
      rw [List.dropLast_cons₂, byteLen_cons, byteLen_cons]
      have := ih
      omega

theorem byteLen_dropCR_le (s : Str) : byteLen (dropCR s) ≤ byteLen s := by
  unfold dropCR
  split
  · exact byteLen_dropLast_le s
  · exact le_refl _

/-- The scan of a text succeeds exactly when every line of it is shorter
than the scanner's limit. -/
theorem scanLines_ok_iff (text : Str) (lines : List Str) :
    scanLines text = .ok lines ↔
      (∀ p ∈ Split '\n' text, byteLen p < MaxScanTokenSize) ∧ lines = scanTokens text := by
  unfold scanLines
  by_cases h : (Split '\n' text).all (fun p => decide (byteLen p < MaxScanTokenSize)) = true
  · rw [if_pos h]
    have h2 : ∀ p ∈ Split '\n' text, byteLen p < MaxScanTokenSize := by
      simpa using h
    constructor
    · intro e
      exact ⟨h2, (Except.ok.inj e).symm⟩
    · rintro ⟨_, e⟩
      rw [e]
  · rw [if_neg h]
    constructor
    · intro e
      exact absurd e (by simp)
    · rintro ⟨h2, _⟩
      exact absurd (by simpa using h2) h

theorem scanLines_too_long (text : Str) (p : Str) (hp : p ∈ Split '\n' text)
    (hlen : MaxScanTokenSize ≤ byteLen p) : scanLines text = .error .ErrTooLong := by
  unfold scanLines
  rw [if_neg]
  intro h
  have h2 : ∀ q ∈ Split '\n' text, byteLen q < MaxScanTokenSize := by
    simpa using h
  have := h2 p hp
  omega

theorem readLines_writeLines (d : Disk) (ls : List Str) (hw : d.readOnly = false)
    (hne : ls ≠ []) (hnl : ∀ l ∈ ls, '\n' ∉ l)
    (hfit : ∀ l ∈ ls, byteLen l < MaxScanTokenSize) :
    (writeLines d ls).1 = none ∧ readLines (writeLines d ls).2 = .ok (ls.map dropCR) := by
  have hs : scanLines (Join ls ++ ['\n']) = .ok (ls.map dropCR) := by
    rw [scanLines_ok_iff]
    refine ⟨?_, (scanTokens_Join ls hne hnl).symm⟩
    rw [Split_Join_newline ls hne hnl]
    intro p hp
    rcases List.mem_append.1 hp with h | h
    · exact hfit p h
    · have : p = [] := by simpa using h
      subst this
      decide
  simp [writeLines, hw, readLines, hs]

theorem readLines_writeLines_too_long (d : Disk) (ls : List Str) (hw : d.readOnly = false)
    (hne : ls ≠ []) (hnl : ∀ l ∈ ls, '\n' ∉ l) (l : Str) (hl : l ∈ ls)
    (hlen : MaxScanTokenSize ≤ byteLen l) :
    readLines (writeLines d ls).2 = .error .ErrTooLong := by
  have hs : scanLines (Join ls ++ ['\n']) = .error .ErrTooLong := by
    apply scanLines_too_long _ l _ hlen
    rw [Split_Join_newline ls hne hnl]
    exact List.mem_append_left _ hl
  simp [writeLines, hw, readLines, hs]

theorem dropCR_subset (l : Str) : ∀ c ∈ dropCR l, c ∈ l := by
  intro c hc
  unfold dropCR at hc
  split at hc
  · exact List.mem_of_mem_dropLast hc
  · exact hc

theorem scanTokens_no_newline (text : Str) : ∀ l ∈ scanTokens text, '\n' ∉ l := by
  intro l hl hmem
  unfold scanTokens at hl
  simp only [List.mem_map] at hl
  obtain ⟨p, hp, rfl⟩ := hl
  have hp2 : p ∈ Split '\n' text := by
    split at hp
    · exact List.mem_of_mem_dropLast hp
    · exact hp
  exact (Split_pieces '\n' text p hp2).1 (dropCR_subset p _ hmem)

theorem readLines_ok_iff (d : Disk) (lines : List Str) :
    readLines d = .ok lines ↔
      ∃ text, d.data = some text ∧ (∀ p ∈ Split '\n' text, byteLen p < MaxScanTokenSize) ∧
        lines = scanTokens text := by
  unfold readLines
  cases hd : d.data with
  | none => simp
  | some text => simp [scanLines_ok_iff]

theorem readLines_no_newline (d : Disk) (lines : List Str) (h : readLines d = .ok lines) :
    ∀ l ∈ lines, '\n' ∉ l := by
  obtain ⟨text, _, _, rfl⟩ := (readLines_ok_iff d lines).1 h
  exact scanTokens_no_newline _

/-- Every line `readLines` returns is shorter than the scanner's limit. -/
theorem readLines_fit (d : Disk) (lines : List Str) (h : readLines d = .ok lines) :
    ∀ l ∈ lines, byteLen l < MaxScanTokenSize := by
  obtain ⟨text, _, hfit, rfl⟩ := (readLines_ok_iff d lines).1 h
  intro l hl
  unfold scanTokens at hl
  simp only [List.mem_map] at hl
  obtain ⟨p, hp, rfl⟩ := hl
  have hp2 : p ∈ Split '\n' text := by
    split at hp
    · exact List.mem_of_mem_dropLast hp
    · exact hp
  exact lt_of_le_of_lt (byteLen_dropCR_le p) (hfit p hp2)

theorem Fits_of_readLines (d : Disk) (lines : List Str) (h : readLines d = .ok lines) :
    Fits d := by
  obtain ⟨text, hd, hfit, _⟩ := (readLines_ok_iff d lines).1 h
  unfold Fits
  rw [hd]
  exact hfit

/-- A file that can be opened is read exactly when none of its lines reaches
the limit of the scanner. -/
theorem readLines_ok_iff_Fits (d : Disk) :
    (∃ lines, readLines d = .ok lines) ↔ d.data ≠ none ∧ Fits d := by
  constructor
  · rintro ⟨lines, h⟩
    obtain ⟨text, hd, _, _⟩ := (readLines_ok_iff d lines).1 h
    exact ⟨by rw [hd]; simp, Fits_of_readLines d lines h⟩
  · rintro ⟨hd, hf⟩
    cases ht : d.data with
    | none => exact absurd ht hd
    | some text =>
      unfold Fits at hf
      rw [ht] at hf
      exact ⟨scanTokens text, (readLines_ok_iff d _).2 ⟨text, ht, hf, rfl⟩⟩

theorem readLines_after_write (d : Disk) (ls : List Str) (hw : d.readOnly = false)
    (hne : ls ≠ []) (hnl : ∀ l ∈ ls, '\n' ∉ l) (hf : Fits (writeLines d ls).2) :
    (writeLines d ls).1 = none ∧ readLines (writeLines d ls).2 = .ok (ls.map dropCR) := by
  apply readLines_writeLines d ls hw hne hnl
  intro l hl
  have hd : (writeLines d ls).2.data = some (Join ls ++ ['\n']) := by
    simp [writeLines, hw]
  unfold Fits at hf
  rw [hd] at hf
  apply hf l
  show l ∈ Split '\n' (Join ls ++ ['\n'])
  rw [Split_Join_newline ls hne hnl]
  exact List.mem_append_left _ hl

theorem dropCR_of_not_mem (s : Str) (h : '\r' ∉ s) : dropCR s = s := by
  unfold dropCR
  rw [if_neg]
  intro hl
  exact h (List.mem_of_getLast?_eq_some hl)

theorem String_no_newline (r : dbRecord) (h1 : '\n' ∉ r.Status) (h2 : '\n' ∉ r.Email)
    (h3 : '\n' ∉ r.Error) : '\n' ∉ r.String := by
  have h0 : '\n' ∉ stampText r.Timestamp :=
    fun h => (stampChar_props _ (stampChar_stampText _ _ h)).2.2.1 rfl
  have hs : '\n' ∉ fieldSep := by decide
  have e : r.String = if r.Error ≠ [] then
      stampText r.Timestamp ++ fieldSep ++ r.Status ++ fieldSep ++ r.Email ++ fieldSep ++ r.Error
      else stampText r.Timestamp ++ fieldSep ++ r.Status ++ fieldSep ++ r.Email := rfl
  rw [e]
  split <;> simp [h0, h1, h2, h3, hs]

theorem mem_set_cases (lines : List Str) (i : Nat) (new x : Str) (h : x ∈ lines.set i new) :
    x = new ∨ x ∈ lines := by
  rcases List.mem_or_eq_of_mem_set h with h | h
  · exact Or.inr h
  · exact Or.inl h

/-! ## GetNextPending -/

theorem claimed_parses (now : Time) (l : Str) (r : dbRecord) (h : parseDBLine l = some r) :
    ∃ r2, parseDBLine (claimed now r).String = some r2 ∧ r2.Status = StatusSending ∧
      r2.Email = r.Email ∧ r2.Error = r.Error := by
  obtain ⟨⟨_, t2, t3⟩, ⟨_, s2, s3⟩, _⟩ := parseDBLine_fields l r h
  have hs : ';' ∉ (claimed now r).Status := by
    show ';' ∉ StatusSending
    decide
  refine ⟨_, parseDBLine_String (claimed now r) hs s2 s3, ?_, t2, t3⟩
  show TrimSpace StatusSending = StatusSending
  decide

theorem GetNextPending_of_FirstAt (now : Time) (d : Disk) (lines : List Str) (i : Nat) (l : Str)
    (r : dbRecord) (hread : readLines d = .ok lines) (hw : d.readOnly = false)
    (h : FirstAt isPendingLine lines i l) (hr : parseDBLine l = some r) :
    GetNextPending now d =
      (.ok ⟨r.Email, StatusPending, []⟩,
        { d with data := some (Join (lines.set i (claimed now r).String) ++ ['\n']) }) := by
  unfold GetNextPending
  rw [hread]
  simp only [claimLoop_FirstAt now lines i l r h hr, writeLines, hw]
  rfl

theorem pending_of_isPendingLine (l : Str) (h : isPendingLine l = true) :
    ∃ r, parseDBLine l = some r ∧ r.Status = StatusPending := by
  unfold isPendingLine lineSat at h
  split at h
  · rename_i r hr
    exact ⟨r, hr, by simpa using h⟩
  · exact absurd h (by simp)

/-- C2: when some line parses to a PENDING record, `GetNextPending` succeeds;
it returns the email of the first such line in file order, writes the file back
with exactly that line replaced by the text of a record with status SENDING and
the same email (which parses back so), and every other line as it was. -/
theorem GetNextPending_claims_first (now : Time) (d : Disk) (lines : List Str)
    (hread : readLines d = .ok lines) (hw : d.readOnly = false)
    (hex : ∃ l ∈ lines, ∃ r, parseDBLine l = some r ∧ r.Status = StatusPending) :
    ∃ (i : Nat) (l : Str) (r : dbRecord),
      FirstAt isPendingLine lines i l ∧ parseDBLine l = some r ∧
      GetNextPending now d =
        (.ok ⟨r.Email, StatusPending, []⟩,
          { d with data := some (Join (lines.set i (claimed now r).String) ++ ['\n']) }) ∧
      (claimed now r).Status = StatusSending ∧ (claimed now r).Email = r.Email ∧
      ∃ r2, parseDBLine (claimed now r).String = some r2 ∧ r2.Status = StatusSending ∧
        r2.Email = r.Email := by
  have hex2 : ∃ l ∈ lines, isPendingLine l = true := by
    obtain ⟨l, hl, r, hr, hs⟩ := hex
    exact ⟨l, hl, by simp [isPendingLine, lineSat, hr, hs]⟩
  obtain ⟨i, l, hfirst⟩ := exists_FirstAt isPendingLine lines hex2
  obtain ⟨r, hr, _⟩ := pending_of_isPendingLine l hfirst.2.1
  obtain ⟨r2, h1, h2, h3, _⟩ := claimed_parses now l r hr
  exact ⟨i, l, r, hfirst, hr, GetNextPending_of_FirstAt now d lines i l r hread hw hfirst hr,
    rfl, rfl, r2, h1, h2, h3⟩

/-- C2 on the file PENDING(a), DONE(b), PENDING(c): the claim applies, and the
call returns `a`, rewrites the first line only, and leaves `c` PENDING. -/
theorem GetNextPending_claims_first_witness :
    readLines queueABC = .ok queueABCLines ∧ queueABC.readOnly = false ∧
      (∃ l ∈ queueABCLines, ∃ r, parseDBLine l = some r ∧ r.Status = StatusPending) ∧
      (∃ (i : Nat) (l : Str) (r : dbRecord),
        FirstAt isPendingLine queueABCLines i l ∧ parseDBLine l = some r ∧
        GetNextPending noon queueABC =
          (.ok ⟨r.Email, StatusPending, []⟩,
            { queueABC with
              data := some (Join (queueABCLines.set i (claimed noon r).String) ++ ['\n']) }) ∧
        (claimed noon r).Status = StatusSending ∧ (claimed noon r).Email = r.Email ∧
        ∃ r2, parseDBLine (claimed noon r).String = some r2 ∧ r2.Status = StatusSending ∧
          r2.Email = r.Email) ∧
      GetNextPending noon queueABC =
        (.ok ⟨"a@x.io".toList, StatusPending, []⟩,
          ⟨some ("2024-03-09T12:00:00Z ; SENDING ; a@x.io\n" ++
            "2024-03-09T09:00:00Z ; DONE ; b@x.io\n" ++
            "2024-03-09T08:00:00Z ; PENDING ; c@x.io\n").toList, false⟩) :=
  have hex : ∃ l ∈ queueABCLines, ∃ r, parseDBLine l = some r ∧ r.Status = StatusPending :=
    ⟨"2024-03-09T11:00:00Z ; PENDING ; a@x.io".toList, by decide,
      ⟨⟨2024, 3, 9, 11, 0, 0, 0, 0⟩, StatusPending, "a@x.io".toList, []⟩, by decide, rfl⟩
  ⟨by rfl, rfl, hex,
    GetNextPending_claims_first noon queueABC queueABCLines (by rfl) rfl hex, by rfl⟩

theorem claimLoop_some_inv (now : Time) (lines lines1 : List Str) (rec : dbRecord)
    (h : claimLoop now lines = some (rec, lines1)) :
    ∃ i l r, FirstAt isPendingLine lines i l ∧ parseDBLine l = some r ∧
      rec = claimed now r ∧ lines1 = lines.set i (claimed now r).String := by
  by_cases hex : ∃ l ∈ lines, isPendingLine l = true
  · obtain ⟨i, l, hfirst⟩ := exists_FirstAt isPendingLine lines hex
    obtain ⟨r, hr, _⟩ := pending_of_isPendingLine l hfirst.2.1
    rw [claimLoop_FirstAt now lines i l r hfirst hr] at h
    have := Option.some.inj h
    exact ⟨i, l, r, hfirst, hr, (Prod.mk.inj this).1.symm, (Prod.mk.inj this).2.symm⟩
  · have hno : ∀ l ∈ lines, isPendingLine l = false := by
      intro l hl
      by_contra hc
      exact hex ⟨l, hl, by simpa using hc⟩
    rw [claimLoop_none now lines hno] at h
    exact absurd h (by simp)

theorem GetNextPending_ok_inv (now : Time) (d d1 : Disk) (rcp : Recipient)
    (h : GetNextPending now d = (.ok rcp, d1)) :
    ∃ lines i l r, readLines d = .ok lines ∧ d.readOnly = false ∧
      FirstAt isPendingLine lines i l ∧ parseDBLine l = some r ∧
      rcp = ⟨r.Email, StatusPending, []⟩ ∧
      d1 = { d with data := some (Join (lines.set i (claimed now r).String) ++ ['\n']) } := by
  unfold GetNextPending at h
  cases hread : readLines d with
  | error e =>
    simp only [hread] at h
    exact absurd (Prod.mk.inj h).1 (by simp)
  | ok lines =>
    simp only [hread] at h
    cases hcl : claimLoop now lines with
    | none =>
      simp only [hcl] at h
      exact absurd (Prod.mk.inj h).1 (by simp)
    | some p =>
      obtain ⟨rec, lines1⟩ := p
      simp only [hcl] at h
      obtain ⟨i, l, r, hfirst, hr, hrec, hl1⟩ := claimLoop_some_inv now lines lines1 rec hcl
      by_cases hw : d.readOnly = true
      · simp [writeLines, hw] at h
      · have hw2 : d.readOnly = false := by simpa using hw
        simp only [writeLines, hw2] at h
        have h1 := (Prod.mk.inj h).1
        have h2 := (Prod.mk.inj h).2
        refine ⟨lines, i, l, r, rfl, hw2, hfirst, hr, ?_, ?_⟩
        · have := Except.ok.inj h1
          rw [← this, hrec]
          rfl
        · rw [← h2, hl1, hw2]

/-- C3, the claim refuted: on the file PENDING(a), DONE(b), PENDING(c) the call
succeeds and the recipient it returns has status PENDING, not SENDING. -/
theorem GetNextPending_returns_status_pending :
    (GetNextPending noon queueABC).1 = .ok ⟨"a@x.io".toList, "PENDING".toList, []⟩ ∧
      (⟨"a@x.io".toList, "PENDING".toList, []⟩ : Recipient).Status ≠ StatusSending :=
  ⟨by rfl, by decide⟩

/-- C3, amended: whenever `GetNextPending` succeeds, the recipient it returns
carries the status PENDING, the status the record had when it was found, and
the email of that record as it stood before the change; it is the line written
to the file that carries the status SENDING. -/
theorem GetNextPending_result (now : Time) (d d1 : Disk) (rcp : Recipient)
    (h : GetNextPending now d = (.ok rcp, d1)) :
    rcp.Status = StatusPending ∧
      ∃ lines i l r, readLines d = .ok lines ∧ FirstAt isPendingLine lines i l ∧
        parseDBLine l = some r ∧ r.Status = StatusPending ∧ rcp.Email = r.Email ∧
        d1.data = some (Join (lines.set i (claimed now r).String) ++ ['\n']) ∧
        ∃ r2, parseDBLine (claimed now r).String = some r2 ∧ r2.Status = StatusSending ∧
          r2.Email = r.Email := by
  obtain ⟨lines, i, l, r, hread, _, hfirst, hr, hrcp, hd1⟩ :=
    GetNextPending_ok_inv now d d1 rcp h
  obtain ⟨r0, hr0, hs0⟩ := pending_of_isPendingLine l hfirst.2.1
  have e0 : r0 = r := by
    rw [hr] at hr0
    exact (Option.some.inj hr0).symm
  subst e0
  obtain ⟨r2, h1, h2, h3, _⟩ := claimed_parses now l r0 hr
  subst hrcp hd1
  exact ⟨rfl, lines, i, l, r0, hread, hfirst, hr, hs0, rfl, rfl, r2, h1, h2, h3⟩

/-- C3, amended, on the file PENDING(a), DONE(b), PENDING(c). -/
theorem GetNextPending_result_witness :
    GetNextPending noon queueABC =
        (.ok ⟨"a@x.io".toList, StatusPending, []⟩, (GetNextPending noon queueABC).2) ∧
      (⟨"a@x.io".toList, StatusPending, []⟩ : Recipient).Status = StatusPending ∧
      ∃ lines i l r, readLines queueABC = .ok lines ∧ FirstAt isPendingLine lines i l ∧
        parseDBLine l = some r ∧ r.Status = StatusPending ∧
        (⟨"a@x.io".toList, StatusPending, []⟩ : Recipient).Email = r.Email ∧
        (GetNextPending noon queueABC).2.data =
          some (Join (lines.set i (claimed noon r).String) ++ ['\n']) ∧
        ∃ r2, parseDBLine (claimed noon r).String = some r2 ∧ r2.Status = StatusSending ∧
          r2.Email = r.Email :=
  ⟨by rfl, GetNextPending_result noon queueABC (GetNextPending noon queueABC).2
    ⟨"a@x.io".toList, StatusPending, []⟩ (by rfl)⟩

theorem isPendingLine_dropCR (x : Str) : isPendingLine (dropCR x) = isPendingLine x := by
  unfold isPendingLine lineSat
  rw [parseDBLine_dropCR]

theorem lineSat_dropCR (f : dbRecord → Bool) (x : Str) :
    lineSat f (dropCR x) = lineSat f x := by
  unfold lineSat
  rw [parseDBLine_dropCR]

theorem claimed_no_newline (now : Time) (l : Str) (r : dbRecord) (h : parseDBLine l = some r)
    (hl : '\n' ∉ l) : '\n' ∉ (claimed now r).String := by
  obtain ⟨_, _, _, s2, s3⟩ := parseDBLine_fields l r h
  apply String_no_newline
  · show '\n' ∉ StatusSending
    decide
  · exact fun hc => hl (s2 _ hc)
  · exact fun hc => hl (s3 _ hc)

theorem GetNextPending_none (now : Time) (d : Disk) (lines : List Str)
    (hread : readLines d = .ok lines) (h : ∀ l ∈ lines, isPendingLine l = false) :
    GetNextPending now d = (.error .ErrNoPendingRecipients, d) := by
  unfold GetNextPending
  simp only [hread, claimLoop_none now lines h]

/-! ## A line that outgrows the scanner -/

theorem longAddress_mem : ∀ c ∈ longAddress, c = 'a' :=
  fun _ hc => List.eq_of_mem_replicate hc

theorem byteLen_longAddress : byteLen longAddress = 65520 :=
  (byteLen_replicate 65520 'a').trans (by decide)

theorem byteLen_longLine : byteLen longLine = 65530 := by
  unfold longLine
  rw [byteLen_append, byteLen_longAddress]
  decide

theorem byteLen_longLineClaimed : byteLen longLineClaimed = 65553 := by
  unfold longLineClaimed
  rw [byteLen_append, byteLen_longAddress]
  decide

theorem longLine_not_mem (c : Char) (h1 : c ∉ "x;PENDING;".toList) (h2 : c ≠ 'a') :
    c ∉ longLine := by
  unfold longLine
  intro h
  rcases List.mem_append.1 h with h | h
  · exact h1 h
  · exact h2 (longAddress_mem c h)

theorem longLineClaimed_not_mem (c : Char)
    (h1 : c ∉ "2024-03-09T12:00:00Z ; SENDING ; ".toList) (h2 : c ≠ 'a') :
    c ∉ longLineClaimed := by
  unfold longLineClaimed
  intro h
  rcases List.mem_append.1 h with h | h
  · exact h1 h
  · exact h2 (longAddress_mem c h)

theorem parseDBLine_longLine :
    parseDBLine longLine = some ⟨Time.zero, StatusPending, longAddress, []⟩ := by
  have hc : ';' ∉ longAddress := fun h => absurd (longAddress_mem _ h) (by decide)
  have hsp : ∀ c ∈ longAddress, isSpace c = false := by
    intro c h
    rw [longAddress_mem c h]
    decide
  have e : longLine = ['x'] ++ ';' :: ("PENDING".toList ++ ';' :: longAddress) := rfl
  rw [e, parseDBLine_parts3 'x' [] "PENDING".toList longAddress (by decide) (by decide)
    (by decide) hc, TrimSpace_of_no_space longAddress hsp]
  rfl

theorem readLines_queueLong : readLines queueLong = .ok [longLine] := by
  have h := (readLines_writeLines ⟨none, false⟩ [longLine] rfl (by simp)
    (by
      intro l hl
      rw [List.mem_singleton.1 hl]
      exact longLine_not_mem '\n' (by decide) (by decide))
    (by
      intro l hl
      rw [List.mem_singleton.1 hl, byteLen_longLine]
      decide)).2
  have e : [longLine].map dropCR = [longLine] := by
    rw [List.map_singleton,
      dropCR_of_not_mem longLine (longLine_not_mem '\r' (by decide) (by decide))]
  rw [e] at h
  exact h

theorem readLines_queueLongClaimed : readLines queueLongClaimed = .error .ErrTooLong := by
  have h := readLines_writeLines_too_long ⟨none, false⟩ [longLineClaimed] rfl (by simp)
    (by
      intro l hl
      rw [List.mem_singleton.1 hl]
      exact longLineClaimed_not_mem '\n' (by decide) (by decide))
    longLineClaimed (by simp)
    (by
      rw [byteLen_longLineClaimed]
      decide)
  exact h

theorem claimed_noon_String (e : Str) :
    (claimed noon ⟨Time.zero, StatusPending, e, []⟩).String =
      "2024-03-09T12:00:00Z ; SENDING ; ".toList ++ e := by
  have hz : noon.IsZero = false := by decide
  have hf : noon.Format = "2024-03-09T12:00:00Z".toList := by decide
  unfold dbRecord.String
  simp [claimed, hz, hf, fieldSep, StatusSending]

theorem GetNextPending_single (now : Time) (a : Str) (r : dbRecord)
    (hread : readLines ⟨some (a ++ ['\n']), false⟩ = .ok [a]) (hp : parseDBLine a = some r)
    (hs : r.Status = StatusPending) :
    GetNextPending now ⟨some (a ++ ['\n']), false⟩ =
      (.ok ⟨r.Email, StatusPending, []⟩, ⟨some ((claimed now r).String ++ ['\n']), false⟩) := by
  have hfirst : FirstAt isPendingLine [a] 0 a := by
    refine ⟨rfl, ?_, fun j x hj => absurd hj (Nat.not_lt_zero j)⟩
    unfold isPendingLine lineSat
    rw [hp]
    simp [hs]
  rw [GetNextPending_of_FirstAt now _ [a] 0 a r hread rfl hfirst hp]
  rfl

theorem GetNextPending_read_error (now : Time) (d : Disk) (e : Err)
    (h : readLines d = .error e) : GetNextPending now d = (.error e, d) := by
  unfold GetNextPending
  simp only [h]

theorem GetNextPending_queueLongClaimed : GetNextPending noon queueLongClaimed = (.error .ErrTooLong, queueLongClaimed) :=
  GetNextPending_read_error noon queueLongClaimed _ readLines_queueLongClaimed

theorem GetNextPending_short_form (e : Str)
    (hread : readLines ⟨some (("x;PENDING;".toList ++ e) ++ ['\n']), false⟩ =
      .ok ["x;PENDING;".toList ++ e])
    (hp : parseDBLine ("x;PENDING;".toList ++ e) = some ⟨Time.zero, StatusPending, e, []⟩) :
    GetNextPending noon ⟨some (("x;PENDING;".toList ++ e) ++ ['\n']), false⟩ =
      (.ok ⟨e, StatusPending, []⟩,
        ⟨some (("2024-03-09T12:00:00Z ; SENDING ; ".toList ++ e) ++ ['\n']), false⟩) := by
  rw [GetNextPending_single noon _ _ hread hp rfl, claimed_noon_String]

theorem GetNextPending_queueLong : GetNextPending noon queueLong =
        (.ok ⟨longAddress, StatusPending, []⟩, queueLongClaimed) :=
  GetNextPending_short_form longAddress readLines_queueLong parseDBLine_longLine

theorem ne_of_eq_tooLong (x : Except Err Recipient × Disk) (d : Disk)
    (h : x = (.error .ErrTooLong, d)) :
    x.1 ≠ .error .ErrNoPendingRecipients ∧ ∀ rcp, x.1 ≠ .ok rcp := by
  subst h
  simp

/-- C4, the claim refuted: a PENDING line of 65530 bytes is claimed and
rewritten with the full stamp and separators, which makes it a line of 65553
bytes; the scanner of the following call stops on it with `bufio.ErrTooLong`,
so that call neither returns `ErrNoPendingRecipients` nor claims a line. -/
theorem second_claim_fails_on_long_line :
    readLines queueLong = .ok [longLine] ∧ byteLen longLine = 65530 ∧
      parseDBLine longLine = some ⟨Time.zero, StatusPending, longAddress, []⟩ ∧
      GetNextPending noon queueLong =
        (.ok ⟨longAddress, StatusPending, []⟩, queueLongClaimed) ∧
      byteLen longLineClaimed = 65553 ∧
      GetNextPending noon queueLongClaimed = (.error .ErrTooLong, queueLongClaimed) ∧
      (GetNextPending noon queueLongClaimed).1 ≠ .error .ErrNoPendingRecipients ∧
      ∀ rcp, (GetNextPending noon queueLongClaimed).1 ≠ .ok rcp :=
  ⟨readLines_queueLong, byteLen_longLine, parseDBLine_longLine, GetNextPending_queueLong,
    byteLen_longLineClaimed, GetNextPending_queueLongClaimed,
    ne_of_eq_tooLong _ _ GetNextPending_queueLongClaimed⟩

/-- What follows a successful `GetNextPending` that claimed the line at
position `i`: the file holds there the text of a SENDING record; when that
text has reached `MaxScanTokenSize` bytes the next call fails with
`bufio.ErrTooLong` and leaves the file alone; otherwise the next call reads
the file back and either returns `ErrNoPendingRecipients` or claims a line at
a position strictly after `i`. -/
theorem second_claim_cases (now now2 : Time) (d d1 : Disk) (rcp : Recipient)
    (h : GetNextPending now d = (.ok rcp, d1)) :
    ∃ (lines : List Str) (i : Nat) (l : Str) (r r2 : dbRecord),
      readLines d = .ok lines ∧ FirstAt isPendingLine lines i l ∧
      parseDBLine l = some r ∧
      d1 = { d with data := some (Join (lines.set i (claimed now r).String) ++ ['\n']) } ∧
      parseDBLine (claimed now r).String = some r2 ∧ r2.Status = StatusSending ∧
      isPendingLine (claimed now r).String = false ∧
      ((MaxScanTokenSize ≤ byteLen (claimed now r).String ∧
          GetNextPending now2 d1 = (.error .ErrTooLong, d1)) ∨
        (byteLen (claimed now r).String < MaxScanTokenSize ∧
          ∃ (lines1 : List Str) (x : Str), readLines d1 = .ok lines1 ∧
            lines1[i]? = some x ∧ parseDBLine x = some r2 ∧
            ((GetNextPending now2 d1).1 = .error .ErrNoPendingRecipients ∨
              ∃ k m rk, i < k ∧ FirstAt isPendingLine lines1 k m ∧ parseDBLine m = some rk ∧
                GetNextPending now2 d1 =
                  (.ok ⟨rk.Email, StatusPending, []⟩,
                    { d1 with
                      data :=
                        some (Join (lines1.set k (claimed now2 rk).String) ++ ['\n']) })))) := by
  obtain ⟨lines, i, l, r, hread, hw, hfirst, hr, _, hd1⟩ := GetNextPending_ok_inv now d d1 rcp h
  have hi := FirstAt_lt _ _ _ _ hfirst
  have hlmem : l ∈ lines := List.getElem?_mem hfirst.1
  have hnl0 := readLines_no_newline d lines hread
  have hfit0 := readLines_fit d lines hread
  have hnew : '\n' ∉ (claimed now r).String := claimed_no_newline now l r hr (hnl0 l hlmem)
  have hne : lines.set i (claimed now r).String ≠ [] := by
    intro e
    have hlen : (lines.set i (claimed now r).String).length = 0 := by rw [e]; rfl
    rw [List.length_set] at hlen
    omega
  have hnl : ∀ x ∈ lines.set i (claimed now r).String, '\n' ∉ x := by
    intro x hx
    rcases mem_set_cases _ _ _ _ hx with e | e
    · rw [e]; exact hnew
    · exact hnl0 x e
  have hd1w : d1 = (writeLines d (lines.set i (claimed now r).String)).2 := by
    rw [hd1]; simp [writeLines, hw]
  obtain ⟨r2, hp2, hs2, _, _⟩ := claimed_parses now l r hr
  have hnotp0 : isPendingLine (claimed now r).String = false := by
    unfold isPendingLine lineSat
    rw [hp2]
    simp only [hs2]
    decide
  refine ⟨lines, i, l, r, r2, hread, hfirst, hr, hd1, hp2, hs2, hnotp0, ?_⟩
  by_cases hlong : MaxScanTokenSize ≤ byteLen (claimed now r).String
  · left
    have hread1 : readLines d1 = .error .ErrTooLong := by
      rw [hd1w]
      exact readLines_writeLines_too_long d _ hw hne hnl _ (List.mem_set lines i hi _) hlong
    exact ⟨hlong, GetNextPending_read_error now2 d1 _ hread1⟩
  right
  have hshort : byteLen (claimed now r).String < MaxScanTokenSize := by omega
  have hfit : ∀ x ∈ lines.set i (claimed now r).String, byteLen x < MaxScanTokenSize := by
    intro x hx
    rcases mem_set_cases _ _ _ _ hx with e | e
    · rw [e]; exact hshort
    · exact hfit0 x e
  have hrw := readLines_writeLines d _ hw hne hnl hfit
  have hread1 : readLines d1 = .ok ((lines.set i (claimed now r).String).map dropCR) := by
    rw [hd1w]; exact hrw.2
  have hw1 : d1.readOnly = false := by
    rw [hd1]; exact hw
  have hat : ((lines.set i (claimed now r).String).map dropCR)[i]? =
      some (dropCR (claimed now r).String) := by
    rw [List.getElem?_map, List.getElem?_set_self hi]
    rfl
  have hnotp : isPendingLine (dropCR (claimed now r).String) = false := by
    rw [isPendingLine_dropCR]
    exact hnotp0
  have hbefore : ∀ j y, j ≤ i →
      ((lines.set i (claimed now r).String).map dropCR)[j]? = some y →
      isPendingLine y = false := by
    intro j y hj hy
    rcases Nat.lt_or_eq_of_le hj with hlt | heq
    · have hne2 : i ≠ j := by omega
      rw [List.getElem?_map, List.getElem?_set_ne hne2] at hy
      cases hlj : lines[j]? with
      | none => rw [hlj] at hy; exact absurd hy (by simp)
      | some z =>
        rw [hlj] at hy
        have : y = dropCR z := by simpa using hy.symm
        rw [this, isPendingLine_dropCR]
        exact hfirst.2.2 j z hlt hlj
    · subst heq
      rw [hat] at hy
      have : y = dropCR (claimed now r).String := by simpa using hy.symm
      rw [this]; exact hnotp
  refine ⟨hshort, _, _, hread1, hat, by rw [parseDBLine_dropCR]; exact hp2, ?_⟩
  by_cases hex : ∃ m ∈ (lines.set i (claimed now r).String).map dropCR, isPendingLine m = true
  · right
    obtain ⟨k, m, hk⟩ := exists_FirstAt isPendingLine _ hex
    obtain ⟨rk, hrk, _⟩ := pending_of_isPendingLine m hk.2.1
    have hik : i < k := by
      by_contra hle
      have := hbefore k m (by omega) hk.1
      rw [hk.2.1] at this
      exact absurd this (by simp)
    exact ⟨k, m, rk, hik, hk, hrk, GetNextPending_of_FirstAt now2 d1 _ k m rk hread1 hw1 hk hrk⟩
  · left
    have hno : ∀ m ∈ (lines.set i (claimed now r).String).map dropCR,
        isPendingLine m = false := by
      intro m hm
      by_contra hc
      exact hex ⟨m, hm, by simpa using hc⟩
    rw [GetNextPending_none now2 d1 _ hread1 hno]

/-- C4, amended: after a successful `GetNextPending` that claimed the line at
position `i`, the file holds at position `i` the text of a SENDING record,
which does not parse to a PENDING one. An immediately following call never
claims line `i` again: whenever it succeeds, it has claimed a line at a
position strictly after `i`. And when the text written at position `i` has
fewer than `MaxScanTokenSize` bytes, the following call reads the file back,
with the SENDING record at position `i`, and either returns
`ErrNoPendingRecipients` or claims a line at a position strictly after `i`. -/
theorem no_double_claim (now now2 : Time) (d d1 : Disk) (rcp : Recipient)
    (h : GetNextPending now d = (.ok rcp, d1)) :
    ∃ (lines : List Str) (i : Nat) (l : Str) (r r2 : dbRecord),
      readLines d = .ok lines ∧ FirstAt isPendingLine lines i l ∧
      parseDBLine l = some r ∧
      d1 = { d with data := some (Join (lines.set i (claimed now r).String) ++ ['\n']) } ∧
      parseDBLine (claimed now r).String = some r2 ∧ r2.Status = StatusSending ∧
      isPendingLine (claimed now r).String = false ∧
      (∀ (rcp2 : Recipient) (d2 : Disk), GetNextPending now2 d1 = (.ok rcp2, d2) →
        ∃ (lines1 : List Str) (k : Nat) (m : Str) (rk : dbRecord),
          readLines d1 = .ok lines1 ∧ i < k ∧ FirstAt isPendingLine lines1 k m ∧
          parseDBLine m = some rk ∧ rcp2 = ⟨rk.Email, StatusPending, []⟩ ∧
          d2 = { d1 with
            data := some (Join (lines1.set k (claimed now2 rk).String) ++ ['\n']) }) ∧
      (byteLen (claimed now r).String < MaxScanTokenSize →
        ∃ (lines1 : List Str) (x : Str), readLines d1 = .ok lines1 ∧
          lines1[i]? = some x ∧ parseDBLine x = some r2 ∧
          ((GetNextPending now2 d1).1 = .error .ErrNoPendingRecipients ∨
            ∃ k m rk, i < k ∧ FirstAt isPendingLine lines1 k m ∧ parseDBLine m = some rk ∧
              GetNextPending now2 d1 =
                (.ok ⟨rk.Email, StatusPending, []⟩,
                  { d1 with
                    data :=
                      some (Join (lines1.set k (claimed now2 rk).String) ++ ['\n']) }))) := by
  obtain ⟨lines, i, l, r, r2, hread, hfirst, hr, hd1, hp2, hs2, hnp, hcases⟩ :=
    second_claim_cases now now2 d d1 rcp h
  refine ⟨lines, i, l, r, r2, hread, hfirst, hr, hd1, hp2, hs2, hnp, ?_, ?_⟩
  · intro rcp2 d2 h2
    rcases hcases with ⟨_, herr⟩ | ⟨_, lines1, x, hread1, _, _, hno | ⟨k, m, rk, hik, hk, hrk, hg⟩⟩
    · rw [herr] at h2
      exact absurd (Prod.mk.inj h2).1 (by simp)
    · rw [h2] at hno
      exact absurd hno (by simp)
    · rw [hg] at h2
      have e1 := (Prod.mk.inj h2).1
      have e2 := (Prod.mk.inj h2).2
      exact ⟨lines1, k, m, rk, hread1, hik, hk, hrk, (Except.ok.inj e1).symm, e2.symm⟩
  · intro hshort
    rcases hcases with ⟨hlong, _⟩ | ⟨_, hrest⟩
    · omega
    · exact hrest

/-- C4, amended, on the file PENDING(a), DONE(b), PENDING(c): the first call
claims position 0, the second claims position 2. -/
theorem no_double_claim_witness :
    GetNextPending noon queueABC =
        (.ok ⟨"a@x.io".toList, StatusPending, []⟩, (GetNextPending noon queueABC).2) ∧
      (GetNextPending noon (GetNextPending noon queueABC).2).1 =
        .ok ⟨"c@x.io".toList, StatusPending, []⟩ ∧
      byteLen "2024-03-09T12:00:00Z ; SENDING ; a@x.io".toList < MaxScanTokenSize ∧
      ∃ (lines : List Str) (i : Nat) (l : Str) (r r2 : dbRecord),
        readLines queueABC = .ok lines ∧ FirstAt isPendingLine lines i l ∧
        parseDBLine l = some r ∧
        (GetNextPending noon queueABC).2 =
          { queueABC with
            data := some (Join (lines.set i (claimed noon r).String) ++ ['\n']) } ∧
        parseDBLine (claimed noon r).String = some r2 ∧ r2.Status = StatusSending ∧
        isPendingLine (claimed noon r).String = false ∧
        (∀ (rcp2 : Recipient) (d2 : Disk),
          GetNextPending noon (GetNextPending noon queueABC).2 = (.ok rcp2, d2) →
          ∃ (lines1 : List Str) (k : Nat) (m : Str) (rk : dbRecord),
            readLines (GetNextPending noon queueABC).2 = .ok lines1 ∧ i < k ∧
            FirstAt isPendingLine lines1 k m ∧
            parseDBLine m = some rk ∧ rcp2 = ⟨rk.Email, StatusPending, []⟩ ∧
            d2 = { (GetNextPending noon queueABC).2 with
              data := some (Join (lines1.set k (claimed noon rk).String) ++ ['\n']) }) ∧
        (byteLen (claimed noon r).String < MaxScanTokenSize →
          ∃ (lines1 : List Str) (x : Str),
            readLines (GetNextPending noon queueABC).2 = .ok lines1 ∧
            lines1[i]? = some x ∧ parseDBLine x = some r2 ∧
            ((GetNextPending noon (GetNextPending noon queueABC).2).1 =
                .error .ErrNoPendingRecipients ∨
              ∃ k m rk, i < k ∧ FirstAt isPendingLine lines1 k m ∧
                parseDBLine m = some rk ∧
                GetNextPending noon (GetNextPending noon queueABC).2 =
                  (.ok ⟨rk.Email, StatusPending, []⟩,
                    { (GetNextPending noon queueABC).2 with
                      data :=
                        some (Join (lines1.set k (claimed noon rk).String) ++
                          ['\n']) }))) :=
  ⟨by rfl, by rfl, by decide,
    no_double_claim noon noon queueABC (GetNextPending noon queueABC).2
      ⟨"a@x.io".toList, StatusPending, []⟩ (by rfl)⟩
theorem readLines_error (d : Disk) (e : Err) (h : readLines d = .error e) :
    e ≠ .ErrNoPendingRecipients := by
  unfold readLines at h
  split at h
  · rw [← Except.error.inj h]
    decide
  · unfold scanLines at h
    split at h
    · exact absurd h (by simp)
    · rw [← Except.error.inj h]
      decide

theorem isPendingLine_false_iff (l : Str) :
    isPendingLine l = false ↔ ∀ r, parseDBLine l = some r → r.Status ≠ StatusPending := by
  unfold isPendingLine lineSat
  cases hp : parseDBLine l with
  | none => simp
  | some r => simp

/-- C6: `GetNextPending` returns `ErrNoPendingRecipients` exactly when the file
can be read and none of its lines parses to a PENDING record; the result then
holds no recipient and the file is left as it was. -/
theorem GetNextPending_no_pending_iff (now : Time) (d : Disk) :
    ((GetNextPending now d).1 = .error .ErrNoPendingRecipients ↔
        ∃ lines, readLines d = .ok lines ∧
          ∀ l ∈ lines, ∀ r, parseDBLine l = some r → r.Status ≠ StatusPending) ∧
      ((GetNextPending now d).1 = .error .ErrNoPendingRecipients →
        (GetNextPending now d).2 = d) := by
  cases hread : readLines d with
  | error e =>
    have he := readLines_error d e hread
    have hg : GetNextPending now d = (.error e, d) := by
      unfold GetNextPending
      simp only [hread]
    rw [hg]
    refine ⟨⟨fun h => absurd (Except.error.inj h) he, ?_⟩, fun h => absurd (Except.error.inj h) he⟩
    rintro ⟨lines, h2, _⟩
    exact absurd h2 (by simp)
  | ok lines =>
    by_cases hex : ∃ l ∈ lines, isPendingLine l = true
    · obtain ⟨i, l, hfirst⟩ := exists_FirstAt isPendingLine lines hex
      obtain ⟨r, hr, hs⟩ := pending_of_isPendingLine l hfirst.2.1
      have hlmem : l ∈ lines := List.getElem?_mem hfirst.1
      have hne : (GetNextPending now d).1 ≠ .error .ErrNoPendingRecipients := by
        unfold GetNextPending
        simp only [hread, claimLoop_FirstAt now lines i l r hfirst hr, writeLines]
        by_cases hw : d.readOnly = true <;> simp [hw]
      refine ⟨⟨fun h => absurd h hne, ?_⟩, fun h => absurd h hne⟩
      rintro ⟨lines2, h2, hall⟩
      have e : lines2 = lines := (Except.ok.inj h2).symm
      subst e
      exact absurd hs (hall l hlmem r hr)
    · have hno : ∀ l ∈ lines, isPendingLine l = false := by
        intro l hl
        by_contra hc
        exact hex ⟨l, hl, by simpa using hc⟩
      rw [GetNextPending_none now d lines hread hno]
      refine ⟨⟨fun _ => ⟨lines, rfl, ?_⟩, fun _ => rfl⟩, fun _ => rfl⟩
      intro l hl
      exact (isPendingLine_false_iff l).1 (hno l hl)

/-- C6 on a file without a PENDING record, and on a file that cannot be
opened: the first gives `ErrNoPendingRecipients` and an untouched file, the
second gives the I/O error. -/
theorem GetNextPending_no_pending_iff_witness :
    GetNextPending noon queueDup = (.error .ErrNoPendingRecipients, queueDup) ∧
      GetNextPending noon ⟨none, false⟩ = (.error .io, ⟨none, false⟩) ∧
      (((GetNextPending noon queueDup).1 = .error .ErrNoPendingRecipients ↔
          ∃ lines, readLines queueDup = .ok lines ∧
            ∀ l ∈ lines, ∀ r, parseDBLine l = some r → r.Status ≠ StatusPending) ∧
        ((GetNextPending noon queueDup).1 = .error .ErrNoPendingRecipients →
          (GetNextPending noon queueDup).2 = queueDup)) :=
  ⟨by rfl, by rfl, GetNextPending_no_pending_iff noon queueDup⟩

/-! ## UpdateStatus -/

theorem UpdateStatus_eq (now : Time) (d : Disk) (email status msg : Str) :
    UpdateStatus now d email status msg =
      updateRecord d (fun r => decide (r.Email = email)) (updated now status msg) := rfl

theorem email_of_hasEmail (email l : Str) (h : hasEmail email l = true) :
    ∃ r, parseDBLine l = some r ∧ r.Email = email := by
  unfold hasEmail lineSat at h
  split at h
  · rename_i r hr
    exact ⟨r, hr, by simpa using h⟩
  · exact absurd h (by simp)

theorem UpdateStatus_of_FirstAt (now : Time) (d : Disk) (lines : List Str)
    (email status msg : Str) (i : Nat) (l : Str) (r : dbRecord)
    (hread : readLines d = .ok lines) (hw : d.readOnly = false)
    (h : FirstAt (hasEmail email) lines i l) (hr : parseDBLine l = some r) :
    UpdateStatus now d email status msg =
      (none, { d with
        data := some (Join (lines.set i (updated now status msg r).String) ++ ['\n']) }) := by
  rw [UpdateStatus_eq]
  unfold updateRecord
  simp only [hread]
  rw [updateLoop_FirstAt _ (updated now status msg) lines i l r h hr]
  simp [writeLines, hw]

theorem UpdateStatus_no_match (now : Time) (d : Disk) (lines : List Str)
    (email status msg : Str) (hread : readLines d = .ok lines) (hw : d.readOnly = false)
    (h : ∀ l ∈ lines, hasEmail email l = false) :
    UpdateStatus now d email status msg =
      (none, { d with data := some (Join lines ++ ['\n']) }) := by
  rw [UpdateStatus_eq]
  unfold updateRecord
  simp only [hread]
  rw [updateLoop_none _ (updated now status msg) lines h]
  simp [writeLines, hw]

/-- C7: when some line parses to a record whose email is `email`,
`UpdateStatus` writes the file back with exactly the first such line replaced
by the text of that record with the given status (time `now`, the same email),
and every other line as it was; when no line matches, it writes every line
back as it was. -/
theorem UpdateStatus_targets_first (now : Time) (d : Disk) (lines : List Str)
    (email status msg : Str) (hread : readLines d = .ok lines) (hw : d.readOnly = false) :
    ((∃ l ∈ lines, ∃ r, parseDBLine l = some r ∧ r.Email = email) →
        ∃ i l r, FirstAt (hasEmail email) lines i l ∧ parseDBLine l = some r ∧
          r.Email = email ∧
          UpdateStatus now d email status msg =
            (none, { d with
              data := some (Join (lines.set i (updated now status msg r).String) ++ ['\n']) }) ∧
          (updated now status msg r).Status = status ∧
          (updated now status msg r).Email = email) ∧
      ((¬ ∃ l ∈ lines, ∃ r, parseDBLine l = some r ∧ r.Email = email) →
        UpdateStatus now d email status msg =
          (none, { d with data := some (Join lines ++ ['\n']) })) := by
  constructor
  · rintro ⟨l0, hl0, r0, hr0, he0⟩
    have hex : ∃ l ∈ lines, hasEmail email l = true :=
      ⟨l0, hl0, by simp [hasEmail, lineSat, hr0, he0]⟩
    obtain ⟨i, l, hfirst⟩ := exists_FirstAt (hasEmail email) lines hex
    obtain ⟨r, hr, he⟩ := email_of_hasEmail email l hfirst.2.1
    exact ⟨i, l, r, hfirst, hr, he,
      UpdateStatus_of_FirstAt now d lines email status msg i l r hread hw hfirst hr, rfl, he⟩
  · intro hno
    apply UpdateStatus_no_match now d lines email status msg hread hw
    intro l hl
    by_contra hc
    have hc2 : hasEmail email l = true := by simpa using hc
    obtain ⟨r, hr, he⟩ := email_of_hasEmail email l hc2
    exact hno ⟨l, hl, r, hr, he⟩

/-- C7 on the file DONE(a), SENDING(a): an update for `a` rewrites the first
line and leaves the second; an update for an address not in the file writes
both lines back unchanged. -/
theorem UpdateStatus_targets_first_witness :
    readLines queueDup = .ok queueDupLines ∧ queueDup.readOnly = false ∧
      UpdateStatus noon queueDup "a@x.io".toList StatusFailed "boom".toList =
        (none, ⟨some ("2024-03-09T12:00:00Z ; FAILED ; a@x.io ; boom\n" ++
          "2024-03-09T11:59:00Z ; SENDING ; a@x.io\n").toList, false⟩) ∧
      UpdateStatus noon queueDup "z@x.io".toList StatusFailed "boom".toList =
        (none, queueDup) ∧
      (((∃ l ∈ queueDupLines, ∃ r, parseDBLine l = some r ∧ r.Email = "a@x.io".toList) →
          ∃ i l r, FirstAt (hasEmail "a@x.io".toList) queueDupLines i l ∧
            parseDBLine l = some r ∧ r.Email = "a@x.io".toList ∧
            UpdateStatus noon queueDup "a@x.io".toList StatusFailed "boom".toList =
              (none, { queueDup with
                data := some (Join (queueDupLines.set i
                  (updated noon StatusFailed "boom".toList r).String) ++ ['\n']) }) ∧
            (updated noon StatusFailed "boom".toList r).Status = StatusFailed ∧
            (updated noon StatusFailed "boom".toList r).Email = "a@x.io".toList) ∧
        ((¬ ∃ l ∈ queueDupLines, ∃ r, parseDBLine l = some r ∧ r.Email = "a@x.io".toList) →
          UpdateStatus noon queueDup "a@x.io".toList StatusFailed "boom".toList =
            (none, { queueDup with data := some (Join queueDupLines ++ ['\n']) }))) :=
  ⟨by rfl, rfl, by rfl, by rfl,
    UpdateStatus_targets_first noon queueDup queueDupLines "a@x.io".toList StatusFailed
      "boom".toList (by rfl) rfl⟩

/-! ## ResetStuckSending -/

theorem resetLoop_eq (now : Time) (timeout : Int) (lines : List Str) :
    resetLoop now timeout lines =
      (lines.map (resetLine now timeout), lines.countP (isStale now timeout)) := by
  induction lines with
  | nil => rfl
  | cons x xs ih =>
    unfold resetLoop
    simp only [ih]
    cases hp : parseDBLine x with
    | none => simp [resetLine, isStale, lineSat, hp]
    | some r =>
      by_cases hs : staleRecord now timeout r = true
      · have hc : r.Status = StatusSending ∧ r.Timestamp.IsZero = false ∧
            now.Sub r.Timestamp > timeout := by
          simpa [staleRecord, and_assoc] using hs
        simp [resetLine, isStale, lineSat, hp, hs, hc, resetRecord]
      · have hc : ¬ (r.Status = StatusSending ∧ r.Timestamp.IsZero = false ∧
            now.Sub r.Timestamp > timeout) := by
          simpa [staleRecord, and_assoc] using hs
        simp [resetLine, isStale, lineSat, hp, hs, hc]

theorem stale_of_isStale (now : Time) (timeout : Int) (l : Str)
    (h : isStale now timeout l = true) :
    ∃ r, parseDBLine l = some r ∧ r.Status = StatusSending ∧ r.Timestamp.IsZero = false ∧
      now.Sub r.Timestamp > timeout ∧ resetLine now timeout l = (resetRecord r).String := by
  unfold isStale lineSat at h
  cases hp : parseDBLine l with
  | none => rw [hp] at h; exact absurd h (by simp)
  | some r =>
    rw [hp] at h
    simp only at h
    have hc : r.Status = StatusSending ∧ r.Timestamp.IsZero = false ∧
        now.Sub r.Timestamp > timeout := by
      simpa [staleRecord, and_assoc] using h
    exact ⟨r, rfl, hc.1, hc.2.1, hc.2.2, by simp [resetLine, hp, h]⟩

theorem resetLine_not_stale (now : Time) (timeout : Int) (l : Str)
    (h : isStale now timeout l = false) : resetLine now timeout l = l := by
  unfold isStale lineSat at h
  unfold resetLine
  cases hp : parseDBLine l with
  | none => rfl
  | some r =>
    rw [hp] at h
    simp only at h
    simp [h]

theorem resetRecord_parses (l : Str) (r : dbRecord) (h : parseDBLine l = some r) :
    ∃ r2, parseDBLine (resetRecord r).String = some r2 ∧ r2.Status = StatusPending ∧
      r2.Email = r.Email ∧ r2.Error = resetMessage := by
  obtain ⟨⟨_, t2, _⟩, ⟨_, s2, _⟩, _⟩ := parseDBLine_fields l r h
  have hs : ';' ∉ (resetRecord r).Status := by
    show ';' ∉ StatusPending
    decide
  have he : ';' ∉ (resetRecord r).Error := by
    show ';' ∉ resetMessage
    decide
  refine ⟨_, parseDBLine_String (resetRecord r) hs s2 he, ?_, t2, ?_⟩
  · show TrimSpace StatusPending = StatusPending
    decide
  · show TrimSpace resetMessage = resetMessage
    decide

theorem parseDBLine_stamp (l : Str) (r : dbRecord) (h : parseDBLine l = some r) :
    r.Timestamp = Time.zero ∨ ∃ s, Time.Parse s = some r.Timestamp := by
  unfold parseDBLine at h
  simp only at h
  split at h
  · exact absurd h (by simp)
  · split at h
    · rename_i p0 p1 p2 rest hsp
      have hr := Option.some.inj h
      subst hr
      cases hp : Time.Parse (TrimSpace p0) with
      | none => exact Or.inl (by simp [hp])
      | some t => exact Or.inr ⟨TrimSpace p0, by simp [hp]⟩
    · exact absurd h (by simp)

theorem resetRecord_stamp (l : Str) (r : dbRecord) (h : parseDBLine l = some r)
    (hz : r.Timestamp.IsZero = false) (hlo : -86400 < r.Timestamp.offset)
    (hhi : r.Timestamp.offset < 86400) :
    parseDBLine (resetRecord r).String =
      some ⟨{ r.Timestamp with nsec := 0 }, StatusPending, r.Email, resetMessage⟩ := by
  obtain ⟨⟨_, t2, _⟩, ⟨_, s2, _⟩, _⟩ := parseDBLine_fields l r h
  have hs : ';' ∉ (resetRecord r).Status := by
    show ';' ∉ StatusPending
    decide
  have he : ';' ∉ (resetRecord r).Error := by
    show ';' ∉ resetMessage
    decide
  have hp : ∃ s, Time.Parse s = some r.Timestamp := by
    rcases parseDBLine_stamp l r h with e | e
    · rw [e] at hz
      exact absurd hz (by decide)
    · exact e
  obtain ⟨s, hs2⟩ := hp
  obtain ⟨hwf, hy, hm, _, _⟩ := Parse_props s r.Timestamp hs2
  have hst : stampText (resetRecord r).Timestamp = r.Timestamp.Format := by
    show stampText r.Timestamp = _
    simp [stampText, hz]
  rw [parseDBLine_String (resetRecord r) hs s2 he, hst,
    Parse_Format r.Timestamp hwf hy hm hlo hhi]
  have e1 : TrimSpace (resetRecord r).Status = StatusPending := by
    show TrimSpace StatusPending = StatusPending
    decide
  have e2 : TrimSpace (resetRecord r).Error = resetMessage := by
    show TrimSpace resetMessage = resetMessage
    decide
  have e3 : TrimSpace (resetRecord r).Email = r.Email := t2
  rw [e1, e2, e3]
  rfl

/-- C9, the claim refuted: a claim stamped `11:54:00.9` is stale at `noon`
with a timeout of five minutes; the line written for it holds the stamp
`11:54:00`, so the record read back has not the timestamp the record had. -/
theorem reset_drops_fraction_of_second :
    parseDBLine "2024-03-09T11:54:00.9Z ; SENDING ; a@x.io".toList =
        some ⟨⟨2024, 3, 9, 11, 54, 0, 900000000, 0⟩, StatusSending, "a@x.io".toList, []⟩ ∧
      ResetStuckSending noon queueFraction fiveMinutes =
        ((1, none),
          ⟨some "2024-03-09T11:54:00Z ; PENDING ; a@x.io ; Reset from stuck SENDING state\n".toList,
            false⟩) ∧
      parseDBLine
          "2024-03-09T11:54:00Z ; PENDING ; a@x.io ; Reset from stuck SENDING state".toList =
        some ⟨⟨2024, 3, 9, 11, 54, 0, 0, 0⟩, StatusPending, "a@x.io".toList, resetMessage⟩ ∧
      (⟨2024, 3, 9, 11, 54, 0, 0, 0⟩ : Time) ≠ ⟨2024, 3, 9, 11, 54, 0, 900000000, 0⟩ :=
  ⟨by rfl, by rfl, by rfl, by decide⟩

/-- C9, amended: `ResetStuckSending` rewrites exactly the lines that parse to
a stale claim (status SENDING, timestamp not zero, `now` minus timestamp above
`timeout`); each becomes the text of the record with status PENDING, the same
email and timestamp and the reset message, which is not empty; that text
parses back to status PENDING, the same email, the reset message and, when
the zone offset of the timestamp is under 24 hours, the timestamp cut to the
whole second; every other line is unchanged; the count returned is the number
of stale lines, and the file is written when that count is positive. -/
theorem ResetStuckSending_resets_stale (now : Time) (d : Disk) (timeout : Int)
    (lines : List Str) (hread : readLines d = .ok lines) (hw : d.readOnly = false) :
    ∃ lines1 : List Str, lines1.length = lines.length ∧
      (∀ (j : Nat) (l : Str), lines[j]? = some l →
        (isStale now timeout l = true →
          ∃ r, parseDBLine l = some r ∧ r.Status = StatusSending ∧
            r.Timestamp.IsZero = false ∧ now.Sub r.Timestamp > timeout ∧
            lines1[j]? =
              some (dbRecord.String ⟨r.Timestamp, StatusPending, r.Email, resetMessage⟩) ∧
            lines1[j]? ≠ some l ∧
            ∃ r2, parseDBLine (dbRecord.String
                ⟨r.Timestamp, StatusPending, r.Email, resetMessage⟩) = some r2 ∧
              r2.Status = StatusPending ∧ r2.Email = r.Email ∧ r2.Error = resetMessage ∧
              (-86400 < r.Timestamp.offset → r.Timestamp.offset < 86400 →
                r2.Timestamp = { r.Timestamp with nsec := 0 })) ∧
        (isStale now timeout l = false → lines1[j]? = some l)) ∧
      resetMessage ≠ [] ∧
      ResetStuckSending now d timeout =
        ((lines.countP (isStale now timeout), none),
          if 0 < lines.countP (isStale now timeout) then
            { d with data := some (Join lines1 ++ ['\n']) }
          else d) := by
  refine ⟨lines.map (resetLine now timeout), by simp, ?_, by decide, ?_⟩
  · intro j l hj
    have hj1 : (lines.map (resetLine now timeout))[j]? = some (resetLine now timeout l) := by
      rw [List.getElem?_map, hj]; rfl
    constructor
    · intro hs
      obtain ⟨r, hp, h1, h2, h3, h4⟩ := stale_of_isStale now timeout l hs
      obtain ⟨r2, hp2, hs2, he2, hr2⟩ := resetRecord_parses l r hp
      refine ⟨r, hp, h1, h2, h3, by rw [hj1, h4]; rfl, ?_, r2, hp2, hs2, he2, hr2, ?_⟩
      · rw [hj1, h4]
        intro e
        have e2 : (resetRecord r).String = l := Option.some.inj e
        rw [e2, hp] at hp2
        have e3 : r = r2 := Option.some.inj hp2
        rw [← e3, h1] at hs2
        exact absurd hs2 (by decide)
      · intro hlo hhi
        have hp3 := resetRecord_stamp l r hp h2 hlo hhi
        rw [hp3] at hp2
        rw [← Option.some.inj hp2]
    · intro hs
      rw [hj1, resetLine_not_stale now timeout l hs]
  · unfold ResetStuckSending
    simp only [hread, resetLoop_eq]
    by_cases hc : 0 < lines.countP (isStale now timeout)
    · simp [hc, writeLines, hw]
    · simp [hc]

/-- C9, amended, at five minutes: the claim six minutes old goes back to
PENDING with the reset message, the claim one minute old is untouched, the
count is 1. -/
theorem ResetStuckSending_resets_stale_witness :
    readLines queueStale = .ok queueStaleLines ∧ queueStale.readOnly = false ∧
      ResetStuckSending noon queueStale fiveMinutes =
        ((1, none),
          ⟨some ("2024-03-09T11:54:00Z ; PENDING ; a@x.io ; Reset from stuck SENDING state\n" ++
            "2024-03-09T11:59:00Z ; SENDING ; b@x.io\n").toList, false⟩) ∧
      ∃ lines1 : List Str, lines1.length = queueStaleLines.length ∧
        (∀ (j : Nat) (l : Str), queueStaleLines[j]? = some l →
          (isStale noon fiveMinutes l = true →
            ∃ r, parseDBLine l = some r ∧ r.Status = StatusSending ∧
              r.Timestamp.IsZero = false ∧ noon.Sub r.Timestamp > fiveMinutes ∧
              lines1[j]? =
                some (dbRecord.String ⟨r.Timestamp, StatusPending, r.Email, resetMessage⟩) ∧
              lines1[j]? ≠ some l ∧
              ∃ r2, parseDBLine (dbRecord.String
                  ⟨r.Timestamp, StatusPending, r.Email, resetMessage⟩) = some r2 ∧
                r2.Status = StatusPending ∧ r2.Email = r.Email ∧ r2.Error = resetMessage ∧
                (-86400 < r.Timestamp.offset → r.Timestamp.offset < 86400 →
                  r2.Timestamp = { r.Timestamp with nsec := 0 })) ∧
          (isStale noon fiveMinutes l = false → lines1[j]? = some l)) ∧
        resetMessage ≠ [] ∧
        ResetStuckSending noon queueStale fiveMinutes =
          ((queueStaleLines.countP (isStale noon fiveMinutes), none),
            if 0 < queueStaleLines.countP (isStale noon fiveMinutes) then
              { queueStale with data := some (Join lines1 ++ ['\n']) }
            else queueStale) :=
  ⟨by rfl, rfl, by rfl,
    ResetStuckSending_resets_stale noon queueStale fiveMinutes queueStaleLines (by rfl) rfl⟩
/-! ## GetStats -/

theorem forEachLoop_statsStep (lines : List Str) (i : Nat) (st : Stats) :
    forEachLoop statsStep i lines st =
      (⟨st.Total + (lines.filterMap parseDBLine).length,
        st.Sending + countStatus lines StatusSending,
        st.Pending + countStatus lines StatusPending,
        st.Sent + countStatus lines StatusDone,
        st.Failed + countStatus lines StatusFailed,
        st.Unsubscribed + countStatus lines StatusUnsubscribed⟩, none) := by
  induction lines generalizing i st with
  | nil => simp [forEachLoop, countStatus]
  | cons x xs ih =>
    unfold forEachLoop
    cases hp : parseDBLine x with
    | none =>
      simp only [ih]
      simp [countStatus, List.filterMap_cons, hp]
    | some r =>
      have d1 : StatusPending ≠ StatusSending := by decide
      have d2 : StatusPending ≠ StatusDone := by decide
      have d3 : StatusPending ≠ StatusFailed := by decide
      have d4 : StatusPending ≠ StatusUnsubscribed := by decide
      have d5 : StatusSending ≠ StatusDone := by decide
      have d6 : StatusSending ≠ StatusFailed := by decide
      have d7 : StatusSending ≠ StatusUnsubscribed := by decide
      have d8 : StatusDone ≠ StatusFailed := by decide
      have d9 : StatusDone ≠ StatusUnsubscribed := by decide
      have d10 : StatusFailed ≠ StatusUnsubscribed := by decide
      simp only [statsStep]
      by_cases h1 : r.Status = StatusPending
      · simp only [h1, if_true, ih]
        simp [countStatus, List.filterMap_cons, hp, h1, d1, d2, d3, d4]
        omega
      · by_cases h2 : r.Status = StatusSending
        · simp only [h1, h2, if_true, if_false, ih]
          simp [countStatus, List.filterMap_cons, hp, h2, d1.symm, d5, d6, d7]
          omega
        · by_cases h3 : r.Status = StatusDone
          · simp only [h1, h2, h3, if_true, if_false, ih]
            simp [countStatus, List.filterMap_cons, hp, h3, d2.symm, d5.symm, d8, d9]
            omega
          · by_cases h4 : r.Status = StatusFailed
            · simp only [h1, h2, h3, h4, if_true, if_false, ih]
              simp [countStatus, List.filterMap_cons, hp, h4, d3.symm, d6.symm, d8.symm, d10]
              omega
            · by_cases h5 : r.Status = StatusUnsubscribed
              · simp only [h1, h2, h3, h4, h5, if_true, if_false, ih]
                simp [countStatus, List.filterMap_cons, hp, h5, d4.symm, d7.symm, d9.symm,
                  d10.symm]
                omega
              · simp only [h1, h2, h3, h4, h5, if_false, ih]
                simp [countStatus, List.filterMap_cons, hp, h1, h2, h3, h4, h5]
                omega

/-- C10: `GetStats` returns, with no error, `Total` equal to the number of
lines `parseDBLine` accepts and `Pending`, `Sending`, `Sent`, `Failed`,
`Unsubscribed` equal to the number of accepted lines with status PENDING,
SENDING, DONE, FAILED, UNSUBSCRIBED; rejected lines count nowhere. -/
theorem GetStats_counts (d : Disk) (lines : List Str) (hread : readLines d = .ok lines) :
    GetStats d =
      ({ Total := (lines.filterMap parseDBLine).length
         Pending := countStatus lines StatusPending
         Sending := countStatus lines StatusSending
         Sent := countStatus lines StatusDone
         Failed := countStatus lines StatusFailed
         Unsubscribed := countStatus lines StatusUnsubscribed }, none) := by
  unfold GetStats forEach
  simp only [hread, forEachLoop_statsStep]
  simp

/-- C10 on two PENDING, one SENDING, one DONE, one FAILED and one malformed
line: Total 5, Pending 2, Sending 1, Sent 1, Failed 1. -/
theorem GetStats_counts_witness :
    readLines queueStats = .ok queueStatsLines ∧
      GetStats queueStats =
        ({ Total := 5, Pending := 2, Sending := 1, Sent := 1, Failed := 1, Unsubscribed := 0 },
          none) ∧
      GetStats queueStats =
        ({ Total := (queueStatsLines.filterMap parseDBLine).length
           Pending := countStatus queueStatsLines StatusPending
           Sending := countStatus queueStatsLines StatusSending
           Sent := countStatus queueStatsLines StatusDone
           Failed := countStatus queueStatsLines StatusFailed
           Unsubscribed := countStatus queueStatsLines StatusUnsubscribed }, none) :=
  ⟨by rfl, by rfl, GetStats_counts queueStats queueStatsLines (by rfl)⟩

/-! ## Lines the operations make too long to read -/

theorem readLines_single (a : Str) (hnl : '\n' ∉ a) (hcr : '\r' ∉ a)
    (hfit : byteLen a < MaxScanTokenSize) :
    readLines ⟨some (a ++ ['\n']), false⟩ = .ok [a] := by
  have h := (readLines_writeLines ⟨none, false⟩ [a] rfl (by simp)
    (by
      intro l hl
      rw [List.mem_singleton.1 hl]
      exact hnl)
    (by
      intro l hl
      rw [List.mem_singleton.1 hl]
      exact hfit)).2
  have e : [a].map dropCR = [a] := by
    rw [List.map_singleton, dropCR_of_not_mem a hcr]
  rw [e] at h
  exact h

theorem readLines_single_too_long (a : Str) (hnl : '\n' ∉ a)
    (hlen : MaxScanTokenSize ≤ byteLen a) :
    readLines ⟨some (a ++ ['\n']), false⟩ = .error .ErrTooLong :=
  readLines_writeLines_too_long ⟨none, false⟩ [a] rfl (by simp)
    (by
      intro l hl
      rw [List.mem_singleton.1 hl]
      exact hnl)
    a (by simp) hlen

theorem not_mem_append_longAddress (c : Char) (p : Str) (h1 : c ∉ p) (h2 : c ≠ 'a') :
    c ∉ p ++ longAddress := by
  intro h
  rcases List.mem_append.1 h with h | h
  · exact h1 h
  · exact h2 (longAddress_mem c h)

theorem parseDBLine_longLineSending :
    parseDBLine longLineSending = some ⟨Time.zero, StatusSending, longAddress, []⟩ := by
  have hc : ';' ∉ longAddress := fun h => absurd (longAddress_mem _ h) (by decide)
  have hsp : ∀ c ∈ longAddress, isSpace c = false := by
    intro c h
    rw [longAddress_mem c h]
    decide
  have e : longLineSending = ['x'] ++ ';' :: ("SENDING".toList ++ ';' :: longAddress) := rfl
  rw [e, parseDBLine_parts3 'x' [] "SENDING".toList longAddress (by decide) (by decide)
    (by decide) hc, TrimSpace_of_no_space longAddress hsp]
  rfl

theorem updated_noon_done_String (e : Str) :
    (updated noon StatusDone [] ⟨Time.zero, StatusSending, e, []⟩).String =
      "2024-03-09T12:00:00Z ; DONE ; ".toList ++ e := by
  have hz : noon.IsZero = false := by decide
  have hf : noon.Format = "2024-03-09T12:00:00Z".toList := by decide
  unfold dbRecord.String
  simp [updated, hz, hf, fieldSep, StatusDone]

theorem UpdateStatus_single (now : Time) (a email status msg : Str) (r : dbRecord)
    (hread : readLines ⟨some (a ++ ['\n']), false⟩ = .ok [a]) (hp : parseDBLine a = some r)
    (he : r.Email = email) :
    UpdateStatus now ⟨some (a ++ ['\n']), false⟩ email status msg =
      (none, ⟨some ((updated now status msg r).String ++ ['\n']), false⟩) := by
  have hfirst : FirstAt (hasEmail email) [a] 0 a := by
    refine ⟨rfl, ?_, fun j x hj => absurd hj (Nat.not_lt_zero j)⟩
    unfold hasEmail lineSat
    rw [hp]
    simp [he]
  rw [UpdateStatus_of_FirstAt now _ [a] email status msg 0 a r hread rfl hfirst hp]
  rfl

theorem UpdateStatus_short_form (e : Str)
    (hread : readLines ⟨some (("x;SENDING;".toList ++ e) ++ ['\n']), false⟩ =
      .ok ["x;SENDING;".toList ++ e])
    (hp : parseDBLine ("x;SENDING;".toList ++ e) = some ⟨Time.zero, StatusSending, e, []⟩) :
    UpdateStatus noon ⟨some (("x;SENDING;".toList ++ e) ++ ['\n']), false⟩ e StatusDone [] =
      (none, ⟨some (("2024-03-09T12:00:00Z ; DONE ; ".toList ++ e) ++ ['\n']), false⟩) := by
  rw [UpdateStatus_single noon _ e StatusDone [] _ hread hp rfl, updated_noon_done_String]

theorem byteLen_longLineSending : byteLen longLineSending = 65530 := by
  unfold longLineSending
  rw [byteLen_append, byteLen_longAddress]
  decide

theorem byteLen_longLineDone : byteLen longLineDone = 65550 := by
  unfold longLineDone
  rw [byteLen_append, byteLen_longAddress]
  decide

theorem readLines_queueLongSending : readLines queueLongSending = .ok [longLineSending] :=
  readLines_single longLineSending
    (not_mem_append_longAddress '\n' _ (by decide) (by decide))
    (not_mem_append_longAddress '\r' _ (by decide) (by decide))
    (by rw [byteLen_longLineSending]; decide)

/-- A line that `UpdateStatus` makes too long for the scanner: the SENDING
line of 65530 bytes is written back with the full stamp and separators as a
line of 65550 bytes, and the file cannot be read after that. -/
theorem UpdateStatus_long_line_unreadable :
    readLines queueLongSending = .ok [longLineSending] ∧ byteLen longLineSending = 65530 ∧
      parseDBLine longLineSending = some ⟨Time.zero, StatusSending, longAddress, []⟩ ∧
      UpdateStatus noon queueLongSending longAddress StatusDone [] =
        (none, ⟨some (longLineDone ++ ['\n']), false⟩) ∧
      byteLen longLineDone = 65550 ∧
      readLines ⟨some (longLineDone ++ ['\n']), false⟩ = .error .ErrTooLong :=
  ⟨readLines_queueLongSending, byteLen_longLineSending, parseDBLine_longLineSending,
    UpdateStatus_short_form longAddress readLines_queueLongSending parseDBLine_longLineSending,
    byteLen_longLineDone,
    readLines_single_too_long longLineDone
      (not_mem_append_longAddress '\n' _ (by decide) (by decide))
      (by rw [byteLen_longLineDone]; decide)⟩

/-- A claim with the zero time for a stamp is never reset: `ResetStuckSending`
counts nothing and leaves the file as it was, whatever the clock and the
timeout. -/
theorem ResetStuckSending_skips_zero_stamp (now : Time) (timeout : Int) :
    parseDBLine "0000-00-00T00:00:00Z ; SENDING ; a@x.io".toList =
        some ⟨Time.zero, StatusSending, "a@x.io".toList, []⟩ ∧
      ResetStuckSending now queueZeroClaim timeout = ((0, none), queueZeroClaim) := by
  have hp : parseDBLine "0000-00-00T00:00:00Z ; SENDING ; a@x.io".toList =
      some ⟨Time.zero, StatusSending, "a@x.io".toList, []⟩ := by rfl
  have hread : readLines queueZeroClaim =
      .ok ["0000-00-00T00:00:00Z ; SENDING ; a@x.io".toList] := by rfl
  have hz : Time.zero.IsZero = true := by decide
  have hs : isStale now timeout "0000-00-00T00:00:00Z ; SENDING ; a@x.io".toList = false := by
    unfold isStale lineSat
    rw [hp]
    simp [staleRecord, hz]
  have hc : List.countP (isStale now timeout)
      ["0000-00-00T00:00:00Z ; SENDING ; a@x.io".toList] = 0 :=
    List.countP_eq_zero.2 (by
      intro x hx
      rw [List.mem_singleton.1 hx, hs]
      simp)
  refine ⟨hp, ?_⟩
  unfold ResetStuckSending
  simp only [hread, resetLoop_eq, hc]
  rfl

/-! ## Terminal records -/

theorem map_dropCR_at (lines2 : List Str) (j : Nat) (l : Str) (r : dbRecord)
    (h2 : lines2[j]? = some l) (hp : parseDBLine l = some r) :
    ∃ l1, (lines2.map dropCR)[j]? = some l1 ∧ parseDBLine l1 = some r := by
  refine ⟨dropCR l, ?_, ?_⟩
  · rw [List.getElem?_map, h2]; rfl
  · rw [parseDBLine_dropCR]; exact hp

theorem set_ne_nil (lines : List Str) (i : Nat) (x : Str) (hi : i < lines.length) :
    lines.set i x ≠ [] := by
  intro e
  have hlen : (lines.set i x).length = 0 := by rw [e]; rfl
  rw [List.length_set] at hlen
  omega

theorem Terminal_ne_pending (s : Str) (h : Terminal s) :
    s ≠ StatusPending ∧ s ≠ StatusSending := by
  rcases h with h | h | h <;> subst h <;> decide

theorem resetLine_no_newline (now : Time) (timeout : Int) (l : Str) (hl : '\n' ∉ l) :
    '\n' ∉ resetLine now timeout l := by
  unfold resetLine
  cases hp : parseDBLine l with
  | none => exact hl
  | some r =>
    simp only
    split
    · obtain ⟨_, _, _, s2, _⟩ := parseDBLine_fields l r hp
      apply String_no_newline
      · show '\n' ∉ StatusPending
        decide
      · exact fun hc => hl (s2 _ hc)
      · show '\n' ∉ resetMessage
        decide
    · exact hl

theorem ReplaceAll_not_mem (s : Str) (c old new : Char) (hc : c ∉ s) (hn : c ≠ new) :
    c ∉ ReplaceAll s old new := by
  unfold ReplaceAll
  intro h
  obtain ⟨x, hx, e⟩ := List.mem_map.1 h
  by_cases hxo : x = old
  · simp [hxo] at e
    exact hn e.symm
  · simp [hxo] at e
    rw [e] at hx
    exact hc hx

theorem updated_no_newline (now : Time) (status msg l : Str) (r : dbRecord)
    (hp : parseDBLine l = some r) (hl : '\n' ∉ l) (hs : '\n' ∉ status) (hm : '\n' ∉ msg) :
    '\n' ∉ (updated now status msg r).String := by
  obtain ⟨_, _, _, s2, s3⟩ := parseDBLine_fields l r hp
  apply String_no_newline
  · exact hs
  · exact fun hc => hl (s2 _ hc)
  · show '\n' ∉ (if msg ≠ [] then ReplaceAll msg ';' ',' else r.Error)
    split
    · exact ReplaceAll_not_mem msg _ _ _ hm (by decide)
    · exact fun hc => hl (s3 _ hc)

theorem GetNextPending_keeps (now : Time) (d : Disk) (lines : List Str)
    (hread : readLines d = .ok lines) (hf : Fits (GetNextPending now d).2) :
    ∃ lines1 : List Str, readLines (GetNextPending now d).2 = .ok lines1 ∧
      ∀ (j : Nat) (l : Str) (r : dbRecord), lines[j]? = some l → parseDBLine l = some r → r.Status ≠ StatusPending →
        ∃ l1, lines1[j]? = some l1 ∧ parseDBLine l1 = some r := by
  by_cases hex : ∃ l ∈ lines, isPendingLine l = true
  · obtain ⟨i, l, hfirst⟩ := exists_FirstAt isPendingLine lines hex
    obtain ⟨r, hr, hs⟩ := pending_of_isPendingLine l hfirst.2.1
    by_cases hw : d.readOnly = true
    · have hg : (GetNextPending now d).2 = d := by
        unfold GetNextPending
        simp [hread, claimLoop_FirstAt now lines i l r hfirst hr, writeLines, hw]
      rw [hg]
      exact ⟨lines, hread, fun j l r hj hp _ => ⟨l, hj, hp⟩⟩
    · have hw2 : d.readOnly = false := by simpa using hw
      have hi := FirstAt_lt _ _ _ _ hfirst
      have hnl0 := readLines_no_newline d lines hread
      have hnew := claimed_no_newline now l r hr (hnl0 l (List.getElem?_mem hfirst.1))
      have hnl : ∀ x ∈ lines.set i (claimed now r).String, '\n' ∉ x := by
        intro x hx
        rcases mem_set_cases _ _ _ _ hx with e | e
        · rw [e]; exact hnew
        · exact hnl0 x e
      have hg : (GetNextPending now d).2 =
          (writeLines d (lines.set i (claimed now r).String)).2 := by
        rw [GetNextPending_of_FirstAt now d lines i l r hread hw2 hfirst hr]
        simp [writeLines, hw2]
      rw [hg] at hf
      have hrw := readLines_after_write d _ hw2 (set_ne_nil lines i _ hi) hnl hf
      rw [hg]
      refine ⟨_, hrw.2, ?_⟩
      intro j x rx hj hp hnp
      have hji : i ≠ j := by
        intro e
        subst e
        rw [hfirst.1] at hj
        have : l = x := Option.some.inj hj
        subst this
        rw [hr] at hp
        have : r = rx := Option.some.inj hp
        subst this
        exact hnp hs
      exact map_dropCR_at _ j x rx (by rw [List.getElem?_set_ne hji]; exact hj) hp
  · have hno : ∀ l ∈ lines, isPendingLine l = false := by
      intro l hl
      by_contra hc
      exact hex ⟨l, hl, by simpa using hc⟩
    rw [GetNextPending_none now d lines hread hno]
    exact ⟨lines, hread, fun j l r hj hp _ => ⟨l, hj, hp⟩⟩

theorem ResetStuckSending_keeps (now : Time) (d : Disk) (timeout : Int) (lines : List Str)
    (hread : readLines d = .ok lines) (hf : Fits (ResetStuckSending now d timeout).2) :
    ∃ lines1 : List Str, readLines (ResetStuckSending now d timeout).2 = .ok lines1 ∧
      ∀ (j : Nat) (l : Str) (r : dbRecord), lines[j]? = some l → parseDBLine l = some r → r.Status ≠ StatusSending →
        ∃ l1, lines1[j]? = some l1 ∧ parseDBLine l1 = some r := by
  by_cases hc : 0 < lines.countP (isStale now timeout) ∧ d.readOnly = false
  · obtain ⟨hc, hw⟩ := hc
    have hg : (ResetStuckSending now d timeout).2 =
        (writeLines d (lines.map (resetLine now timeout))).2 := by
      unfold ResetStuckSending
      simp [hread, resetLoop_eq, hc]
    have hne : lines.map (resetLine now timeout) ≠ [] := by
      intro e
      have : lines = [] := by simpa using e
      rw [this] at hc
      simp at hc
    have hnl0 := readLines_no_newline d lines hread
    have hnl : ∀ x ∈ lines.map (resetLine now timeout), '\n' ∉ x := by
      intro x hx
      obtain ⟨y, hy, e⟩ := List.mem_map.1 hx
      rw [← e]
      exact resetLine_no_newline now timeout y (hnl0 y hy)
    rw [hg] at hf
    have hrw := readLines_after_write d _ hw hne hnl hf
    rw [hg]
    refine ⟨_, hrw.2, ?_⟩
    intro j x rx hj hp hns
    have hst : isStale now timeout x = false := by
      unfold isStale lineSat
      rw [hp]
      simp [staleRecord, hns]
    apply map_dropCR_at _ j x rx _ hp
    rw [List.getElem?_map, hj]
    show some (resetLine now timeout x) = some x
    rw [resetLine_not_stale now timeout x hst]
  · have hg : (ResetStuckSending now d timeout).2 = d := by
      unfold ResetStuckSending
      simp only [hread, resetLoop_eq]
      by_cases h0 : 0 < lines.countP (isStale now timeout)
      · have hw : d.readOnly = true := by
          by_contra hw
          exact hc ⟨h0, by simpa using hw⟩
        simp [h0, writeLines, hw]
      · simp [h0]
    rw [hg]
    exact ⟨lines, hread, fun j l r hj hp _ => ⟨l, hj, hp⟩⟩

theorem ReplaceAll_no_semicolon (s : Str) : ';' ∉ ReplaceAll s ';' ',' := by
  unfold ReplaceAll
  intro hm
  obtain ⟨x, _, e⟩ := List.mem_map.1 hm
  by_cases hxo : x = ';'
  · simp [hxo] at e
  · simp [hxo] at e

theorem updated_parses (now : Time) (status msg l : Str) (r : dbRecord)
    (hp : parseDBLine l = some r) (hst : IsStatus status) :
    ∃ r1, parseDBLine (updated now status msg r).String = some r1 ∧ r1.Status = status ∧
      r1.Email = r.Email ∧ r1.Error = TrimSpace (updated now status msg r).Error := by
  obtain ⟨⟨_, t2, _⟩, ⟨_, s2, s3⟩, _⟩ := parseDBLine_fields l r hp
  obtain ⟨c1, _, c3⟩ := IsStatus_clean status hst
  have hse : ';' ∉ (updated now status msg r).Error := by
    show ';' ∉ (if msg ≠ [] then ReplaceAll msg ';' ',' else r.Error)
    split
    · exact ReplaceAll_no_semicolon msg
    · exact s3
  exact ⟨_, parseDBLine_String (updated now status msg r) c1 s2 hse, c3, t2, rfl⟩

theorem scanLines_newline : scanLines ['\n'] = .ok [[]] := by
  rfl

theorem UpdateStatus_keeps (now : Time) (d : Disk) (lines : List Str)
    (email status msg : Str) (hread : readLines d = .ok lines) (hst : IsStatus status)
    (hm : '\n' ∉ msg) (hf : Fits (UpdateStatus now d email status msg).2) :
    ∃ lines1 : List Str, readLines (UpdateStatus now d email status msg).2 = .ok lines1 ∧
      (∀ (j : Nat) (l : Str) (r : dbRecord), lines[j]? = some l → parseDBLine l = some r →
        ¬ FirstAt (hasEmail email) lines j l →
        ∃ l1, lines1[j]? = some l1 ∧ parseDBLine l1 = some r) ∧
      (d.readOnly = false → ∀ (i : Nat) (l : Str), FirstAt (hasEmail email) lines i l →
        ∃ l1 r1, lines1[i]? = some l1 ∧ parseDBLine l1 = some r1 ∧ r1.Status = status ∧
          r1.Email = email) := by
  have hs : '\n' ∉ status := (IsStatus_clean status hst).2.1
  by_cases hw : d.readOnly = true
  · have hg : (UpdateStatus now d email status msg).2 = d := by
      rw [UpdateStatus_eq]
      unfold updateRecord
      simp [hread, writeLines, hw]
    rw [hg]
    exact ⟨lines, hread, fun j l r hj hp _ => ⟨l, hj, hp⟩,
      fun hw2 => absurd hw (by simp [hw2])⟩
  · have hw2 : d.readOnly = false := by simpa using hw
    have hnl0 := readLines_no_newline d lines hread
    by_cases hex : ∃ l ∈ lines, hasEmail email l = true
    · obtain ⟨i, l, hfirst⟩ := exists_FirstAt (hasEmail email) lines hex
      obtain ⟨r, hr, he⟩ := email_of_hasEmail email l hfirst.2.1
      have hi := FirstAt_lt _ _ _ _ hfirst
      have hnew := updated_no_newline now status msg l r hr
        (hnl0 l (List.getElem?_mem hfirst.1)) hs hm
      have hnl : ∀ x ∈ lines.set i (updated now status msg r).String, '\n' ∉ x := by
        intro x hx
        rcases mem_set_cases _ _ _ _ hx with e | e
        · rw [e]; exact hnew
        · exact hnl0 x e
      have hg : (UpdateStatus now d email status msg).2 =
          (writeLines d (lines.set i (updated now status msg r).String)).2 := by
        rw [UpdateStatus_of_FirstAt now d lines email status msg i l r hread hw2 hfirst hr]
        simp [writeLines, hw2]
      rw [hg] at hf
      have hrw := readLines_after_write d _ hw2 (set_ne_nil lines i _ hi) hnl hf
      rw [hg]
      refine ⟨_, hrw.2, ?_, ?_⟩
      · intro j x rx hj hp hnf
        have hji : i ≠ j := by
          intro e
          subst e
          rw [hfirst.1] at hj
          have : l = x := Option.some.inj hj
          subst this
          exact hnf hfirst
        exact map_dropCR_at _ j x rx (by rw [List.getElem?_set_ne hji]; exact hj) hp
      · intro _ k m hk
        have hki : i = k := FirstAt_unique _ _ _ _ _ _ hfirst hk
        subst hki
        obtain ⟨r1, hp1, hs1, he1, _⟩ := updated_parses now status msg l r hr hst
        refine ⟨dropCR (updated now status msg r).String, r1, ?_, ?_, hs1, ?_⟩
        · rw [List.getElem?_map, List.getElem?_set_self hi]
          rfl
        · rw [parseDBLine_dropCR]; exact hp1
        · rw [he1]; exact he
    · have hno : ∀ l ∈ lines, hasEmail email l = false := by
        intro l hl
        by_contra hc
        exact hex ⟨l, hl, by simpa using hc⟩
      have hnofirst : ∀ (i : Nat) (l : Str), ¬ FirstAt (hasEmail email) lines i l := by
        intro i l hf
        have := hno l (List.getElem?_mem hf.1)
        rw [hf.2.1] at this
        exact absurd this (by simp)
      have hg : (UpdateStatus now d email status msg).2 = (writeLines d lines).2 := by
        rw [UpdateStatus_no_match now d lines email status msg hread hw2 hno]
        simp [writeLines, hw2]
      rw [hg]
      cases hl : lines with
      | nil =>
        refine ⟨[[]], ?_, ?_, ?_⟩
        · simp [writeLines, hw2, readLines, Join, scanLines_newline]
        · intro j x rx hj
          simp at hj
        · intro _ i l hf
          rw [hl] at hnofirst
          exact absurd hf (hnofirst i l)
      | cons y ys =>
        have hne : lines ≠ [] := by rw [hl]; simp
        have hrw := readLines_writeLines d lines hw2 hne hnl0 (readLines_fit d lines hread)
        rw [← hl]
        exact ⟨_, hrw.2, fun j x rx hj hp _ => map_dropCR_at _ j x rx hj hp,
          fun _ i l hf => absurd hf (hnofirst i l)⟩

/-- C5, the claim refuted: on the file DONE(a), SENDING(a), the call
`UpdateStatus(a, FAILED, "boom")`, which the dispatcher makes when the send of
the second record fails, turns the first record from DONE into FAILED. -/
theorem UpdateStatus_moves_done_to_failed :
    readLines queueDup =
        .ok ["2024-03-09T10:00:00Z ; DONE ; a@x.io".toList,
          "2024-03-09T11:59:00Z ; SENDING ; a@x.io".toList] ∧
      parseDBLine "2024-03-09T10:00:00Z ; DONE ; a@x.io".toList =
        some ⟨⟨2024, 3, 9, 10, 0, 0, 0, 0⟩, "DONE".toList, "a@x.io".toList, []⟩ ∧
      readLines (UpdateStatus noon queueDup "a@x.io".toList StatusFailed "boom".toList).2 =
        .ok ["2024-03-09T12:00:00Z ; FAILED ; a@x.io ; boom".toList,
          "2024-03-09T11:59:00Z ; SENDING ; a@x.io".toList] ∧
      parseDBLine "2024-03-09T12:00:00Z ; FAILED ; a@x.io ; boom".toList =
        some ⟨⟨2024, 3, 9, 12, 0, 0, 0, 0⟩, "FAILED".toList, "a@x.io".toList,
          "boom".toList⟩ :=
  ⟨by rfl, by rfl, by rfl, by rfl⟩

/-- C5, amended: when no line of the file after the call has
`MaxScanTokenSize` bytes or more, the file is read back and shows this.
`GetNextPending` and `ResetStuckSending` leave every record with status DONE,
FAILED or UNSUBSCRIBED as it was: the line at its position parses to the same
record after the call. `UpdateStatus`, for a status of the five and a message
without line break, leaves every record as it was except the first one whose
email is the given email; that one has the given status after the call,
whatever its status was before. -/
theorem terminal_records_kept (now : Time) (d : Disk) (lines : List Str)
    (hread : readLines d = .ok lines) :
    (Fits (GetNextPending now d).2 →
        ∃ lines1 : List Str, readLines (GetNextPending now d).2 = .ok lines1 ∧
        ∀ (j : Nat) (l : Str) (r : dbRecord), lines[j]? = some l → parseDBLine l = some r →
          Terminal r.Status → ∃ l1, lines1[j]? = some l1 ∧ parseDBLine l1 = some r) ∧
      (∀ timeout, Fits (ResetStuckSending now d timeout).2 → ∃ lines1 : List Str,
        readLines (ResetStuckSending now d timeout).2 = .ok lines1 ∧
        ∀ (j : Nat) (l : Str) (r : dbRecord), lines[j]? = some l → parseDBLine l = some r →
          Terminal r.Status → ∃ l1, lines1[j]? = some l1 ∧ parseDBLine l1 = some r) ∧
      (∀ email status msg, IsStatus status → '\n' ∉ msg →
        Fits (UpdateStatus now d email status msg).2 →
        ∃ lines1 : List Str, readLines (UpdateStatus now d email status msg).2 = .ok lines1 ∧
          (∀ (j : Nat) (l : Str) (r : dbRecord), lines[j]? = some l →
            parseDBLine l = some r → ¬ FirstAt (hasEmail email) lines j l →
            ∃ l1, lines1[j]? = some l1 ∧ parseDBLine l1 = some r) ∧
          (d.readOnly = false → ∀ (i : Nat) (l : Str), FirstAt (hasEmail email) lines i l →
            ∃ l1 r1, lines1[i]? = some l1 ∧ parseDBLine l1 = some r1 ∧ r1.Status = status ∧
              r1.Email = email)) := by
  refine ⟨?_, ?_, ?_⟩
  · intro hf
    obtain ⟨lines1, h1, h2⟩ := GetNextPending_keeps now d lines hread hf
    exact ⟨lines1, h1, fun j l r hj hp ht => h2 j l r hj hp (Terminal_ne_pending _ ht).1⟩
  · intro timeout hf
    obtain ⟨lines1, h1, h2⟩ := ResetStuckSending_keeps now d timeout lines hread hf
    exact ⟨lines1, h1, fun j l r hj hp ht => h2 j l r hj hp (Terminal_ne_pending _ ht).2⟩
  · intro email status msg hs hm hf
    exact UpdateStatus_keeps now d lines email status msg hread hs hm hf

/-- C5, amended, on the file DONE(a), SENDING(a), whose lines stay short
under the update of the dispatcher. -/
theorem terminal_records_kept_witness :
    readLines queueDup = .ok queueDupLines ∧
      Fits (GetNextPending noon queueDup).2 ∧
      Fits (ResetStuckSending noon queueDup fiveMinutes).2 ∧
      Fits (UpdateStatus noon queueDup "a@x.io".toList StatusFailed "boom".toList).2 ∧
      (Fits (GetNextPending noon queueDup).2 →
        ∃ lines1 : List Str, readLines (GetNextPending noon queueDup).2 = .ok lines1 ∧
        ∀ (j : Nat) (l : Str) (r : dbRecord), queueDupLines[j]? = some l →
          parseDBLine l = some r → Terminal r.Status →
          ∃ l1, lines1[j]? = some l1 ∧ parseDBLine l1 = some r) ∧
      (∀ timeout, Fits (ResetStuckSending noon queueDup timeout).2 → ∃ lines1 : List Str,
        readLines (ResetStuckSending noon queueDup timeout).2 = .ok lines1 ∧
        ∀ (j : Nat) (l : Str) (r : dbRecord), queueDupLines[j]? = some l →
          parseDBLine l = some r → Terminal r.Status →
          ∃ l1, lines1[j]? = some l1 ∧ parseDBLine l1 = some r) ∧
      (∀ email status msg, IsStatus status → '\n' ∉ msg →
        Fits (UpdateStatus noon queueDup email status msg).2 →
        ∃ lines1 : List Str,
          readLines (UpdateStatus noon queueDup email status msg).2 = .ok lines1 ∧
          (∀ (j : Nat) (l : Str) (r : dbRecord), queueDupLines[j]? = some l →
            parseDBLine l = some r → ¬ FirstAt (hasEmail email) queueDupLines j l →
            ∃ l1, lines1[j]? = some l1 ∧ parseDBLine l1 = some r) ∧
          (queueDup.readOnly = false →
            ∀ (i : Nat) (l : Str), FirstAt (hasEmail email) queueDupLines i l →
            ∃ l1 r1, lines1[i]? = some l1 ∧ parseDBLine l1 = some r1 ∧ r1.Status = status ∧
              r1.Email = email)) :=
  ⟨by rfl, by decide, by decide, by decide,
    terminal_records_kept noon queueDup queueDupLines (by rfl)⟩

/-! ## The stored failure message -/

theorem Split_length (sep : Char) (s : Str) : (Split sep s).length = s.count sep + 1 := by
  induction s with
  | nil => rfl
  | cons c cs ih =>
    unfold Split
    by_cases hc : c = sep
    · subst hc
      simp [ih]
    · have hc2 : (c == sep) = false := by simpa using hc
      simp only [hc, if_false]
      cases hsp : Split sep cs with
      | nil => exact absurd hsp (Split_ne_nil sep cs)
      | cons q qs =>
        rw [hsp] at ih
        simp only [List.length_cons] at ih ⊢
        rw [List.count_cons, hc2]
        simpa using ih

theorem count_dropCR (s : Str) : (dropCR s).count ';' = s.count ';' := by
  unfold dropCR
  split
  · rename_i h
    cases s with
    | nil => simp at h
    | cons x xs =>
      have hne : x :: xs ≠ [] := by simp
      rw [List.getLast?_eq_getLast _ hne] at h
      have hlast : (x :: xs).getLast hne = '\r' := Option.some.inj h
      have e := List.dropLast_append_getLast hne
      rw [hlast] at e
      conv_rhs => rw [← e]
      simp [List.count_append]
  · rfl

theorem count_String_four (r : dbRecord) (hs : ';' ∉ r.Status) (he : ';' ∉ r.Email)
    (hr : ';' ∉ r.Error) (hne : r.Error ≠ []) : r.String.count ';' = 3 := by
  have e : r.String =
      stampText r.Timestamp ++ fieldSep ++ r.Status ++ fieldSep ++ r.Email ++ fieldSep ++
        r.Error := by
    unfold dbRecord.String stampText
    simp [hne]
  have h0 : (stampText r.Timestamp).count ';' = 0 :=
    List.count_eq_zero.2 (stampText_no_semicolon _)
  have hf : fieldSep.count ';' = 1 := by decide
  rw [e]
  simp only [List.count_append, h0, hf, List.count_eq_zero.2 hs, List.count_eq_zero.2 he,
    List.count_eq_zero.2 hr]

theorem ReplaceAll_no_old (s : Str) (old new : Char) (h : old ≠ new) :
    old ∉ ReplaceAll s old new := by
  unfold ReplaceAll
  intro hm
  obtain ⟨x, _, e⟩ := List.mem_map.1 hm
  by_cases hxo : x = old
  · simp [hxo] at e
    exact h e.symm
  · simp [hxo] at e

/-- C8, the claim refuted: with the message `no route ` (a trailing blank) the
record read back from the file holds the error `no route`, which is not the
message with its semicolons replaced. -/
theorem UpdateStatus_message_is_trimmed :
    readLines (UpdateStatus noon queueDup "a@x.io".toList StatusFailed "no route ".toList).2 =
        .ok ["2024-03-09T12:00:00Z ; FAILED ; a@x.io ; no route ".toList,
          "2024-03-09T11:59:00Z ; SENDING ; a@x.io".toList] ∧
      parseDBLine "2024-03-09T12:00:00Z ; FAILED ; a@x.io ; no route ".toList =
        some ⟨⟨2024, 3, 9, 12, 0, 0, 0, 0⟩, StatusFailed, "a@x.io".toList,
          "no route".toList⟩ ∧
      "no route".toList ≠ ReplaceAll "no route ".toList ';' ',' :=
  ⟨by rfl, by rfl, by decide⟩

/-- A message with a line break puts the record on two lines: the file
DONE(a), SENDING(a) has three lines after the update. -/
theorem UpdateStatus_line_break_adds_a_line :
    readLines (UpdateStatus noon queueDup "a@x.io".toList StatusFailed
        "550 no; 550 go\naway".toList).2 =
      .ok ["2024-03-09T12:00:00Z ; FAILED ; a@x.io ; 550 no, 550 go".toList,
        "away".toList,
        "2024-03-09T11:59:00Z ; SENDING ; a@x.io".toList] :=
  by rfl

/-- C8, amended: for a non-empty message without line break and a status of
the five, when some record has the given email, `UpdateStatus` writes the
lines it read with the line of the first record with that email replaced; the
new line has no line break, so the text written has one line per line read;
the new line has exactly four fields and parses to the given status, the same
email, and the message with every semicolon replaced by a comma and the white
space at its ends trimmed. When no line of the file written has
`MaxScanTokenSize` bytes or more, the file read back has as many lines as
before, the new line at its position, and every other line parses as it
did. -/
theorem UpdateStatus_stores_message (now : Time) (d : Disk) (lines : List Str)
    (email status msg : Str) (hread : readLines d = .ok lines) (hw : d.readOnly = false)
    (hex : ∃ l ∈ lines, ∃ r, parseDBLine l = some r ∧ r.Email = email)
    (hm : msg ≠ []) (hnl : '\n' ∉ msg) (hst : IsStatus status) :
    ∃ (i : Nat) (l : Str) (r r1 : dbRecord),
      FirstAt (hasEmail email) lines i l ∧ parseDBLine l = some r ∧
      UpdateStatus now d email status msg =
        (none,
          { d with
            data := some (Join (lines.set i (updated now status msg r).String) ++ ['\n']) }) ∧
      '\n' ∉ (updated now status msg r).String ∧
      Split '\n' (Join (lines.set i (updated now status msg r).String) ++ ['\n']) =
        lines.set i (updated now status msg r).String ++ [[]] ∧
      (lines.set i (updated now status msg r).String).length = lines.length ∧
      parseDBLine (updated now status msg r).String = some r1 ∧
      r1.Status = status ∧ r1.Email = email ∧
      r1.Error = TrimSpace (ReplaceAll msg ';' ',') ∧
      (Split ';' (updated now status msg r).String).length = 4 ∧
      (Fits (UpdateStatus now d email status msg).2 →
        ∃ (lines1 : List Str) (l1 : Str),
          readLines (UpdateStatus now d email status msg).2 = .ok lines1 ∧
          lines1.length = lines.length ∧
          lines1[i]? = some l1 ∧ parseDBLine l1 = some r1 ∧ (Split ';' l1).length = 4 ∧
          (∀ (j : Nat) (x : Str), j ≠ i → lines[j]? = some x →
            ∃ x1, lines1[j]? = some x1 ∧ parseDBLine x1 = parseDBLine x)) := by
  have hex2 : ∃ l ∈ lines, hasEmail email l = true := by
    obtain ⟨l0, hl0, r0, hr0, he0⟩ := hex
    exact ⟨l0, hl0, by simp [hasEmail, lineSat, hr0, he0]⟩
  obtain ⟨i, l, hfirst⟩ := exists_FirstAt (hasEmail email) lines hex2
  obtain ⟨r, hr, he⟩ := email_of_hasEmail email l hfirst.2.1
  obtain ⟨⟨_, t2, _⟩, ⟨_, s2, _⟩, _⟩ := parseDBLine_fields l r hr
  obtain ⟨c1, c2, c3⟩ := IsStatus_clean status hst
  have hi := FirstAt_lt _ _ _ _ hfirst
  have hnl0 := readLines_no_newline d lines hread
  have hnew := updated_no_newline now status msg l r hr
    (hnl0 l (List.getElem?_mem hfirst.1)) c2 hnl
  have hnl2 : ∀ x ∈ lines.set i (updated now status msg r).String, '\n' ∉ x := by
    intro x hx
    rcases mem_set_cases _ _ _ _ hx with e | e
    · rw [e]; exact hnew
    · exact hnl0 x e
  have hne2 := set_ne_nil lines i (updated now status msg r).String hi
  have hup := UpdateStatus_of_FirstAt now d lines email status msg i l r hread hw hfirst hr
  have hg : (UpdateStatus now d email status msg).2 =
      (writeLines d (lines.set i (updated now status msg r).String)).2 := by
    rw [hup]
    simp [writeLines, hw]
  have herr : (updated now status msg r).Error = ReplaceAll msg ';' ',' := by
    simp [updated, hm]
  have hne : (updated now status msg r).Error ≠ [] := by
    rw [herr]
    unfold ReplaceAll
    simpa using hm
  have hse : ';' ∉ (updated now status msg r).Error := by
    rw [herr]
    exact ReplaceAll_no_old msg ';' ',' (by decide)
  have hparse := parseDBLine_String (updated now status msg r) c1 s2 hse
  have hfour : (Split ';' (updated now status msg r).String).length = 4 := by
    rw [Split_length, count_String_four (updated now status msg r) c1 s2 hse hne]
  refine ⟨i, l, r, _, hfirst, hr, hup, hnew, Split_Join_newline _ hne2 hnl2, by simp, hparse,
    c3, ?_, ?_, hfour, ?_⟩
  · show TrimSpace r.Email = email
    rw [← he]
    exact t2
  · show TrimSpace (updated now status msg r).Error = _
    rw [herr]
  · intro hf
    rw [hg] at hf
    have hrw := readLines_after_write d _ hw hne2 hnl2 hf
    refine ⟨_, dropCR (updated now status msg r).String, by rw [hg]; exact hrw.2, by simp, ?_,
      by rw [parseDBLine_dropCR]; exact hparse, ?_, ?_⟩
    · rw [List.getElem?_map, List.getElem?_set_self hi]
      rfl
    · rw [Split_length, count_dropCR, ← Split_length]
      exact hfour
    · intro j x hj hx
      refine ⟨dropCR x, ?_, parseDBLine_dropCR x⟩
      rw [List.getElem?_map, List.getElem?_set_ne (Ne.symm hj), hx]
      rfl

/-- C8, amended, on the file DONE(a), SENDING(a) with the message
`no; route `: the record read back holds `no, route`. -/
theorem UpdateStatus_stores_message_witness :
    readLines queueDup = .ok queueDupLines ∧ queueDup.readOnly = false ∧
      (∃ l ∈ queueDupLines, ∃ r, parseDBLine l = some r ∧ r.Email = "a@x.io".toList) ∧
      "no; route ".toList ≠ [] ∧ '\n' ∉ "no; route ".toList ∧ IsStatus StatusFailed ∧
      TrimSpace (ReplaceAll "no; route ".toList ';' ',') = "no, route".toList ∧
      Fits (UpdateStatus noon queueDup "a@x.io".toList StatusFailed "no; route ".toList).2 ∧
      ∃ (i : Nat) (l : Str) (r r1 : dbRecord),
        FirstAt (hasEmail "a@x.io".toList) queueDupLines i l ∧ parseDBLine l = some r ∧
        UpdateStatus noon queueDup "a@x.io".toList StatusFailed "no; route ".toList =
          (none,
            { queueDup with
              data := some (Join (queueDupLines.set i
                (updated noon StatusFailed "no; route ".toList r).String) ++ ['\n']) }) ∧
        '\n' ∉ (updated noon StatusFailed "no; route ".toList r).String ∧
        Split '\n' (Join (queueDupLines.set i
            (updated noon StatusFailed "no; route ".toList r).String) ++ ['\n']) =
          queueDupLines.set i (updated noon StatusFailed "no; route ".toList r).String ++
            [[]] ∧
        (queueDupLines.set i (updated noon StatusFailed "no; route ".toList r).String).length =
          queueDupLines.length ∧
        parseDBLine (updated noon StatusFailed "no; route ".toList r).String = some r1 ∧
        r1.Status = StatusFailed ∧ r1.Email = "a@x.io".toList ∧
        r1.Error = TrimSpace (ReplaceAll "no; route ".toList ';' ',') ∧
        (Split ';' (updated noon StatusFailed "no; route ".toList r).String).length = 4 ∧
        (Fits (UpdateStatus noon queueDup "a@x.io".toList StatusFailed
            "no; route ".toList).2 →
          ∃ (lines1 : List Str) (l1 : Str),
            readLines (UpdateStatus noon queueDup "a@x.io".toList StatusFailed
              "no; route ".toList).2 = .ok lines1 ∧
            lines1.length = queueDupLines.length ∧
            lines1[i]? = some l1 ∧ parseDBLine l1 = some r1 ∧ (Split ';' l1).length = 4 ∧
            (∀ (j : Nat) (x : Str), j ≠ i → queueDupLines[j]? = some x →
              ∃ x1, lines1[j]? = some x1 ∧ parseDBLine x1 = parseDBLine x)) :=
  have hex : ∃ l ∈ queueDupLines, ∃ r, parseDBLine l = some r ∧ r.Email = "a@x.io".toList :=
    ⟨"2024-03-09T10:00:00Z ; DONE ; a@x.io".toList, by decide,
      ⟨⟨2024, 3, 9, 10, 0, 0, 0, 0⟩, StatusDone, "a@x.io".toList, []⟩, by decide, rfl⟩
  ⟨by rfl, rfl, hex, by decide, by decide, by decide, by decide, by decide,
    UpdateStatus_stores_message noon queueDup queueDupLines "a@x.io".toList StatusFailed
      "no; route ".toList (by rfl) rfl hex (by decide) (by decide) (by decide)⟩
/-! ## What parseDBLine accepts -/

/-- C16: `parseDBLine` accepts a line exactly when the line, trimmed, is not
empty and splits on `;` into at least three fields; for an accepted line the
status and the email are the trimmed second and third field, the error is the
trimmed fourth field when there is one and empty otherwise, and the timestamp
is what the trimmed first field parses to as RFC 3339, or the zero time when
it does not parse. -/
theorem parseDBLine_accepts_iff (l : Str) :
    ((∃ r, parseDBLine l = some r) ↔
        TrimSpace l ≠ [] ∧ 3 ≤ (Split ';' (TrimSpace l)).length) ∧
      (∀ r, parseDBLine l = some r →
        r.Status = TrimSpace ((Split ';' (TrimSpace l)).getD 1 []) ∧
        r.Email = TrimSpace ((Split ';' (TrimSpace l)).getD 2 []) ∧
        r.Error = (if 4 ≤ (Split ';' (TrimSpace l)).length then
          TrimSpace ((Split ';' (TrimSpace l)).getD 3 []) else []) ∧
        r.Timestamp =
          (match Time.Parse (TrimSpace ((Split ';' (TrimSpace l)).getD 0 [])) with
            | some t => t
            | none => Time.zero)) := by
  unfold parseDBLine
  by_cases h0 : TrimSpace l = []
  · simp [h0]
  · simp only [h0, if_false]
    rcases hsp : Split ';' (TrimSpace l) with _ | ⟨p0, _ | ⟨p1, _ | ⟨p2, rest⟩⟩⟩
    · simp
    · simp
    · simp
    · refine ⟨by simp [h0], ?_⟩
      intro r hr
      have e := Option.some.inj hr
      subst e
      have ht : (Time.Parse (TrimSpace p0)).getD Time.zero =
          (match Time.Parse (TrimSpace p0) with
            | some t => t
            | none => Time.zero) := by
        cases Time.Parse (TrimSpace p0) <;> rfl
      cases rest with
      | nil => exact ⟨rfl, rfl, by simp, ht⟩
      | cons p3 rest1 => exact ⟨rfl, rfl, by simp, ht⟩

/-- C16 on three lines: a line with a timestamp that does not parse is
accepted with the zero time, a line with two fields and a blank line are
rejected. -/
theorem parseDBLine_accepts_iff_witness :
    parseDBLine "  soon ; PENDING ; a@x.io ; late ; more ".toList =
        some ⟨Time.zero, StatusPending, "a@x.io".toList, "late".toList⟩ ∧
      parseDBLine "2024-03-09T10:00:00Z ; DONE".toList = none ∧
      parseDBLine "   ".toList = none ∧
      ((∃ r, parseDBLine "  soon ; PENDING ; a@x.io ; late ; more ".toList = some r) ↔
        TrimSpace "  soon ; PENDING ; a@x.io ; late ; more ".toList ≠ [] ∧
          3 ≤ (Split ';' (TrimSpace "  soon ; PENDING ; a@x.io ; late ; more ".toList)).length) :=
  ⟨by rfl, by rfl, by rfl,
    (parseDBLine_accepts_iff "  soon ; PENDING ; a@x.io ; late ; more ".toList).1⟩

/-! ## GetLastSentTime -/

theorem forEachLoop_lastSentStep (lines : List Str) (i : Nat) (acc : Time) :
    forEachLoop lastSentStep i lines acc = ((completionStamps lines).foldl later acc, none) := by
  induction lines generalizing i acc with
  | nil => rfl
  | cons x xs ih =>
    unfold forEachLoop
    cases hp : parseDBLine x with
    | none =>
      simp only [ih]
      simp [completionStamps, List.filterMap_cons, hp]
    | some r =>
      by_cases hc : isCompleted r = true
      · have hc2 : r.Status = StatusDone ∨ r.Status = StatusFailed := by
          simpa [isCompleted] using hc
        have hst : completionStamps (x :: xs) = r.Timestamp :: completionStamps xs := by
          simp [completionStamps, List.filterMap_cons, hp, hc]
        rw [hst, List.foldl_cons]
        by_cases ha : r.Timestamp.After acc = true
        · simp [lastSentStep, hc2, ha, later, ih]
        · simp [lastSentStep, ha, later, ih]
      · have hc2 : ¬ (r.Status = StatusDone ∨ r.Status = StatusFailed) := by
          simpa [isCompleted] using hc
        have hst : completionStamps (x :: xs) = completionStamps xs := by
          simp [completionStamps, List.filterMap_cons, hp, hc]
        rw [hst]
        simp [lastSentStep, hc2, ih]

theorem later_ge (acc t : Time) :
    acc.absNano ≤ (later acc t).absNano ∧ t.absNano ≤ (later acc t).absNano := by
  unfold later Time.After
  by_cases h : acc.absNano < t.absNano
  · simp [h]; omega
  · simp [h]; omega

theorem foldl_later (ts : List Time) (acc : Time) :
    acc.absNano ≤ (ts.foldl later acc).absNano ∧
      (∀ t ∈ ts, t.absNano ≤ (ts.foldl later acc).absNano) ∧
      (ts.foldl later acc = acc ∨ ts.foldl later acc ∈ ts) ∧
      ((∀ t ∈ ts, t.absNano ≤ acc.absNano) → ts.foldl later acc = acc) ∧
      ((∃ t ∈ ts, acc.absNano < t.absNano) →
        ts.foldl later acc ∈ ts ∧ acc.absNano < (ts.foldl later acc).absNano) := by
  induction ts generalizing acc with
  | nil => simp
  | cons t ts ih =>
    rw [List.foldl_cons]
    obtain ⟨h1, h2, h3, h4, h5⟩ := ih (later acc t)
    have hg := later_ge acc t
    have hl : later acc t = acc ∨ later acc t = t := by
      unfold later
      split <;> simp
    refine ⟨by omega, ?_, ?_, ?_, ?_⟩
    · intro x hx
      rcases List.mem_cons.1 hx with e | e
      · subst e; omega
      · exact h2 x e
    · rcases h3 with e | e
      · rcases hl with e2 | e2
        · left; rw [e, e2]
        · right; rw [e, e2]; simp
      · right; exact List.mem_cons_of_mem _ e
    · intro hall
      have ht : t.absNano ≤ acc.absNano := hall t (by simp)
      have hla : later acc t = acc := by
        unfold later Time.After
        have : ¬ acc.absNano < t.absNano := by omega
        simp [this]
      rw [hla]
      apply (ih acc).2.2.2.1
      intro x hx
      exact hall x (List.mem_cons_of_mem _ hx)
    · rintro ⟨x, hx, hlt⟩
      by_cases hmore : ∃ y ∈ ts, (later acc t).absNano < y.absNano
      · obtain ⟨m1, m2⟩ := h5 hmore
        exact ⟨List.mem_cons_of_mem _ m1, by omega⟩
      · have hall : ∀ y ∈ ts, y.absNano ≤ (later acc t).absNano := by
          intro y hy
          by_contra hc
          exact hmore ⟨y, hy, by omega⟩
        have hfold := h4 hall
        rw [hfold]
        have hlt2 : acc.absNano < (later acc t).absNano := by
          rcases List.mem_cons.1 hx with e | e
          · subst e; omega
          · have := hall x e; omega
        have hne : later acc t = t := by
          rcases hl with e | e
          · rw [e] at hlt2; omega
          · exact e
        rw [hne] at hlt2 ⊢
        exact ⟨by simp, hlt2⟩

theorem absNano_zero : Time.zero.absNano = 0 := by
  decide

/-- C11, the claim refuted: the file holds one record, DONE and stamped
1 June of year 0; `GetLastSentTime` returns the zero time, which is not the
timestamp of that record. -/
theorem GetLastSentTime_skips_times_before_zero :
    readLines queueYearZero = .ok ["0000-06-01T00:00:00Z ; DONE ; a@x.io".toList] ∧
      parseDBLine "0000-06-01T00:00:00Z ; DONE ; a@x.io".toList =
        some ⟨⟨0, 6, 1, 0, 0, 0, 0, 0⟩, "DONE".toList, "a@x.io".toList, []⟩ ∧
      GetLastSentTime queueYearZero = (Time.zero, none) ∧
      (⟨0, 6, 1, 0, 0, 0, 0, 0⟩ : Time) ≠ Time.zero ∧
      (⟨0, 6, 1, 0, 0, 0, 0, 0⟩ : Time).IsZero = false :=
  ⟨by rfl, by rfl, by rfl, by decide, by decide⟩

/-- C11, amended: `GetLastSentTime` returns, with no error, the latest
timestamp among the valid records with status DONE or FAILED whose timestamp
is after the zero time, and the zero time when there is none, in particular
when no valid record is DONE or FAILED; the result is computed from the
timestamps of the DONE and FAILED records alone, and none of them is after
it. -/
theorem GetLastSentTime_latest (d : Disk) (lines : List Str)
    (hread : readLines d = .ok lines) :
    GetLastSentTime d = ((completionStamps lines).foldl later Time.zero, none) ∧
      (∀ t ∈ completionStamps lines, t.After (GetLastSentTime d).1 = false) ∧
      ((∃ t ∈ completionStamps lines, t.After Time.zero = true) →
        (GetLastSentTime d).1 ∈ completionStamps lines ∧
        (GetLastSentTime d).1.After Time.zero = true) ∧
      ((∀ t ∈ completionStamps lines, t.After Time.zero = false) →
        (GetLastSentTime d).1 = Time.zero) ∧
      (completionStamps lines = [] → (GetLastSentTime d).1 = Time.zero) := by
  have hg : GetLastSentTime d = ((completionStamps lines).foldl later Time.zero, none) := by
    unfold GetLastSentTime forEach
    simp only [hread, forEachLoop_lastSentStep]
  obtain ⟨_, h2, _, h4, h5⟩ := foldl_later (completionStamps lines) Time.zero
  rw [hg]
  refine ⟨rfl, ?_, ?_, ?_, ?_⟩
  · intro t ht
    have := h2 t ht
    simp only [Time.After, decide_eq_false_iff_not]
    omega
  · rintro ⟨t, ht, hlt⟩
    have hlt2 : Time.zero.absNano < t.absNano := by
      simpa [Time.After] using hlt
    obtain ⟨m1, m2⟩ := h5 ⟨t, ht, hlt2⟩
    exact ⟨m1, by simpa [Time.After] using m2⟩
  · intro hall
    apply h4
    intro t ht
    have := hall t ht
    simp only [Time.After, decide_eq_false_iff_not] at this
    omega
  · intro he
    rw [he]
    rfl

/-- C11, amended, on a file with a DONE record of 10:00 and a FAILED record
of 10:30: the result is 10:30. -/
theorem GetLastSentTime_latest_witness :
    readLines queueStats = .ok queueStatsLines ∧
      GetLastSentTime queueStats = (⟨2024, 3, 9, 10, 30, 0, 0, 0⟩, none) ∧
      (GetLastSentTime queueStats =
          ((completionStamps queueStatsLines).foldl later Time.zero, none) ∧
        (∀ t ∈ completionStamps queueStatsLines,
          t.After (GetLastSentTime queueStats).1 = false) ∧
        ((∃ t ∈ completionStamps queueStatsLines, t.After Time.zero = true) →
          (GetLastSentTime queueStats).1 ∈ completionStamps queueStatsLines ∧
          (GetLastSentTime queueStats).1.After Time.zero = true) ∧
        ((∀ t ∈ completionStamps queueStatsLines, t.After Time.zero = false) →
          (GetLastSentTime queueStats).1 = Time.zero) ∧
        (completionStamps queueStatsLines = [] →
          (GetLastSentTime queueStats).1 = Time.zero)) :=
  ⟨by rfl, by rfl, GetLastSentTime_latest queueStats queueStatsLines (by rfl)⟩

/-! ## The reconciliation pass -/

theorem dropWhile_append_cons (a b : Str) (c : Char) (hc : isSpace c = false) :
    (a ++ c :: b).dropWhile isSpace = a.dropWhile isSpace ++ c :: b := by
  induction a with
  | nil =>
    have : ¬ isSpace c = true := by simp [hc]
    simp [List.dropWhile_cons_of_neg this]
  | cons x xs ih =>
    by_cases hx : isSpace x = true
    · rw [List.cons_append, List.dropWhile_cons_of_pos hx, List.dropWhile_cons_of_pos hx, ih]
    · rw [List.cons_append, List.dropWhile_cons_of_neg hx, List.dropWhile_cons_of_neg hx]
      rfl

theorem mem_TrimSpace_of_not_space (s : Str) (c : Char) (hm : c ∈ s) (hc : isSpace c = false) :
    c ∈ TrimSpace s := by
  obtain ⟨a, b, rfl⟩ := List.append_of_mem hm
  unfold TrimSpace
  rw [dropWhile_append_cons a b c hc, rdropWhile_append_cons _ _ c hc]
  simp

theorem reconcileLoop_eq (ls : List Str) :
    reconcileLoop ls = (ls.map reconcileLine, ls.any eligible) := by
  induction ls with
  | nil => rfl
  | cons x xs ih =>
    unfold reconcileLoop
    simp only [ih]
    by_cases h0 : TrimSpace x = []
    · have he : eligible x = false := by simp [eligible, h0]
      simp [h0, reconcileLine, he]
    · by_cases h1 : ';' ∉ TrimSpace x ∧ '@' ∈ TrimSpace x
      · have he : eligible x = true := by simp [eligible, h0, h1.1, h1.2]
        simp [h0, h1.1, h1.2, reconcileLine, he]
      · have he : eligible x = false := by
          simp only [eligible, decide_eq_false_iff_not]
          intro hc
          exact h1 ⟨hc.2.2, hc.2.1⟩
        have hr : reconcileLine x = x := by simp [reconcileLine, he]
        simp only [h0, if_false, h1]
        simp [hr, he]

theorem reconcilePrefix_eq :
    zeroStamp ++ fieldSep ++ StatusPending ++ fieldSep =
      "0000-00-00T00:00:00Z ; PENDING ; ".toList := by
  decide

theorem eligible_reconcileLine (l : Str) : eligible (reconcileLine l) = false := by
  unfold reconcileLine
  by_cases he : eligible l = true
  · simp only [he, if_true]
    have hsemi : ';' ∈ TrimSpace (zeroStamp ++ fieldSep ++ StatusPending ++ fieldSep ++
        TrimSpace l) := by
      apply mem_TrimSpace_of_not_space _ _ _ (by decide)
      simp [fieldSep]
    simp only [eligible, decide_eq_false_iff_not]
    intro hc
    exact hc.2.2 hsemi
  · have he2 : eligible l = false := by simpa using he
    simp [he2]

theorem reconcileLine_of_not_eligible (l : Str) (h : eligible l = false) :
    reconcileLine l = l := by
  simp [reconcileLine, h]

theorem reconcileLine_ne (l : Str) (h : eligible l = true) : reconcileLine l ≠ l := by
  intro e
  have := eligible_reconcileLine l
  rw [e, h] at this
  exact absurd this (by simp)

theorem reconcileLine_no_newline (l : Str) (h : '\n' ∉ l) : '\n' ∉ reconcileLine l := by
  unfold reconcileLine
  split
  · rw [reconcilePrefix_eq]
    intro hm
    rcases List.mem_append.1 hm with e | e
    · revert e
      decide
    · exact h (TrimSpace_subset l _ e)
  · exact h

theorem UpdateDataFile_eq (d : Disk) (text : Str) (hd : d.data = some text) :
    UpdateDataFile d =
      if (Split '\n' text).any eligible = true then
        writeLines d ((Split '\n' text).map reconcileLine)
      else (none, d) := by
  unfold UpdateDataFile
  simp only [hd, reconcileLoop_eq]

/-- C12: the reconciliation pass rewrites a line exactly when the line,
trimmed, is not empty, holds an `@` and holds no `;`; such a line becomes
`0000-00-00T00:00:00Z ; PENDING ; ` followed by the trimmed line, and every
other line is left as it was; the file is written when some line was
rewritten, and not otherwise. -/
theorem UpdateDataFile_rewrite_rule (d : Disk) (text : Str) (hd : d.data = some text)
    (hw : d.readOnly = false) :
    ∃ lines1 : List Str, lines1.length = (Split '\n' text).length ∧
      (∀ (j : Nat) (l : Str), (Split '\n' text)[j]? = some l →
        ((TrimSpace l ≠ [] ∧ '@' ∈ TrimSpace l ∧ ';' ∉ TrimSpace l) →
          lines1[j]? = some ("0000-00-00T00:00:00Z ; PENDING ; ".toList ++ TrimSpace l) ∧
          lines1[j]? ≠ some l) ∧
        (¬ (TrimSpace l ≠ [] ∧ '@' ∈ TrimSpace l ∧ ';' ∉ TrimSpace l) →
          lines1[j]? = some l)) ∧
      UpdateDataFile d =
        (none,
          if (Split '\n' text).any eligible = true then
            { d with data := some (Join lines1 ++ ['\n']) }
          else d) := by
  refine ⟨(Split '\n' text).map reconcileLine, by simp, ?_, ?_⟩
  · intro j l hj
    have hj1 : ((Split '\n' text).map reconcileLine)[j]? = some (reconcileLine l) := by
      rw [List.getElem?_map, hj]; rfl
    constructor
    · intro hc
      have he : eligible l = true := by simp [eligible, hc]
      have hnew : reconcileLine l =
          "0000-00-00T00:00:00Z ; PENDING ; ".toList ++ TrimSpace l := by
        rw [← reconcilePrefix_eq]
        simp [reconcileLine, he]
      refine ⟨by rw [hj1, hnew], ?_⟩
      rw [hj1]
      intro e
      exact reconcileLine_ne l he (Option.some.inj e)
    · intro hc
      have he : eligible l = false := by simp [eligible, hc]
      rw [hj1, reconcileLine_of_not_eligible l he]
  · rw [UpdateDataFile_eq d text hd]
    by_cases hany : (Split '\n' text).any eligible = true
    · simp [hany, writeLines, hw]
    · simp [hany]

/-- C12 on a file with the bare address `foo@bar.com`, a record, a blank line
and a note without `@`: only the address is rewritten. -/
theorem UpdateDataFile_rewrite_rule_witness :
    rawFile.data =
        some ("foo@bar.com\n2024-03-09T10:00:00Z ; DONE ; c@x.io\n\nto do: ask bob\n").toList ∧
      rawFile.readOnly = false ∧
      UpdateDataFile rawFile =
        (none, ⟨some ("0000-00-00T00:00:00Z ; PENDING ; foo@bar.com\n" ++
          "2024-03-09T10:00:00Z ; DONE ; c@x.io\n\nto do: ask bob\n\n").toList, false⟩) ∧
      ∃ lines1 : List Str,
        lines1.length = (Split '\n' ("foo@bar.com\n2024-03-09T10:00:00Z ; DONE ; c@x.io\n\n" ++
          "to do: ask bob\n").toList).length ∧
        (∀ (j : Nat) (l : Str),
          (Split '\n' ("foo@bar.com\n2024-03-09T10:00:00Z ; DONE ; c@x.io\n\n" ++
            "to do: ask bob\n").toList)[j]? = some l →
          ((TrimSpace l ≠ [] ∧ '@' ∈ TrimSpace l ∧ ';' ∉ TrimSpace l) →
            lines1[j]? = some ("0000-00-00T00:00:00Z ; PENDING ; ".toList ++ TrimSpace l) ∧
            lines1[j]? ≠ some l) ∧
          (¬ (TrimSpace l ≠ [] ∧ '@' ∈ TrimSpace l ∧ ';' ∉ TrimSpace l) →
            lines1[j]? = some l)) ∧
        UpdateDataFile rawFile =
          (none,
            if (Split '\n' ("foo@bar.com\n2024-03-09T10:00:00Z ; DONE ; c@x.io\n\n" ++
                "to do: ask bob\n").toList).any eligible = true then
              { rawFile with data := some (Join lines1 ++ ['\n']) }
            else rawFile) :=
  ⟨by rfl, rfl, by rfl, UpdateDataFile_rewrite_rule rawFile _ (by rfl) rfl⟩

/-- C13: a second reconciliation pass on the file the first pass left changes
nothing: its loop rewrites no line and reports no change, it does not write
the file, and the file after two passes is the file after one. -/
theorem UpdateDataFile_idempotent (d : Disk) :
    (UpdateDataFile (UpdateDataFile d).2).2 = (UpdateDataFile d).2 ∧
      ((UpdateDataFile d).1 = none →
        UpdateDataFile (UpdateDataFile d).2 = (none, (UpdateDataFile d).2) ∧
        ∀ text, (UpdateDataFile d).2.data = some text →
          reconcileLoop (Split '\n' text) = (Split '\n' text, false)) := by
  have hfix : ∀ ls : List Str, ls.any eligible = false →
      reconcileLoop ls = (ls, false) := by
    intro ls h
    rw [reconcileLoop_eq, h]
    congr 1
    have hall : ∀ x ∈ ls, eligible x = false := by
      intro x hx
      by_contra hc
      have : ls.any eligible = true := List.any_eq_true.2 ⟨x, hx, by simpa using hc⟩
      rw [h] at this
      exact absurd this (by simp)
    calc ls.map reconcileLine = ls.map id :=
          List.map_congr_left (fun x hx => reconcileLine_of_not_eligible x (hall x hx))
      _ = ls := List.map_id ls
  cases hd : d.data with
  | none =>
    have h1 : UpdateDataFile d = (some .io, d) := by
      unfold UpdateDataFile
      simp only [hd]
    rw [h1]
    simp [h1]
  | some text =>
    by_cases hany : (Split '\n' text).any eligible = true
    · by_cases hw : d.readOnly = true
      · have h1 : UpdateDataFile d = (some .io, d) := by
          rw [UpdateDataFile_eq d text hd]
          simp [hany, writeLines, hw]
        rw [h1]
        simp [h1]
      · have hw2 : d.readOnly = false := by simpa using hw
        have h1 : UpdateDataFile d =
            (none, { d with
              data := some (Join ((Split '\n' text).map reconcileLine) ++ ['\n']) }) := by
          rw [UpdateDataFile_eq d text hd]
          simp [hany, writeLines, hw2]
        have hne : (Split '\n' text).map reconcileLine ≠ [] := by
          intro e
          exact Split_ne_nil '\n' text (by simpa using e)
        have hnl : ∀ x ∈ (Split '\n' text).map reconcileLine, '\n' ∉ x := by
          intro x hx
          obtain ⟨y, hy, e⟩ := List.mem_map.1 hx
          rw [← e]
          exact reconcileLine_no_newline y (Split_pieces '\n' text y hy).1
        have hsplit := Split_Join_newline _ hne hnl
        have hany2 : ((Split '\n' text).map reconcileLine ++ [[]]).any eligible = false := by
          rw [Bool.eq_false_iff]
          intro hc
          obtain ⟨x, hx, hex⟩ := List.any_eq_true.1 hc
          rcases List.mem_append.1 hx with e | e
          · obtain ⟨y, _, e2⟩ := List.mem_map.1 e
            rw [← e2, eligible_reconcileLine] at hex
            exact absurd hex (by simp)
          · have : x = [] := by simpa using e
            rw [this] at hex
            revert hex
            decide
        have h2 : UpdateDataFile (UpdateDataFile d).2 = (none, (UpdateDataFile d).2) := by
          rw [h1]
          rw [UpdateDataFile_eq _ (Join ((Split '\n' text).map reconcileLine) ++ ['\n']) rfl]
          rw [hsplit, hany2]
          simp
        refine ⟨by rw [h2], fun _ => ⟨h2, ?_⟩⟩
        intro t ht
        rw [h1] at ht
        have : t = Join ((Split '\n' text).map reconcileLine) ++ ['\n'] :=
          (Option.some.inj ht).symm
        rw [this, hsplit]
        exact hfix _ hany2
    · have hany2 : (Split '\n' text).any eligible = false := by simpa using hany
      have h1 : UpdateDataFile d = (none, d) := by
        rw [UpdateDataFile_eq d text hd]
        simp [hany2]
      rw [h1]
      refine ⟨by rw [h1], fun _ => ⟨h1, ?_⟩⟩
      intro t ht
      rw [hd] at ht
      have : t = text := (Option.some.inj ht).symm
      rw [this]
      exact hfix _ hany2

/-- C13 on the file with a bare address: the first pass rewrites it, the
second pass returns the file of the first. -/
theorem UpdateDataFile_idempotent_witness :
    (UpdateDataFile rawFile).2 ≠ rawFile ∧
      UpdateDataFile (UpdateDataFile rawFile).2 = (none, (UpdateDataFile rawFile).2) ∧
      ((UpdateDataFile (UpdateDataFile rawFile).2).2 = (UpdateDataFile rawFile).2 ∧
        ((UpdateDataFile rawFile).1 = none →
          UpdateDataFile (UpdateDataFile rawFile).2 = (none, (UpdateDataFile rawFile).2) ∧
          ∀ text, (UpdateDataFile rawFile).2.data = some text →
            reconcileLoop (Split '\n' text) = (Split '\n' text, false))) :=
  ⟨by decide, by rfl, UpdateDataFile_idempotent rawFile⟩

/-! ## The dispatcher -/

theorem tickClaim_stopped (s : DispatcherState) (o : Option Recipient × Option Err)
    (h : s.booted = false) : tickClaim s o.1 o.2 = s := by
  simp [tickClaim, h]

theorem tickClaim_not_empty (s : DispatcherState) (o : Option Recipient × Option Err)
    (h : s.booted = true) (ho : isEmptyPoll o = false) :
    tickClaim s o.1 o.2 = ⟨true, 0⟩ := by
  obtain ⟨b, n⟩ := s
  obtain ⟨r, e⟩ := o
  simp only at h
  subst h
  cases e with
  | some e =>
    have : e ≠ .ErrNoPendingRecipients := by simpa [isEmptyPoll] using ho
    simp [tickClaim, this]
  | none =>
    cases r with
    | none => simp [isEmptyPoll] at ho
    | some r => simp [tickClaim]

theorem tickClaim_empty (s : DispatcherState) (o : Option Recipient × Option Err)
    (h : s.booted = true) (ho : isEmptyPoll o = true) :
    tickClaim s o.1 o.2 =
      if s.noPendingCount + 1 ≥ 3 then ⟨false, 0⟩ else ⟨true, s.noPendingCount + 1⟩ := by
  obtain ⟨b, n⟩ := s
  obtain ⟨r, e⟩ := o
  simp only at h
  subst h
  cases e with
  | some e =>
    have : e = .ErrNoPendingRecipients := by simpa [isEmptyPoll] using ho
    subst this
    simp [tickClaim]
  | none =>
    cases r with
    | none => simp [tickClaim]
    | some r => simp [isEmptyPoll] at ho

theorem runTicks_concat (s : DispatcherState) (os : List (Option Recipient × Option Err))
    (o : Option Recipient × Option Err) :
    runTicks s (os ++ [o]) = tickClaim (runTicks s os) o.1 o.2 := by
  simp [runTicks, List.foldl_append]

theorem emptyStreak_concat (os : List (Option Recipient × Option Err))
    (o : Option Recipient × Option Err) :
    emptyStreak (os ++ [o]) = if isEmptyPoll o = true then emptyStreak os + 1 else 0 := by
  unfold emptyStreak
  rw [List.reverse_append]
  by_cases h : isEmptyPoll o = true
  · simp [List.takeWhile, h]
  · simp [List.takeWhile, h]

theorem runTicks_state (os : List (Option Recipient × Option Err)) :
    ((runTicks ⟨true, 0⟩ os).booted = true →
        (runTicks ⟨true, 0⟩ os).noPendingCount = (emptyStreak os : Int) ∧ emptyStreak os ≤ 2) ∧
      ((runTicks ⟨true, 0⟩ os).booted = false → (runTicks ⟨true, 0⟩ os).noPendingCount = 0) := by
  induction os using List.reverseRecOn with
  | nil => simp [runTicks, emptyStreak]
  | append_singleton os o ih =>
    rw [runTicks_concat, emptyStreak_concat]
    by_cases hb : (runTicks ⟨true, 0⟩ os).booted = true
    · obtain ⟨hn, hle⟩ := ih.1 hb
      by_cases ho : isEmptyPoll o = true
      · rw [tickClaim_empty _ o hb ho, hn]
        simp only [ho, if_true]
        by_cases h3 : (emptyStreak os : Int) + 1 ≥ 3
        · simp [h3]
        · simp only [h3, if_false]
          refine ⟨fun _ => ⟨by push_cast; rfl, by omega⟩, fun h => absurd h (by simp)⟩
      · have ho2 : isEmptyPoll o = false := by simpa using ho
        rw [tickClaim_not_empty _ o hb ho2]
        simp [ho2]
    · have hb2 : (runTicks ⟨true, 0⟩ os).booted = false := by simpa using hb
      rw [tickClaim_stopped _ o hb2]
      exact ⟨fun h => absurd h hb, ih.2⟩

/-- C14: with the tick as a step on `booted` and `noPendingCount`, started
RUNNING with the counter at 0: three empty polls in a row stop the dispatcher
on the third and not before; as long as it runs the counter is the number of
empty polls at the end of the run, at most 2, and the tick that stops it is
exactly an empty poll after two; the counter is 0 right after the stop; a
successful claim and an error other than `ErrNoPendingRecipients` set it
to 0; so between ticks it is 0, 1 or 2. An empty poll is what `GetNextPending`
reports as `ErrNoPendingRecipients`. -/
theorem dispatcher_auto_stop :
    (∀ o1 o2 o3, isEmptyPoll o1 = true → isEmptyPoll o2 = true → isEmptyPoll o3 = true →
        runTicks ⟨true, 0⟩ [o1] = ⟨true, 1⟩ ∧ runTicks ⟨true, 0⟩ [o1, o2] = ⟨true, 2⟩ ∧
        runTicks ⟨true, 0⟩ [o1, o2, o3] = ⟨false, 0⟩) ∧
      (∀ os, (runTicks ⟨true, 0⟩ os).booted = true →
        (runTicks ⟨true, 0⟩ os).noPendingCount = (emptyStreak os : Int) ∧
        emptyStreak os ≤ 2) ∧
      (∀ os o, (runTicks ⟨true, 0⟩ os).booted = true →
        ((runTicks ⟨true, 0⟩ (os ++ [o])).booted = false ↔
          isEmptyPoll o = true ∧ emptyStreak os = 2)) ∧
      (∀ os, (runTicks ⟨true, 0⟩ os).booted = false →
        (runTicks ⟨true, 0⟩ os).noPendingCount = 0) ∧
      (∀ s o, s.booted = true → isEmptyPoll o = false → tickClaim s o.1 o.2 = ⟨true, 0⟩) ∧
      (∀ os, 0 ≤ (runTicks ⟨true, 0⟩ os).noPendingCount ∧
        (runTicks ⟨true, 0⟩ os).noPendingCount ≤ 2) ∧
      (∀ res, isEmptyPoll (claimResult res) = true ↔ res = .error .ErrNoPendingRecipients) ∧
      (∀ now s d, s.booted = true →
        (tick now s d).1 =
          tickClaim s (claimResult (GetNextPending now d).1).1
            (claimResult (GetNextPending now d).1).2) := by
  refine ⟨?_, ?_, ?_, ?_, ?_, ?_, ?_, ?_⟩
  · intro o1 o2 o3 h1 h2 h3
    have e1 : runTicks ⟨true, 0⟩ [o1] = ⟨true, 1⟩ := by
      show tickClaim ⟨true, 0⟩ o1.1 o1.2 = _
      rw [tickClaim_empty _ o1 rfl h1]
      rfl
    have e2 : runTicks ⟨true, 0⟩ [o1, o2] = ⟨true, 2⟩ := by
      have : runTicks ⟨true, 0⟩ ([o1] ++ [o2]) = _ := runTicks_concat _ [o1] o2
      rw [e1, tickClaim_empty _ o2 rfl h2] at this
      exact this
    have e3 : runTicks ⟨true, 0⟩ [o1, o2, o3] = ⟨false, 0⟩ := by
      have : runTicks ⟨true, 0⟩ ([o1, o2] ++ [o3]) = _ := runTicks_concat _ [o1, o2] o3
      rw [e2, tickClaim_empty _ o3 rfl h3] at this
      exact this
    exact ⟨e1, e2, e3⟩
  · intro os hb
    exact (runTicks_state os).1 hb
  · intro os o hb
    obtain ⟨hn, hle⟩ := (runTicks_state os).1 hb
    rw [runTicks_concat]
    by_cases ho : isEmptyPoll o = true
    · rw [tickClaim_empty _ o hb ho, hn]
      by_cases h3 : (emptyStreak os : Int) + 1 ≥ 3
      · simp only [h3, if_true, ho, true_and, true_iff]
        omega
      · simp only [h3, if_false, ho, true_and]
        constructor
        · intro h; exact absurd h (by simp)
        · intro h; omega
    · have ho2 : isEmptyPoll o = false := by simpa using ho
      rw [tickClaim_not_empty _ o hb ho2]
      simp [ho2]
  · intro os hb
    exact (runTicks_state os).2 hb
  · intro s o hb ho
    exact tickClaim_not_empty s o hb ho
  · intro os
    by_cases hb : (runTicks ⟨true, 0⟩ os).booted = true
    · obtain ⟨hn, hle⟩ := (runTicks_state os).1 hb
      rw [hn]
      omega
    · have := (runTicks_state os).2 (by simpa using hb)
      rw [this]
      omega
  · intro res
    cases res with
    | error e => cases e <;> simp [claimResult, isEmptyPoll]
    | ok r => simp [claimResult, isEmptyPoll]
  · intro now s d hb
    simp [tick, hb]

/-- C14 on concrete runs: three empty polls stop the dispatcher on the third;
a failed read or a claim after two empty polls sets the counter back, and
three more empty polls are needed. -/
theorem dispatcher_auto_stop_witness :
    runTicks ⟨true, 0⟩ [pollEmpty, pollEmpty] = ⟨true, 2⟩ ∧
      runTicks ⟨true, 0⟩ [pollEmpty, pollEmpty, pollEmpty] = ⟨false, 0⟩ ∧
      runTicks ⟨true, 0⟩ [pollEmpty, pollEmpty, pollFailed, pollEmpty, pollEmpty] = ⟨true, 2⟩ ∧
      runTicks ⟨true, 0⟩ [pollEmpty, pollEmpty, pollClaimed, pollEmpty] = ⟨true, 1⟩ ∧
      (tick noon ⟨true, 2⟩ queueDup).1 = ⟨false, 0⟩ ∧
      (tick noon ⟨true, 2⟩ queueABC).1 = ⟨true, 0⟩ ∧
      (runTicks ⟨true, 0⟩ [pollEmpty] = ⟨true, 1⟩ ∧
        runTicks ⟨true, 0⟩ [pollEmpty, pollEmpty] = ⟨true, 2⟩ ∧
        runTicks ⟨true, 0⟩ [pollEmpty, pollEmpty, pollEmpty] = ⟨false, 0⟩) :=
  ⟨by decide, by decide, by decide, by decide, by rfl, by rfl,
    dispatcher_auto_stop.1 pollEmpty pollEmpty pollEmpty rfl rfl rfl⟩

/-! ## The rate limit -/

theorem wrap64_id (x : Int) (h1 : -9223372036854775808 ≤ x) (h2 : x ≤ 9223372036854775807) :
    wrap64 x = x := by
  unfold wrap64
  omega

theorem Sub_range (t u : Time) : minDuration ≤ t.Sub u ∧ t.Sub u ≤ maxDuration := by
  unfold Time.Sub maxDuration minDuration
  simp only
  split
  · omega
  · split <;> omega

/-- C15, the claim refuted: the last completion is stamped 13:00 and the
clock reads 12:00 of the same day; with a delay of 30 seconds the dispatcher
waits one hour and 30 seconds, which is more than the delay. -/
theorem wait_exceeds_delay_for_future_completion :
    GetLastSentTime queueFuture = (⟨2024, 3, 9, 13, 0, 0, 0, 0⟩, none) ∧
      noonSharp.Sub ⟨2024, 3, 9, 13, 0, 0, 0, 0⟩ = -(3600 * Second) ∧
      dispatchWait noonSharp queueFuture 30 = 3630 * Second ∧
      3630 * Second > 30 * Second :=
  ⟨by rfl, by decide, by decide, by decide⟩

/-- C15, amended: when `GetLastSentTime` failed or returned the zero time the
wait is 0; otherwise, for a delay of 0 to 9223372036 seconds and a last
completion that is not in the future (`elapsed` is not negative), the wait is
`delay - elapsed` when `elapsed < delay` and 0 when `elapsed ≥ delay`, so it is
never negative and never exceeds `delay`. -/
theorem rateLimitWait_bounds (now lastSentTime : Time) (err : Option Err)
    (delaySeconds : Int) :
    ((err ≠ none ∨ lastSentTime.IsZero = true) →
        rateLimitWait now lastSentTime err delaySeconds = 0) ∧
      (err = none → lastSentTime.IsZero = false → 0 ≤ delaySeconds →
        delaySeconds ≤ 9223372036 → 0 ≤ now.Sub lastSentTime →
        (now.Sub lastSentTime < delaySeconds * Second →
          rateLimitWait now lastSentTime err delaySeconds =
            delaySeconds * Second - now.Sub lastSentTime) ∧
        (delaySeconds * Second ≤ now.Sub lastSentTime →
          rateLimitWait now lastSentTime err delaySeconds = 0) ∧
        0 ≤ rateLimitWait now lastSentTime err delaySeconds ∧
        rateLimitWait now lastSentTime err delaySeconds ≤ delaySeconds * Second) := by
  constructor
  · intro h
    unfold rateLimitWait
    rcases h with h | h
    · simp [h]
    · simp [h]
  · intro he hz h0 h1 hel
    have hr := Sub_range now lastSentTime
    unfold maxDuration minDuration at hr
    obtain ⟨D, hD, hD0, hD1⟩ : ∃ D : Int, delaySeconds * Second = D ∧ 0 ≤ D ∧
        D ≤ 9223372036000000000 := by
      refine ⟨delaySeconds * 1000000000, rfl, ?_, ?_⟩ <;> omega
    have hd : wrap64 D = D := by
      apply wrap64_id <;> omega
    have hval : rateLimitWait now lastSentTime err delaySeconds =
        if now.Sub lastSentTime < D then wrap64 (D - now.Sub lastSentTime) else 0 := by
      unfold rateLimitWait
      simp only [he, hz, and_self, if_true, hD, hd]
    rw [hval, hD]
    by_cases hlt : now.Sub lastSentTime < D
    · have hw : wrap64 (D - now.Sub lastSentTime) = D - now.Sub lastSentTime := by
        apply wrap64_id <;> omega
      rw [if_pos hlt, hw]
      refine ⟨fun _ => rfl, fun h => ?_, ?_, ?_⟩ <;> omega
    · rw [if_neg hlt]
      exact ⟨fun h => absurd h hlt, fun _ => rfl, le_refl 0, hD0⟩

/-- C15, amended, with the last completion ten seconds before the clock and a
delay of 30 seconds: the wait is 20 seconds, at least 20 and less than 30. -/
theorem rateLimitWait_bounds_witness :
    GetLastSentTime queueTenSecondsAgo = (⟨2024, 3, 9, 11, 59, 50, 0, 0⟩, none) ∧
      noonSharp.Sub ⟨2024, 3, 9, 11, 59, 50, 0, 0⟩ = 10 * Second ∧
      dispatchWait noonSharp queueTenSecondsAgo 30 = 20 * Second ∧
      20 * Second ≤ dispatchWait noonSharp queueTenSecondsAgo 30 ∧
      dispatchWait noonSharp queueTenSecondsAgo 30 < 30 * Second ∧
      ((noonSharp.Sub ⟨2024, 3, 9, 11, 59, 50, 0, 0⟩ < 30 * Second →
          rateLimitWait noonSharp ⟨2024, 3, 9, 11, 59, 50, 0, 0⟩ none 30 =
            30 * Second - noonSharp.Sub ⟨2024, 3, 9, 11, 59, 50, 0, 0⟩) ∧
        (30 * Second ≤ noonSharp.Sub ⟨2024, 3, 9, 11, 59, 50, 0, 0⟩ →
          rateLimitWait noonSharp ⟨2024, 3, 9, 11, 59, 50, 0, 0⟩ none 30 = 0) ∧
        0 ≤ rateLimitWait noonSharp ⟨2024, 3, 9, 11, 59, 50, 0, 0⟩ none 30 ∧
        rateLimitWait noonSharp ⟨2024, 3, 9, 11, 59, 50, 0, 0⟩ none 30 ≤ 30 * Second) :=
  ⟨by rfl, by decide, by decide, by decide, by decide,
    (rateLimitWait_bounds noonSharp ⟨2024, 3, 9, 11, 59, 50, 0, 0⟩ none 30).2 rfl (by decide)
      (by decide) (by decide) (by decide)⟩

/-! ## Lines and emails across the operations -/

theorem emailAt_map_dropCR (ls : List Str) (j : Nat) :
    emailAt (ls.map dropCR) j = emailAt ls j := by
  unfold emailAt
  rw [List.getElem?_map]
  cases ls[j]? with
  | none => rfl
  | some x =>
    show (parseDBLine (dropCR x)).map _ = (parseDBLine x).map _
    rw [parseDBLine_dropCR]

theorem emailAt_set (lines : List Str) (i : Nat) (l new : Str) (hl : lines[i]? = some l)
    (hem : (parseDBLine new).map (fun r => r.Email) = (parseDBLine l).map (fun r => r.Email))
    (j : Nat) : emailAt (lines.set i new) j = emailAt lines j := by
  have hi : i < lines.length := by
    by_contra hn
    rw [List.getElem?_eq_none (by omega)] at hl
    exact absurd hl (by simp)
  unfold emailAt
  by_cases hji : i = j
  · subst hji
    rw [List.getElem?_set_self hi, hl]
    exact hem
  · rw [List.getElem?_set_ne hji]

theorem emailAt_map (lines : List Str) (f : Str → Str)
    (hf : ∀ l ∈ lines,
      (parseDBLine (f l)).map (fun r => r.Email) = (parseDBLine l).map (fun r => r.Email))
    (j : Nat) : emailAt (lines.map f) j = emailAt lines j := by
  unfold emailAt
  rw [List.getElem?_map]
  cases hj : lines[j]? with
  | none => rfl
  | some x => exact hf x (List.getElem?_mem hj)

theorem same_queue_after_write (d : Disk) (lines lines2 : List Str) (hw : d.readOnly = false)
    (hne : lines2 ≠ []) (hnl : ∀ x ∈ lines2, '\n' ∉ x) (hlen : lines2.length = lines.length)
    (hem : ∀ j, emailAt lines2 j = emailAt lines j) (hf : Fits (writeLines d lines2).2) :
    ∃ lines1 : List Str, readLines (writeLines d lines2).2 = .ok lines1 ∧
      lines1.length = lines.length ∧ ∀ j, emailAt lines1 j = emailAt lines j := by
  refine ⟨lines2.map dropCR, (readLines_after_write d lines2 hw hne hnl hf).2,
    by simpa using hlen, fun j => ?_⟩
  rw [emailAt_map_dropCR, hem]

theorem GetNextPending_same_queue (now : Time) (d : Disk) (lines : List Str)
    (hread : readLines d = .ok lines) (hf : Fits (GetNextPending now d).2) :
    ∃ lines1 : List Str, readLines (GetNextPending now d).2 = .ok lines1 ∧
      lines1.length = lines.length ∧ ∀ j, emailAt lines1 j = emailAt lines j := by
  by_cases hex : ∃ l ∈ lines, isPendingLine l = true
  · obtain ⟨i, l, hfirst⟩ := exists_FirstAt isPendingLine lines hex
    obtain ⟨r, hr, _⟩ := pending_of_isPendingLine l hfirst.2.1
    by_cases hw : d.readOnly = true
    · have hg : (GetNextPending now d).2 = d := by
        unfold GetNextPending
        simp [hread, claimLoop_FirstAt now lines i l r hfirst hr, writeLines, hw]
      rw [hg]
      exact ⟨lines, hread, rfl, fun _ => rfl⟩
    · have hw2 : d.readOnly = false := by simpa using hw
      have hi := FirstAt_lt _ _ _ _ hfirst
      have hnl0 := readLines_no_newline d lines hread
      have hnew := claimed_no_newline now l r hr (hnl0 l (List.getElem?_mem hfirst.1))
      have hnl : ∀ x ∈ lines.set i (claimed now r).String, '\n' ∉ x := by
        intro x hx
        rcases mem_set_cases _ _ _ _ hx with e | e
        · rw [e]; exact hnew
        · exact hnl0 x e
      have hg : (GetNextPending now d).2 =
          (writeLines d (lines.set i (claimed now r).String)).2 := by
        rw [GetNextPending_of_FirstAt now d lines i l r hread hw2 hfirst hr]
        simp [writeLines, hw2]
      obtain ⟨r2, hp2, _, he2, _⟩ := claimed_parses now l r hr
      rw [hg] at hf
      rw [hg]
      refine same_queue_after_write d lines _ hw2 (set_ne_nil lines i _ hi) hnl (by simp) ?_ hf
      apply emailAt_set lines i l _ hfirst.1
      rw [hp2, hr]
      simp [he2]
  · have hno : ∀ l ∈ lines, isPendingLine l = false := by
      intro l hl
      by_contra hc
      exact hex ⟨l, hl, by simpa using hc⟩
    rw [GetNextPending_none now d lines hread hno]
    exact ⟨lines, hread, rfl, fun _ => rfl⟩

theorem resetLine_email (now : Time) (timeout : Int) (l : Str) :
    (parseDBLine (resetLine now timeout l)).map (fun r => r.Email) =
      (parseDBLine l).map (fun r => r.Email) := by
  by_cases hs : isStale now timeout l = true
  · obtain ⟨r, hp, _, _, _, hline⟩ := stale_of_isStale now timeout l hs
    obtain ⟨r2, hp2, _, he2, _⟩ := resetRecord_parses l r hp
    rw [hline, hp2, hp]
    simp [he2]
  · rw [resetLine_not_stale now timeout l (by simpa using hs)]

theorem ResetStuckSending_same_queue (now : Time) (d : Disk) (timeout : Int)
    (lines : List Str) (hread : readLines d = .ok lines)
    (hf : Fits (ResetStuckSending now d timeout).2) :
    ∃ lines1 : List Str, readLines (ResetStuckSending now d timeout).2 = .ok lines1 ∧
      lines1.length = lines.length ∧ ∀ j, emailAt lines1 j = emailAt lines j := by
  by_cases hc : 0 < lines.countP (isStale now timeout) ∧ d.readOnly = false
  · obtain ⟨hc, hw⟩ := hc
    have hg : (ResetStuckSending now d timeout).2 =
        (writeLines d (lines.map (resetLine now timeout))).2 := by
      unfold ResetStuckSending
      simp [hread, resetLoop_eq, hc]
    have hne : lines.map (resetLine now timeout) ≠ [] := by
      intro e
      have : lines = [] := by simpa using e
      rw [this] at hc
      simp at hc
    have hnl0 := readLines_no_newline d lines hread
    have hnl : ∀ x ∈ lines.map (resetLine now timeout), '\n' ∉ x := by
      intro x hx
      obtain ⟨y, hy, e⟩ := List.mem_map.1 hx
      rw [← e]
      exact resetLine_no_newline now timeout y (hnl0 y hy)
    rw [hg] at hf
    rw [hg]
    exact same_queue_after_write d lines _ hw hne hnl (by simp)
      (emailAt_map lines _ (fun l _ => resetLine_email now timeout l)) hf
  · have hg : (ResetStuckSending now d timeout).2 = d := by
      unfold ResetStuckSending
      simp only [hread, resetLoop_eq]
      by_cases h0 : 0 < lines.countP (isStale now timeout)
      · have hw : d.readOnly = true := by
          by_contra hw
          exact hc ⟨h0, by simpa using hw⟩
        simp [h0, writeLines, hw]
      · simp [h0]
    rw [hg]
    exact ⟨lines, hread, rfl, fun _ => rfl⟩

theorem UpdateStatus_same_queue (now : Time) (d : Disk) (lines : List Str)
    (email status msg : Str) (hread : readLines d = .ok lines) (hst : IsStatus status)
    (hm : '\n' ∉ msg) (hne : lines ≠ [])
    (hf : Fits (UpdateStatus now d email status msg).2) :
    ∃ lines1 : List Str, readLines (UpdateStatus now d email status msg).2 = .ok lines1 ∧
      lines1.length = lines.length ∧ ∀ j, emailAt lines1 j = emailAt lines j := by
  have hs : '\n' ∉ status := (IsStatus_clean status hst).2.1
  by_cases hw : d.readOnly = true
  · have hg : (UpdateStatus now d email status msg).2 = d := by
      rw [UpdateStatus_eq]
      unfold updateRecord
      simp [hread, writeLines, hw]
    rw [hg]
    exact ⟨lines, hread, rfl, fun _ => rfl⟩
  · have hw2 : d.readOnly = false := by simpa using hw
    have hnl0 := readLines_no_newline d lines hread
    by_cases hex : ∃ l ∈ lines, hasEmail email l = true
    · obtain ⟨i, l, hfirst⟩ := exists_FirstAt (hasEmail email) lines hex
      obtain ⟨r, hr, _⟩ := email_of_hasEmail email l hfirst.2.1
      have hi := FirstAt_lt _ _ _ _ hfirst
      have hnew := updated_no_newline now status msg l r hr
        (hnl0 l (List.getElem?_mem hfirst.1)) hs hm
      have hnl : ∀ x ∈ lines.set i (updated now status msg r).String, '\n' ∉ x := by
        intro x hx
        rcases mem_set_cases _ _ _ _ hx with e | e
        · rw [e]; exact hnew
        · exact hnl0 x e
      have hg : (UpdateStatus now d email status msg).2 =
          (writeLines d (lines.set i (updated now status msg r).String)).2 := by
        rw [UpdateStatus_of_FirstAt now d lines email status msg i l r hread hw2 hfirst hr]
        simp [writeLines, hw2]
      obtain ⟨r1, hp1, _, he1, _⟩ := updated_parses now status msg l r hr hst
      rw [hg] at hf
      rw [hg]
      refine same_queue_after_write d lines _ hw2 (set_ne_nil lines i _ hi) hnl (by simp) ?_ hf
      apply emailAt_set lines i l _ hfirst.1
      rw [hp1, hr]
      simp [he1]
    · have hno : ∀ l ∈ lines, hasEmail email l = false := by
        intro l hl
        by_contra hc
        exact hex ⟨l, hl, by simpa using hc⟩
      have hg : (UpdateStatus now d email status msg).2 = (writeLines d lines).2 := by
        rw [UpdateStatus_no_match now d lines email status msg hread hw2 hno]
        simp [writeLines, hw2]
      rw [hg] at hf
      rw [hg]
      exact same_queue_after_write d lines lines hw2 hne hnl0 rfl (fun _ => rfl) hf

/-- C17, the claim refuted: on an empty file `UpdateStatus` writes a single
newline, so the file read back has one line where it had none. -/
theorem UpdateStatus_adds_line_to_empty_file :
    readLines emptyFile = .ok [] ∧
      UpdateStatus noon emptyFile "a@x.io".toList StatusDone [] =
        (none, ⟨some ['\n'], false⟩) ∧
      readLines (UpdateStatus noon emptyFile "a@x.io".toList StatusDone []).2 = .ok [[]] ∧
      ([[]] : List Str).length ≠ ([] : List Str).length :=
  ⟨by rfl, by rfl, by rfl, by decide⟩

/-- C17, amended: when no line of the file after the call has
`MaxScanTokenSize` bytes or more, the file read back after `GetNextPending`
and after `ResetStuckSending` has as many lines as before, the same positions
parse as records, and each carries the email it had; the same holds after
`UpdateStatus` when in addition the file has at least one line, the status is
one of the five and the message has no line break. -/
theorem queue_structure_kept (now : Time) (d : Disk) (lines : List Str)
    (hread : readLines d = .ok lines) :
    (Fits (GetNextPending now d).2 →
        ∃ lines1 : List Str, readLines (GetNextPending now d).2 = .ok lines1 ∧
        lines1.length = lines.length ∧ ∀ j, emailAt lines1 j = emailAt lines j) ∧
      (∀ timeout, Fits (ResetStuckSending now d timeout).2 → ∃ lines1 : List Str,
        readLines (ResetStuckSending now d timeout).2 = .ok lines1 ∧
        lines1.length = lines.length ∧ ∀ j, emailAt lines1 j = emailAt lines j) ∧
      (∀ email status msg, IsStatus status → '\n' ∉ msg → lines ≠ [] →
        Fits (UpdateStatus now d email status msg).2 →
        ∃ lines1 : List Str, readLines (UpdateStatus now d email status msg).2 = .ok lines1 ∧
          lines1.length = lines.length ∧ ∀ j, emailAt lines1 j = emailAt lines j) :=
  ⟨GetNextPending_same_queue now d lines hread,
    fun timeout => ResetStuckSending_same_queue now d timeout lines hread,
    fun email status msg hst hm hne =>
      UpdateStatus_same_queue now d lines email status msg hread hst hm hne⟩

/-- C17, amended, on the file PENDING(a), DONE(b), PENDING(c), whose lines
stay short under each operation. -/
theorem queue_structure_kept_witness :
    readLines queueABC = .ok queueABCLines ∧
      (List.range 4).map (emailAt queueABCLines) =
        [some "a@x.io".toList, some "b@x.io".toList, some "c@x.io".toList, none] ∧
      Fits (GetNextPending noon queueABC).2 ∧
      Fits (ResetStuckSending noon queueABC fiveMinutes).2 ∧
      Fits (UpdateStatus noon queueABC "a@x.io".toList StatusDone []).2 ∧
      (Fits (GetNextPending noon queueABC).2 →
        ∃ lines1 : List Str, readLines (GetNextPending noon queueABC).2 = .ok lines1 ∧
        lines1.length = queueABCLines.length ∧
        ∀ j, emailAt lines1 j = emailAt queueABCLines j) ∧
      (∀ timeout, Fits (ResetStuckSending noon queueABC timeout).2 → ∃ lines1 : List Str,
        readLines (ResetStuckSending noon queueABC timeout).2 = .ok lines1 ∧
        lines1.length = queueABCLines.length ∧
        ∀ j, emailAt lines1 j = emailAt queueABCLines j) ∧
      (∀ email status msg, IsStatus status → '\n' ∉ msg → queueABCLines ≠ [] →
        Fits (UpdateStatus noon queueABC email status msg).2 →
        ∃ lines1 : List Str,
          readLines (UpdateStatus noon queueABC email status msg).2 = .ok lines1 ∧
          lines1.length = queueABCLines.length ∧
          ∀ j, emailAt lines1 j = emailAt queueABCLines j) :=
  ⟨by rfl, by decide, by decide, by decide, by decide,
    queue_structure_kept noon queueABC queueABCLines (by rfl)⟩
/-! ## An update without a message -/

/-- C19: `UpdateStatus` with an empty error message and a status of the five
leaves the error of the record it targets as it was: the line written for the
first record with the given email parses to the given status, the same email
and the error the record had before; and when no line of the file written has
`MaxScanTokenSize` bytes or more, the file read back holds that line at the
record's position. -/
theorem UpdateStatus_empty_message_keeps_error (now : Time) (d : Disk) (lines : List Str)
    (email status : Str) (i : Nat) (l : Str) (r : dbRecord)
    (hread : readLines d = .ok lines) (hw : d.readOnly = false) (hst : IsStatus status)
    (hfirst : FirstAt (hasEmail email) lines i l) (hr : parseDBLine l = some r) :
    ∃ r1 : dbRecord,
      UpdateStatus now d email status [] =
        (none,
          { d with
            data := some (Join (lines.set i (updated now status [] r).String) ++ ['\n']) }) ∧
      parseDBLine (updated now status [] r).String = some r1 ∧
      r1.Status = status ∧ r1.Email = email ∧ r1.Error = r.Error ∧
      (Fits (UpdateStatus now d email status []).2 →
        ∃ (lines1 : List Str) (l1 : Str),
          readLines (UpdateStatus now d email status []).2 = .ok lines1 ∧
          lines1[i]? = some l1 ∧ parseDBLine l1 = some r1) := by
  obtain ⟨r0, hr0, he⟩ := email_of_hasEmail email l hfirst.2.1
  have e0 : r0 = r := by
    rw [hr] at hr0
    exact (Option.some.inj hr0).symm
  subst e0
  obtain ⟨⟨_, _, t3⟩, _, _⟩ := parseDBLine_fields l r0 hr
  have hi := FirstAt_lt _ _ _ _ hfirst
  have hnl0 := readLines_no_newline d lines hread
  have hnew := updated_no_newline now status [] l r0 hr
    (hnl0 l (List.getElem?_mem hfirst.1)) (IsStatus_clean status hst).2.1 (by simp)
  have hnl : ∀ x ∈ lines.set i (updated now status [] r0).String, '\n' ∉ x := by
    intro x hx
    rcases mem_set_cases _ _ _ _ hx with e | e
    · rw [e]; exact hnew
    · exact hnl0 x e
  have hup := UpdateStatus_of_FirstAt now d lines email status [] i l r0 hread hw hfirst hr
  have hg : (UpdateStatus now d email status []).2 =
      (writeLines d (lines.set i (updated now status [] r0).String)).2 := by
    rw [hup]
    simp [writeLines, hw]
  obtain ⟨r1, hp1, hs1, he1, herr1⟩ := updated_parses now status [] l r0 hr hst
  refine ⟨r1, hup, hp1, hs1, by rw [he1]; exact he, ?_, ?_⟩
  · rw [herr1]
    show TrimSpace r0.Error = r0.Error
    exact t3
  · intro hf
    rw [hg] at hf
    have hrw := readLines_after_write d _ hw (set_ne_nil lines i _ hi) hnl hf
    refine ⟨_, dropCR (updated now status [] r0).String, by rw [hg]; exact hrw.2, ?_,
      by rw [parseDBLine_dropCR]; exact hp1⟩
    rw [List.getElem?_map, List.getElem?_set_self hi]
    rfl

/-- C19 on a record that `ResetStuckSending` reset and the dispatcher then
marks DONE: it still carries the reset message. -/
theorem UpdateStatus_empty_message_keeps_error_witness :
    (ResetStuckSending noon queueStale fiveMinutes).2.readOnly = false ∧
      readLines (ResetStuckSending noon queueStale fiveMinutes).2 = .ok queueResetLines ∧
      UpdateStatus noon (ResetStuckSending noon queueStale fiveMinutes).2
          "a@x.io".toList StatusDone [] =
        (none,
          ⟨some ("2024-03-09T12:00:00Z ; DONE ; a@x.io ; Reset from stuck SENDING state\n" ++
            "2024-03-09T11:59:00Z ; SENDING ; b@x.io\n").toList, false⟩) ∧
      Fits (UpdateStatus noon (ResetStuckSending noon queueStale fiveMinutes).2
        "a@x.io".toList StatusDone []).2 ∧
      ∃ r1 : dbRecord,
        UpdateStatus noon (ResetStuckSending noon queueStale fiveMinutes).2
            "a@x.io".toList StatusDone [] =
          (none,
            { (ResetStuckSending noon queueStale fiveMinutes).2 with
              data := some (Join (queueResetLines.set 0
                (updated noon StatusDone []
                  ⟨⟨2024, 3, 9, 11, 54, 0, 0, 0⟩, StatusPending, "a@x.io".toList,
                    resetMessage⟩).String) ++ ['\n']) }) ∧
        parseDBLine (updated noon StatusDone []
          ⟨⟨2024, 3, 9, 11, 54, 0, 0, 0⟩, StatusPending, "a@x.io".toList,
            resetMessage⟩).String = some r1 ∧
        r1.Status = StatusDone ∧ r1.Email = "a@x.io".toList ∧ r1.Error = resetMessage ∧
        (Fits (UpdateStatus noon (ResetStuckSending noon queueStale fiveMinutes).2
            "a@x.io".toList StatusDone []).2 →
          ∃ (lines1 : List Str) (l1 : Str),
            readLines (UpdateStatus noon (ResetStuckSending noon queueStale fiveMinutes).2
              "a@x.io".toList StatusDone []).2 = .ok lines1 ∧
            lines1[0]? = some l1 ∧ parseDBLine l1 = some r1) :=
  ⟨by rfl, by rfl, by rfl, by decide,
    UpdateStatus_empty_message_keeps_error noon
      (ResetStuckSending noon queueStale fiveMinutes).2 queueResetLines "a@x.io".toList
      StatusDone 0 "2024-03-09T11:54:00Z ; PENDING ; a@x.io ; Reset from stuck SENDING state".toList
      ⟨⟨2024, 3, 9, 11, 54, 0, 0, 0⟩, StatusPending, "a@x.io".toList, resetMessage⟩
      (by rfl) (by rfl) (by decide)
      ⟨by rfl, by decide, fun j x hj => absurd hj (Nat.not_lt_zero j)⟩ (by rfl)⟩
/-! ## Import followed by reconciliation -/

theorem isLetter_props (c : Char) (h : isLetter c = true) : isSpace c = false ∧ c ≠ ';' := by
  have hb : (65 ≤ c.toNat ∧ c.toNat ≤ 90) ∨ (97 ≤ c.toNat ∧ c.toNat ≤ 122) := by
    simpa [isLetter] using h
  constructor
  · simp only [isSpace, Bool.or_eq_false_iff, Bool.and_eq_false_iff, decide_eq_false_iff_not,
      beq_eq_false_iff_ne, ne_eq]
    omega
  · intro e
    subst e
    revert hb
    decide

theorem isDigit_props (c : Char) (h : isDigit c = true) : isSpace c = false ∧ c ≠ ';' := by
  have := stampChar_props c (by simp [stampChar, h])
  exact ⟨this.1, this.2.1⟩

theorem localChar_props (c : Char) (h : localChar c = true) : isSpace c = false ∧ c ≠ ';' := by
  simp only [localChar, Bool.or_eq_true, beq_iff_eq] at h
  rcases h with (((((h | h) | h) | h) | h) | h) | h
  · exact isLetter_props c h
  · exact isDigit_props c h
  all_goals
    subst h
    decide

theorem domainChar_props (c : Char) (h : domainChar c = true) : isSpace c = false ∧ c ≠ ';' := by
  simp only [domainChar, Bool.or_eq_true, beq_iff_eq] at h
  rcases h with ((h | h) | h) | h
  · exact isLetter_props c h
  · exact isDigit_props c h
  all_goals
    subst h
    decide

theorem MatchesImportRegex_props (e : Str) (h : MatchesImportRegex e) :
    (∀ c ∈ e, isSpace c = false ∧ c ≠ ';') ∧ '@' ∈ e ∧ e ≠ [] := by
  obtain ⟨a, b, t, rfl, _, ha, _, hb, _, ht⟩ := h
  refine ⟨?_, by simp, by simp⟩
  intro c hc
  simp only [List.mem_append, List.mem_cons] at hc
  rcases hc with hc | hc | hc | hc | hc
  · exact localChar_props c (ha c hc)
  · subst hc; decide
  · exact domainChar_props c (hb c hc)
  · subst hc; decide
  · exact isLetter_props c (ht c hc)

theorem TrimSpace_importLine (e : Str) (h : MatchesImportRegex e) :
    TrimSpace (e ++ " PENDING".toList) = e ++ " PENDING".toList := by
  obtain ⟨hall, _, hne⟩ := MatchesImportRegex_props e h
  cases e with
  | nil => exact absurd rfl hne
  | cons x xs =>
    have hx : ¬ isSpace x = true := by
      have := (hall x (by simp)).1
      simp [this]
    have e1 : (x :: xs) ++ " PENDING".toList = ((x :: xs) ++ " PENDIN".toList) ++ ['G'] := by
      simp
    unfold TrimSpace
    rw [List.cons_append, List.dropWhile_cons_of_neg hx, ← List.cons_append, e1]
    exact List.rdropWhile_concat_neg isSpace _ 'G' (by decide)

/-- The line the import appends for an address, once the reconciliation pass
has rewritten it, parses to status PENDING and the zero time, with an email
that is the address followed by ` PENDING`. -/
theorem import_line_reconciled (e : Str) (h : MatchesImportRegex e) :
    eligible (e ++ " PENDING".toList) = true ∧
      reconcileLine (e ++ " PENDING".toList) =
        "0000-00-00T00:00:00Z ; PENDING ; ".toList ++ e ++ " PENDING".toList ∧
      parseDBLine (reconcileLine (e ++ " PENDING".toList)) =
        some ⟨Time.zero, StatusPending, e ++ " PENDING".toList, []⟩ ∧
      e ++ " PENDING".toList ≠ e := by
  obtain ⟨hall, hat, hne⟩ := MatchesImportRegex_props e h
  have htrim := TrimSpace_importLine e h
  have hsemi : ';' ∉ e ++ " PENDING".toList := by
    intro hm
    rcases List.mem_append.1 hm with hm | hm
    · exact (hall _ hm).2 rfl
    · revert hm
      decide
  have hel : eligible (e ++ " PENDING".toList) = true := by
    simp only [eligible, htrim, decide_eq_true_eq]
    exact ⟨by simp [hne], List.mem_append_left _ hat, hsemi⟩
  have hline : reconcileLine (e ++ " PENDING".toList) =
      (⟨Time.zero, StatusPending, e ++ " PENDING".toList, []⟩ : dbRecord).String := by
    unfold reconcileLine
    rw [if_pos hel, htrim]
    have hz : Time.zero.IsZero = true := by decide
    simp only [dbRecord.String, hz, if_true]
    simp
  refine ⟨hel, ?_, ?_, ?_⟩
  · rw [← reconcilePrefix_eq]
    unfold reconcileLine
    rw [if_pos hel, htrim]
    simp only [List.append_assoc]
  · have hs : ';' ∉ StatusPending := by decide
    rw [hline, parseDBLine_String _ hs hsemi (by simp)]
    have hst : stampText Time.zero = zeroStamp := by decide
    have hp : TrimSpace StatusPending = StatusPending := by decide
    simp only [hst, Parse_zeroStamp, htrim, hp, TrimSpace_nil]
    rfl
  · intro he
    have := congrArg List.length he
    simp at this

/-- C18, the code at the address `foo@bar.com` and an empty queue file:
`ImportEmailsFromFile` appends `foo@bar.com PENDING`, the reconciliation pass
rewrites that line, and the record it parses to has the email
`foo@bar.com PENDING`, which is what `GetNextPending` then hands to the
dispatcher. -/
theorem import_reconcile_email_keeps_suffix :
    MatchesImportRegex "foo@bar.com".toList ∧
      ImportEmailsFromFile emptyFile ["foo@bar.com".toList] =
        (none, ⟨some "foo@bar.com PENDING\n".toList, false⟩) ∧
      UpdateDataFile ⟨some "foo@bar.com PENDING\n".toList, false⟩ =
        (none, ⟨some "0000-00-00T00:00:00Z ; PENDING ; foo@bar.com PENDING\n\n".toList,
          false⟩) ∧
      readLines ⟨some "0000-00-00T00:00:00Z ; PENDING ; foo@bar.com PENDING\n\n".toList,
          false⟩ =
        .ok ["0000-00-00T00:00:00Z ; PENDING ; foo@bar.com PENDING".toList, []] ∧
      parseDBLine "0000-00-00T00:00:00Z ; PENDING ; foo@bar.com PENDING".toList =
        some ⟨Time.zero, StatusPending, "foo@bar.com PENDING".toList, []⟩ ∧
      "foo@bar.com PENDING".toList ≠ "foo@bar.com".toList ∧
      (GetNextPending noon
          ⟨some "0000-00-00T00:00:00Z ; PENDING ; foo@bar.com PENDING\n\n".toList, false⟩).1 =
        .ok ⟨"foo@bar.com PENDING".toList, StatusPending, []⟩ :=
  ⟨⟨"foo".toList, "bar".toList, "com".toList, by decide, by decide, by decide, by decide,
      by decide, by decide, by decide⟩,
    by rfl, by rfl, by rfl, by rfl, by decide, by rfl⟩

/-! ## Files whose lines stay below the limit of the scanner -/

theorem utf8Size_ascii (c : Char) (h : c.toNat ≤ 127) : c.utf8Size = 1 := by
  unfold Char.utf8Size
  have h2 : c.val ≤ 127 := by
    show c.val.toNat ≤ 127
    exact h
  simp [h2]

theorem stampChar_utf8Size (c : Char) (h : stampChar c = true) : c.utf8Size = 1 := by
  simp only [stampChar, Bool.or_eq_true, beq_iff_eq] at h
  rcases h with ((((h | h) | h) | h) | h) | h
  · have hb : 48 ≤ c.toNat ∧ c.toNat ≤ 57 := by
      simpa [isDigit] using h
    exact utf8Size_ascii c (by omega)
  all_goals (subst h; decide)

theorem byteLen_eq_length (s : Str) (h : ∀ c ∈ s, c.utf8Size = 1) : byteLen s = s.length := by
  induction s with
  | nil => rfl
  | cons c cs ih =>
    rw [byteLen_cons, h c (by simp), ih (fun x hx => h x (by simp [hx]))]
    simp
    omega

theorem length_Format_le (t : Time) (hwf : t.WF) (hy : t.year ≤ 9999)
    (hm : t.offset % 60 = 0) (hlo : -360000 < t.offset) (hhi : t.offset < 360000) :
    t.Format.length ≤ 25 := by
  obtain ⟨h1, h2, h3, h4, h5, h6, h7, _⟩ := hwf
  have hd := daysIn_le t.month t.year
  unfold Time.Format
  rw [appendInt_four t.year (by omega), appendInt_two t.month (by omega),
    appendInt_two t.day (by omega), appendInt_two t.hour (by omega),
    appendInt_two t.minute (by omega), appendInt_two t.second (by omega)]
  have hz : (formatZone t.offset).length ≤ 6 := by
    unfold formatZone
    split
    · simp
    · obtain ⟨k, hk⟩ : ∃ k : Int, t.offset = k * 60 := ⟨t.offset / 60, by omega⟩
      have htd : Int.tdiv t.offset 60 = k := by
        rw [hk]; exact Int.mul_tdiv_cancel k (by decide)
      obtain ⟨z, hz⟩ : ∃ z : Nat, k.natAbs = z := ⟨_, rfl⟩
      have hb : z / 60 < 100 := by omega
      have hc : z % 60 < 100 := by omega
      simp only [htd, hz]
      rw [appendInt_two _ hb, appendInt_two _ hc]
      simp
  simp
  omega

theorem byteLen_stampText_le (t : Time) (hwf : t.WF) (hy : t.year ≤ 9999)
    (hm : t.offset % 60 = 0) (hlo : -360000 < t.offset) (hhi : t.offset < 360000) :
    byteLen (stampText t) ≤ 25 := by
  rw [byteLen_eq_length _ (fun c hc => stampChar_utf8Size c (stampChar_stampText t c hc))]
  unfold stampText
  split
  · decide
  · exact length_Format_le t hwf hy hm hlo hhi

theorem byteLen_le_of_sublist (a b : Str) (h : a.Sublist b) : byteLen a ≤ byteLen b := by
  unfold byteLen
  exact List.Sublist.sum_le_sum (h.map _) (fun _ _ => Nat.zero_le _)

theorem byteLen_TrimSpace_le (s : Str) : byteLen (TrimSpace s) ≤ byteLen s := by
  apply byteLen_le_of_sublist
  unfold TrimSpace
  exact ((List.rdropWhile_prefix isSpace _).sublist).trans
    ((List.dropWhile_suffix isSpace).sublist)

theorem byteLen_Split_le (sep : Char) (s : Str) :
    ((Split sep s).map byteLen).sum ≤ byteLen s := by
  induction s with
  | nil => simp [Split, byteLen]
  | cons c cs ih =>
    unfold Split
    by_cases hc : c = sep
    · simp only [hc, if_true, List.map_cons, List.sum_cons, byteLen_nil, byteLen_cons]
      omega
    · simp only [hc, if_false]
      cases hsp : Split sep cs with
      | nil => exact absurd hsp (Split_ne_nil sep cs)
      | cons q qs =>
        rw [hsp] at ih
        simp only [List.map_cons, List.sum_cons, byteLen_cons] at ih ⊢
        omega

theorem byteLen_ReplaceAll (s : Str) : byteLen (ReplaceAll s ';' ',') = byteLen s := by
  unfold ReplaceAll
  induction s with
  | nil => rfl
  | cons c cs ih =>
    rw [List.map_cons, byteLen_cons, byteLen_cons, ih]
    by_cases hc : c = ';'
    · subst hc
      simp
      decide
    · simp [hc]

theorem byteLen_fields_le (l : Str) (r : dbRecord) (h : parseDBLine l = some r) :
    byteLen r.Status + byteLen r.Email + byteLen r.Error ≤ byteLen l := by
  unfold parseDBLine at h
  simp only at h
  split at h
  · exact absurd h (by simp)
  · split at h
    · rename_i p0 p1 p2 rest hsp
      have hs := byteLen_Split_le ';' (TrimSpace l)
      rw [hsp] at hs
      have ht := byteLen_TrimSpace_le l
      have h1 := byteLen_TrimSpace_le p1
      have h2 := byteLen_TrimSpace_le p2
      have hr := Option.some.inj h
      subst hr
      cases rest with
      | nil =>
        simp only [List.map_cons, List.sum_cons, List.map_nil, List.sum_nil] at hs
        simp only [byteLen_nil]
        omega
      | cons p3 rest1 =>
        have h3 := byteLen_TrimSpace_le p3
        simp only [List.map_cons, List.sum_cons] at hs
        simp only
        omega
    · exact absurd h (by simp)

theorem byteLen_String_le (r : dbRecord) :
    byteLen r.String ≤
      byteLen (stampText r.Timestamp) + byteLen r.Status + byteLen r.Email + byteLen r.Error +
        9 := by
  have e : r.String = if r.Error ≠ [] then
      stampText r.Timestamp ++ fieldSep ++ r.Status ++ fieldSep ++ r.Email ++ fieldSep ++ r.Error
      else stampText r.Timestamp ++ fieldSep ++ r.Status ++ fieldSep ++ r.Email := rfl
  have hf : byteLen fieldSep = 3 := by decide
  rw [e]
  split
  · simp only [byteLen_append, hf]
    omega
  · simp only [byteLen_append, hf]
    omega

theorem Fits_write (d : Disk) (ls : List Str) (hw : d.readOnly = false)
    (hnl : ∀ l ∈ ls, '\n' ∉ l) (hfit : ∀ l ∈ ls, byteLen l < MaxScanTokenSize) :
    Fits (writeLines d ls).2 := by
  have hd : (writeLines d ls).2.data = some (Join ls ++ ['\n']) := by
    simp [writeLines, hw]
  unfold Fits
  rw [hd]
  show ∀ p ∈ Split '\n' (Join ls ++ ['\n']), byteLen p < MaxScanTokenSize
  by_cases hne : ls = []
  · subst hne
    decide
  · rw [Split_Join_newline ls hne hnl]
    intro p hp
    rcases List.mem_append.1 hp with h | h
    · exact hfit p h
    · have : p = [] := by simpa using h
      subst this
      decide

theorem byteLen_IsStatus (s : Str) (h : IsStatus s) : byteLen s ≤ 12 := by
  rcases h with h | h | h | h | h <;> subst h <;> decide

/-- The condition `Fits` on the file after a call, from the file before it:
when the clock reads a year of four digits in a zone within a day and every
line read has at most 65000 bytes, no line of the file after
`GetNextPending`, after `ResetStuckSending`, or after `UpdateStatus` with a
status of the five and a message of at most 400 bytes without line break
reaches `MaxScanTokenSize` bytes. -/
theorem Fits_after_call (now : Time) (d : Disk) (lines : List Str)
    (hread : readLines d = .ok lines) (hwf : now.WF) (hy : now.year ≤ 9999)
    (hm : now.offset % 60 = 0) (hlo : -86400 < now.offset) (hhi : now.offset < 86400)
    (hshort : ∀ l ∈ lines, byteLen l ≤ 65000) :
    Fits (GetNextPending now d).2 ∧
      (∀ timeout, Fits (ResetStuckSending now d timeout).2) ∧
      (∀ email status msg, IsStatus status → '\n' ∉ msg → byteLen msg ≤ 400 →
        Fits (UpdateStatus now d email status msg).2) := by
  have hfd : Fits d := Fits_of_readLines d lines hread
  have hnl0 := readLines_no_newline d lines hread
  have hmax : MaxScanTokenSize = 65536 := rfl
  have hnow : byteLen (stampText now) ≤ 25 :=
    byteLen_stampText_le now hwf hy hm (by omega) (by omega)
  have hfit0 : ∀ l ∈ lines, byteLen l < MaxScanTokenSize := by
    intro l hl
    have := hshort l hl
    omega
  refine ⟨?_, ?_, ?_⟩
  · by_cases hex : ∃ l ∈ lines, isPendingLine l = true
    · obtain ⟨i, l, hfirst⟩ := exists_FirstAt isPendingLine lines hex
      obtain ⟨r, hr, hs⟩ := pending_of_isPendingLine l hfirst.2.1
      have hlmem : l ∈ lines := List.getElem?_mem hfirst.1
      by_cases hw : d.readOnly = true
      · have hg : (GetNextPending now d).2 = d := by
          unfold GetNextPending
          simp [hread, claimLoop_FirstAt now lines i l r hfirst hr, writeLines, hw]
        rw [hg]
        exact hfd
      · have hw2 : d.readOnly = false := by simpa using hw
        have hg : (GetNextPending now d).2 =
            (writeLines d (lines.set i (claimed now r).String)).2 := by
          rw [GetNextPending_of_FirstAt now d lines i l r hread hw2 hfirst hr]
          simp [writeLines, hw2]
        have hnew := claimed_no_newline now l r hr (hnl0 l hlmem)
        have hlen : byteLen (claimed now r).String < MaxScanTokenSize := by
          have h1 := byteLen_String_le (claimed now r)
          have h2 := byteLen_fields_le l r hr
          have h3 := hshort l hlmem
          have h4 : byteLen (claimed now r).Status = 7 := by
            show byteLen StatusSending = 7
            decide
          have h5 : byteLen (stampText (claimed now r).Timestamp) ≤ 25 := hnow
          have h6 : (claimed now r).Email = r.Email := rfl
          have h7 : (claimed now r).Error = r.Error := rfl
          rw [h4, h6, h7] at h1
          omega
        rw [hg]
        apply Fits_write d _ hw2
        · intro x hx
          rcases mem_set_cases _ _ _ _ hx with e | e
          · rw [e]; exact hnew
          · exact hnl0 x e
        · intro x hx
          rcases mem_set_cases _ _ _ _ hx with e | e
          · rw [e]; exact hlen
          · exact hfit0 x e
    · have hno : ∀ l ∈ lines, isPendingLine l = false := by
        intro l hl
        by_contra hc
        exact hex ⟨l, hl, by simpa using hc⟩
      rw [GetNextPending_none now d lines hread hno]
      exact hfd
  · intro timeout
    by_cases hc : 0 < lines.countP (isStale now timeout) ∧ d.readOnly = false
    · obtain ⟨hc, hw⟩ := hc
      have hg : (ResetStuckSending now d timeout).2 =
          (writeLines d (lines.map (resetLine now timeout))).2 := by
        unfold ResetStuckSending
        simp [hread, resetLoop_eq, hc]
      rw [hg]
      apply Fits_write d _ hw
      · intro x hx
        obtain ⟨y, hy, e⟩ := List.mem_map.1 hx
        rw [← e]
        exact resetLine_no_newline now timeout y (hnl0 y hy)
      · intro x hx
        obtain ⟨y, hy2, e⟩ := List.mem_map.1 hx
        rw [← e]
        by_cases hs : isStale now timeout y = true
        · obtain ⟨r, hp, _, hz, _, hline⟩ := stale_of_isStale now timeout y hs
          have hst : byteLen (stampText r.Timestamp) ≤ 25 := by
            rcases parseDBLine_stamp y r hp with e0 | ⟨s, hs2⟩
            · rw [e0] at hz
              exact absurd hz (by decide)
            · obtain ⟨w1, w2, w3, w4, w5⟩ := Parse_props s r.Timestamp hs2
              exact byteLen_stampText_le r.Timestamp w1 w2 w3 (by omega) (by omega)
          have h1 := byteLen_String_le (resetRecord r)
          have h2 := byteLen_fields_le y r hp
          have h3 := hshort y hy2
          have h4 : byteLen (resetRecord r).Status = 7 := by
            show byteLen StatusPending = 7
            decide
          have h5 : byteLen (resetRecord r).Error = 30 := by
            show byteLen resetMessage = 30
            decide
          have h6 : (resetRecord r).Email = r.Email := rfl
          have h7 : (resetRecord r).Timestamp = r.Timestamp := rfl
          rw [h4, h5, h6, h7] at h1
          rw [hline]
          omega
        · rw [resetLine_not_stale now timeout y (by simpa using hs)]
          exact hfit0 y hy2
    · have hg : (ResetStuckSending now d timeout).2 = d := by
        unfold ResetStuckSending
        simp only [hread, resetLoop_eq]
        by_cases h0 : 0 < lines.countP (isStale now timeout)
        · have hw : d.readOnly = true := by
            by_contra hw
            exact hc ⟨h0, by simpa using hw⟩
          simp [h0, writeLines, hw]
        · simp [h0]
      rw [hg]
      exact hfd
  · intro email status msg hst hmsg hmlen
    have hs : '\n' ∉ status := (IsStatus_clean status hst).2.1
    by_cases hw : d.readOnly = true
    · have hg : (UpdateStatus now d email status msg).2 = d := by
        rw [UpdateStatus_eq]
        unfold updateRecord
        simp [hread, writeLines, hw]
      rw [hg]
      exact hfd
    · have hw2 : d.readOnly = false := by simpa using hw
      by_cases hex : ∃ l ∈ lines, hasEmail email l = true
      · obtain ⟨i, l, hfirst⟩ := exists_FirstAt (hasEmail email) lines hex
        obtain ⟨r, hr, _⟩ := email_of_hasEmail email l hfirst.2.1
        have hlmem : l ∈ lines := List.getElem?_mem hfirst.1
        have hnew := updated_no_newline now status msg l r hr (hnl0 l hlmem) hs hmsg
        have hg : (UpdateStatus now d email status msg).2 =
            (writeLines d (lines.set i (updated now status msg r).String)).2 := by
          rw [UpdateStatus_of_FirstAt now d lines email status msg i l r hread hw2 hfirst hr]
          simp [writeLines, hw2]
        have hlen : byteLen (updated now status msg r).String < MaxScanTokenSize := by
          have h1 := byteLen_String_le (updated now status msg r)
          have h2 := byteLen_fields_le l r hr
          have h3 := hshort l hlmem
          have h4 : byteLen (updated now status msg r).Status ≤ 12 := byteLen_IsStatus status hst
          have h5 : byteLen (stampText (updated now status msg r).Timestamp) ≤ 25 := hnow
          have h6 : (updated now status msg r).Email = r.Email := rfl
          have h7 : byteLen (updated now status msg r).Error ≤ 400 + byteLen r.Error := by
            show byteLen (if msg ≠ [] then ReplaceAll msg ';' ',' else r.Error) ≤ _
            split
            · rw [byteLen_ReplaceAll]
              omega
            · omega
          rw [h6] at h1
          omega
        rw [hg]
        apply Fits_write d _ hw2
        · intro x hx
          rcases mem_set_cases _ _ _ _ hx with e | e
          · rw [e]; exact hnew
          · exact hnl0 x e
        · intro x hx
          rcases mem_set_cases _ _ _ _ hx with e | e
          · rw [e]; exact hlen
          · exact hfit0 x e
      · have hno : ∀ l ∈ lines, hasEmail email l = false := by
          intro l hl
          by_contra hc
          exact hex ⟨l, hl, by simpa using hc⟩
        have hg : (UpdateStatus now d email status msg).2 = (writeLines d lines).2 := by
          rw [UpdateStatus_no_match now d lines email status msg hread hw2 hno]
          simp [writeLines, hw2]
        rw [hg]
        exact Fits_write d lines hw2 hnl0 hfit0

end BulkMail
